import Mathlib

/-!
# BUSE RAID-0 / RAID-4: block-address translation and parity maintenance

A shallow embedding of `src/raid4/raid4.c` and `src/cp_BUSE/raid0/raid0.c`.

* Memory regions (the caller's buffer, scratch blocks, the contents of a
  backing file) are maps from a byte index to a byte value.
* A pointer into a region is the region together with a position.
* `u_int32_t` values are natural numbers reduced modulo `2^32` at every place
  where the C program stores or computes a 32-bit quantity.
* The `while` loops run on fuel; `none` means the fuel ran out.
* Every positional I/O call is recorded as an `Op`, in the order it is issued.
-/

namespace BUSE

/-- Conversion to `u_int32_t`. -/
def u32 (n : Nat) : Nat := n % 4294967296

/-- A region of memory: byte index to byte value. -/
abbrev Buf := Nat → Nat

/-- One positional I/O call (`pread` or `pwrite`) as issued by the program. -/
structure Op where
  /-- Is `true` for `pwrite`, `false` for `pread`. -/
  is_write : Bool
  /-- The index `i` of the descriptor `dev_fd[i]` the call is made on. -/
  slot : Nat
  /-- The file offset argument. -/
  off : Nat
  /-- The byte count argument. -/
  count : Nat
  /-- Position in the caller's buffer of the memory argument; `none` for a scratch block. -/
  upos : Option Nat
  deriving DecidableEq, Repr

/-- POSIX `pread(fd, buf + pos, count, off)` on the file with contents `file`:
the bytes `[off, off + count)` of the file land in `[pos, pos + count)` of the
memory region. A call on descriptor `-1` fails and leaves the memory untouched. -/
def pread (fd : Int) (file : Buf) (buf : Buf) (pos count off : Nat) : Buf :=
  fun j => if fd ≠ -1 ∧ pos ≤ j ∧ j < pos + count then file (off + (j - pos)) else buf j

/-- POSIX `pwrite(fd, buf + pos, count, off)`: the new contents of the file.
A call on descriptor `-1` fails and leaves the file untouched. -/
def pwrite (fd : Int) (file : Buf) (buf : Buf) (pos count off : Nat) : Buf :=
  fun a => if fd ≠ -1 ∧ off ≤ a ∧ a < off + count then buf (pos + (a - off)) else file a

/-- C `memcpy(dst + dpos, src + spos, n)`: the new contents of `dst`. -/
def memcpy (dst : Buf) (dpos : Nat) (src : Buf) (spos n : Nat) : Buf :=
  fun j => if dpos ≤ j ∧ j < dpos + n then src (spos + (j - dpos)) else dst j

/-- The bytes `[pos, pos + n)` of a region, as a list. -/
def bytes (buf : Buf) (pos n : Nat) : List Nat :=
  (List.range n).map (fun i => buf (pos + i))

/-- A region holding the listed bytes from index 0 on, zero elsewhere. -/
def ofBytes (l : List Nat) : Buf := fun j => l.getD j 0

/-- A positional I/O call stays inside a backing device of `m` bytes and
transfers between 1 and `block_size` bytes. -/
def OpOK (m block_size : Nat) (op : Op) : Prop :=
  op.off + op.count ≤ m ∧ 0 < op.count ∧ op.count ≤ block_size

/-- The exported size of the spec's data model:
`floor(min_backing_size / block_size) * block_size * data_device_count`. -/
def virtual_size (m block_size data_device_count : Nat) : Nat :=
  m / block_size * block_size * data_device_count

/-- The data device that the spec's block mapping assigns to virtual offset `o`:
logical block `B = o / block_size` lives on data device `B mod data_device_count`. -/
def spec_device (block_size data_device_count o : Nat) : Nat :=
  (o / block_size) % data_device_count

/-- The device offset that the spec's block mapping assigns to virtual offset
`o`: in-device block index `B / data_device_count`, byte `o mod block_size`. -/
def spec_device_offset (block_size data_device_count o : Nat) : Nat :=
  (o / block_size) / data_device_count * block_size + o % block_size

/-- The data device that the programs compute for virtual offset `p`: the block
number `p / block_size` is held in a `u_int32_t`. -/
def code_device (block_size data_device_count p : Nat) : Nat :=
  u32 (p / block_size) % data_device_count

/-- The device offset that the programs compute for virtual offset `p`: 32-bit
block number, 32-bit product `block index * block_size`, plus the byte offset
within the block. -/
def code_device_offset (block_size data_device_count p : Nat) : Nat :=
  u32 (u32 (p / block_size) / data_device_count * block_size) + p % block_size

/-- The device and device offset that the programs compute for virtual offset `p`. -/
def code_loc (block_size data_device_count p : Nat) : Nat × Nat :=
  (code_device block_size data_device_count p, code_device_offset block_size data_device_count p)

/-- The device and device offset that the spec's block mapping assigns to
virtual offset `p`. -/
def spec_loc (block_size data_device_count p : Nat) : Nat × Nat :=
  (spec_device block_size data_device_count p, spec_device_offset block_size data_device_count p)

/-- The transfers `ts` fill the caller's buffer from position `p` to position
`q` in order, each starting at the buffer byte where the previous one ended. -/
def Covers : Nat → List Op → Nat → Prop
  | p, [], q => p = q
  | p, t :: ts, q => t.upos = some p ∧ Covers (p + t.count) ts q

/-- Every call of `ops` is a `pwrite` (`wr = true`) or `pread` (`wr = false`) on
the caller's buffer inside `[lo, hi)`, and moves buffer byte `j` to or from the
device and device offset `loc j`. -/
def TransfersAt (wr : Bool) (loc : Nat → Nat × Nat) (lo hi : Nat) (ops : List Op) : Prop :=
  ∀ op ∈ ops, op.is_write = wr ∧
    ∀ u j, op.upos = some u → u ≤ j → j < u + op.count →
      lo ≤ u ∧ u + op.count ≤ hi ∧ (op.slot, op.off + (j - u)) = loc j

/-! ## RAID-4 (`src/raid4/raid4.c`) -/

namespace Raid4

/-- The global variables of `raid4.c` together with the contents of the backing
files: `disk i` is the file opened as `dev_fd[i]`. `fresh` is the (arbitrary)
content of memory returned by `malloc`. -/
structure State where
  block_size : Nat
  num_devices : Nat
  dev_fd : Nat → Int
  degraded : Bool
  raid_device_size : Nat
  rebuild_dev : Nat
  disk : Nat → Buf
  fresh : Buf

/-- The state after `pwrite(dev_fd[slot], buf + pos, count, off)`. -/
def State.pwrite (st : State) (slot : Nat) (buf : Buf) (pos count off : Nat) : State :=
  { st with disk := fun s =>
      if s = slot then BUSE.pwrite (st.dev_fd slot) (st.disk slot) buf pos count off
      else st.disk s }

/-- Source `bigxor`: XOR `buf2` into `buf1` over `[0, block_size)`. -/
def bigxor (st : State) (buf1 buf2 : Buf) : Buf :=
  fun i => if i < st.block_size then buf1 i ^^^ buf2 i else buf1 i

/-- Loop variables of `getMissedBlk`. -/
structure MissedAcc where
  buf1 : Buf
  buf2 : Buf
  buf1_inited : Bool
  ops : List Op

/-- One iteration of the `for` loop of `getMissedBlk` (slot `i`). -/
def getMissedBlk_step (st : State) (on_device_blk_idx : Nat) (acc : MissedAcc) (i : Nat) :
    MissedAcc :=
  if st.dev_fd i ≠ -1 then
    if acc.buf1_inited = false then
      { acc with
        buf1 := pread (st.dev_fd i) (st.disk i) acc.buf1 0 st.block_size
                  (u32 (on_device_blk_idx * st.block_size))
        buf1_inited := true
        ops := acc.ops ++ [⟨false, i, u32 (on_device_blk_idx * st.block_size), st.block_size, none⟩] }
    else
      let buf2 := pread (st.dev_fd i) (st.disk i) acc.buf2 0 st.block_size
                    (u32 (on_device_blk_idx * st.block_size))
      { acc with
        buf1 := bigxor st acc.buf1 buf2
        buf2 := buf2
        ops := acc.ops ++ [⟨false, i, u32 (on_device_blk_idx * st.block_size), st.block_size, none⟩] }
  else acc

/-- Source `getMissedBlk`: XOR of the block over every slot whose descriptor is
not `-1`; returns the block and the reads issued. -/
def getMissedBlk (st : State) (on_device_blk_idx : Nat) : Buf × List Op :=
  let acc := (List.range st.num_devices).foldl (getMissedBlk_step st on_device_blk_idx)
    ⟨st.fresh, st.fresh, false, []⟩
  (acc.buf1, acc.ops)

/-- The body shared by the head and the loop of `xmp_read` (lines 86-93 and
103-110): read the piece from its device, or copy it from `getMissedBlk`. -/
def read_piece (st : State) (buf : Buf) (pos device_idx on_device_blk_idx len_tobe_read
    device_offset : Nat) : Buf × List Op :=
  if st.dev_fd device_idx ≠ -1 then
    (pread (st.dev_fd device_idx) (st.disk device_idx) buf pos len_tobe_read device_offset,
     [⟨false, device_idx, device_offset, len_tobe_read, some pos⟩])
  else
    let blk_calced := getMissedBlk st on_device_blk_idx
    (memcpy buf pos blk_calced.1 0 len_tobe_read, blk_calced.2)

/-- The `while (len > 0)` loop of `xmp_read`. -/
def xmp_read_loop (st : State) : Nat → Buf → Nat → Nat → Nat → Option (Buf × List Op)
  | 0, buf, _, len, _ => if len = 0 then some (buf, []) else none
  | fuel + 1, buf, pos, len, blk_num =>
    if len = 0 then some (buf, []) else
      let blk_num := u32 (blk_num + 1)
      let device_idx := blk_num % (st.num_devices - 1)
      let on_device_blk_idx := blk_num / (st.num_devices - 1)
      let device_offset := u32 (on_device_blk_idx * st.block_size)
      let len_tobe_read := if len ≤ u32 st.block_size then len else u32 st.block_size
      let r := read_piece st buf pos device_idx on_device_blk_idx len_tobe_read device_offset
      match xmp_read_loop st fuel r.1 (pos + len_tobe_read) (len - len_tobe_read) blk_num with
      | none => none
      | some r2 => some (r2.1, r.2 ++ r2.2)

/-- What a read callback leaves behind: the caller's buffer, the I/O calls
issued, and the returned status. -/
structure ReadResult where
  buf : Buf
  ops : List Op
  status : Int

/-- Source `xmp_read` of `raid4.c`. -/
def xmp_read (fuel : Nat) (st : State) (buf : Buf) (len offset : Nat) : Option ReadResult :=
  let blk_num := u32 (offset / st.block_size)
  let device_idx := blk_num % (st.num_devices - 1)
  let on_device_blk_idx := blk_num / (st.num_devices - 1)
  let offset_on_blk := offset % st.block_size
  let device_offset := u32 (on_device_blk_idx * st.block_size) + offset_on_blk
  let len_tobe_read :=
    u32 (if len ≤ st.block_size - offset_on_blk then len else st.block_size - offset_on_blk)
  let r := read_piece st buf 0 device_idx on_device_blk_idx len_tobe_read device_offset
  match xmp_read_loop st fuel r.1 len_tobe_read (len - len_tobe_read) blk_num with
  | none => none
  | some r2 => some ⟨r2.1, r.2 ++ r2.2, 0⟩

/-- Source `get_new_parity_blk`: the new contents of `parity_blk`. -/
def get_new_parity_blk (st : State) (new_blk old_blk parity_blk : Buf) : Buf :=
  fun i => if i < st.block_size then (parity_blk i ^^^ old_blk i) ^^^ new_blk i else parity_blk i

/-- Source `write_into_blk`: read-modify-write of one piece and its parity block. -/
def write_into_blk (st : State) (buf : Buf) (pos device_idx len_tobe_write device_offset
    on_device_blk_idx : Nat) : State × List Op :=
  let blk_off := u32 (on_device_blk_idx * st.block_size)
  let old_blk := pread (st.dev_fd device_idx) (st.disk device_idx) st.fresh 0 st.block_size blk_off
  let parity_blk := pread (st.dev_fd (st.num_devices - 1)) (st.disk (st.num_devices - 1))
    st.fresh 0 st.block_size blk_off
  let st1 := st.pwrite device_idx buf pos len_tobe_write device_offset
  let new_blk := pread (st1.dev_fd device_idx) (st1.disk device_idx) st.fresh 0 st.block_size
    blk_off
  let parity_blk := get_new_parity_blk st new_blk old_blk parity_blk
  let st2 := st1.pwrite (st.num_devices - 1) parity_blk 0 st.block_size blk_off
  (st2,
   [⟨false, device_idx, blk_off, st.block_size, none⟩,
    ⟨false, st.num_devices - 1, blk_off, st.block_size, none⟩,
    ⟨true, device_idx, device_offset, len_tobe_write, some pos⟩,
    ⟨false, device_idx, blk_off, st.block_size, none⟩,
    ⟨true, st.num_devices - 1, blk_off, st.block_size, none⟩])

/-- Source `write_on_missed`: the target slot is absent, only parity is updated. -/
def write_on_missed (st : State) (buf : Buf) (pos on_device_blk_idx offset_on_blk
    len_tobe_write : Nat) : State × List Op :=
  let blk_off := u32 (on_device_blk_idx * st.block_size)
  let old_blk := getMissedBlk st on_device_blk_idx
  let new_blk := memcpy st.fresh 0 old_blk.1 0 st.block_size
  let new_blk := memcpy new_blk offset_on_blk buf pos len_tobe_write
  let parity_blk := pread (st.dev_fd (st.num_devices - 1)) (st.disk (st.num_devices - 1))
    st.fresh 0 st.block_size blk_off
  let parity_blk := get_new_parity_blk st new_blk old_blk.1 parity_blk
  let st1 := st.pwrite (st.num_devices - 1) parity_blk 0 st.block_size blk_off
  (st1,
   old_blk.2 ++
   [⟨false, st.num_devices - 1, blk_off, st.block_size, none⟩,
    ⟨true, st.num_devices - 1, blk_off, st.block_size, none⟩])

/-- The three-way body of the degraded branch of `xmp_write` (lines 179-186 and
196-203). -/
def write_piece_degraded (st : State) (buf : Buf) (pos device_idx on_device_blk_idx
    offset_on_blk len_tobe_write device_offset : Nat) : State × List Op :=
  if st.dev_fd device_idx = -1 then
    write_on_missed st buf pos on_device_blk_idx offset_on_blk len_tobe_write
  else if st.dev_fd (st.num_devices - 1) = -1 then
    (st.pwrite device_idx buf pos len_tobe_write device_offset,
     [⟨true, device_idx, device_offset, len_tobe_write, some pos⟩])
  else
    write_into_blk st buf pos device_idx len_tobe_write device_offset on_device_blk_idx

/-- The body of the non-degraded branch of `xmp_write` (lines 209 and 219). -/
def write_piece_healthy (st : State) (buf : Buf) (pos device_idx on_device_blk_idx
    _offset_on_blk len_tobe_write device_offset : Nat) : State × List Op :=
  write_into_blk st buf pos device_idx len_tobe_write device_offset on_device_blk_idx

/-- The `while (len > 0)` loops of `xmp_write`; `piece` is the body of the branch. -/
def xmp_write_loop
    (piece : State → Buf → Nat → Nat → Nat → Nat → Nat → Nat → State × List Op) :
    Nat → State → Buf → Nat → Nat → Nat → Option (State × List Op)
  | 0, st, _, _, len, _ => if len = 0 then some (st, []) else none
  | fuel + 1, st, buf, pos, len, blk_num =>
    if len = 0 then some (st, []) else
      let blk_num := u32 (blk_num + 1)
      let device_idx := blk_num % (st.num_devices - 1)
      let on_device_blk_idx := blk_num / (st.num_devices - 1)
      let device_offset := u32 (on_device_blk_idx * st.block_size)
      let len_tobe_write := if len ≤ u32 st.block_size then len else u32 st.block_size
      let r := piece st buf pos device_idx on_device_blk_idx 0 len_tobe_write device_offset
      match xmp_write_loop piece fuel r.1 buf (pos + len_tobe_write) (len - len_tobe_write)
          blk_num with
      | none => none
      | some r2 => some (r2.1, r.2 ++ r2.2)

/-- What a write callback leaves behind: the new state, the I/O calls issued,
and the returned status. -/
structure WriteResult where
  st : State
  ops : List Op
  status : Int

/-- Source `xmp_write` of `raid4.c`. -/
def xmp_write (fuel : Nat) (st : State) (buf : Buf) (len offset : Nat) : Option WriteResult :=
  let blk_num := u32 (offset / st.block_size)
  let device_idx := blk_num % (st.num_devices - 1)
  let on_device_blk_idx := blk_num / (st.num_devices - 1)
  let offset_on_blk := offset % st.block_size
  let device_offset := u32 (on_device_blk_idx * st.block_size) + offset_on_blk
  let len_tobe_write :=
    u32 (if len ≤ st.block_size - offset_on_blk then len else st.block_size - offset_on_blk)
  let piece := if st.degraded then write_piece_degraded else write_piece_healthy
  let r := piece st buf 0 device_idx on_device_blk_idx offset_on_blk len_tobe_write device_offset
  match xmp_write_loop piece fuel r.1 buf len_tobe_write (len - len_tobe_write) blk_num with
  | none => none
  | some r2 => some ⟨r2.1, r.2 ++ r2.2, 0⟩

/-- The `for` loop of `do_raid_rebuild`, from block `i` for `n` more blocks. -/
def do_raid_rebuild_loop : Nat → State → Nat → State × List Op
  | 0, st, _ => (st, [])
  | n + 1, st, i =>
    let blk_data := getMissedBlk st i
    let st1 := st.pwrite st.rebuild_dev blk_data.1 0 st.block_size (u32 (i * st.block_size))
    let r := do_raid_rebuild_loop n st1 (i + 1)
    (r.1, blk_data.2 ++ [⟨true, st.rebuild_dev, u32 (i * st.block_size), st.block_size, none⟩]
      ++ r.2)

/-- Source `do_raid_rebuild`. -/
def do_raid_rebuild (st : State) : State × List Op :=
  do_raid_rebuild_loop (u32 (st.raid_device_size / st.block_size)) st 0

end Raid4

/-! ## RAID-0 (`src/cp_BUSE/raid0/raid0.c`) -/

namespace Raid0

/-- The global variables of `raid0.c` together with the contents of the two
backing files: `disk i` is the file opened as `dev_fd[i]`. -/
structure State where
  block_size : Nat
  dev_fd : Nat → Int
  disk : Nat → Buf

/-- Source constant `num_device`. -/
def num_device : Nat := 2

/-- The state after `pwrite(dev_fd[slot], buf + pos, count, off)`. -/
def State.pwrite (st : State) (slot : Nat) (buf : Buf) (pos count off : Nat) : State :=
  { st with disk := fun s =>
      if s = slot then BUSE.pwrite (st.dev_fd slot) (st.disk slot) buf pos count off
      else st.disk s }

/-- The `while (len > 0)` loop of `xmp_read`. -/
def xmp_read_loop (st : State) : Nat → Buf → Nat → Nat → Nat → Option (Buf × List Op)
  | 0, buf, _, len, _ => if len = 0 then some (buf, []) else none
  | fuel + 1, buf, pos, len, start_blk_num =>
    if len = 0 then some (buf, []) else
      let drive_num := start_blk_num % num_device
      let block_idx := start_blk_num / num_device
      if len ≤ u32 st.block_size then
        some (pread (st.dev_fd drive_num) (st.disk drive_num) buf pos len
                (u32 (block_idx * st.block_size)),
              [⟨false, drive_num, u32 (block_idx * st.block_size), len, some pos⟩])
      else
        let buf1 := pread (st.dev_fd drive_num) (st.disk drive_num) buf pos st.block_size
          (u32 (block_idx * st.block_size))
        match xmp_read_loop st fuel buf1 (pos + st.block_size) (u32 (len - st.block_size))
            (u32 (start_blk_num + 1)) with
        | none => none
        | some r2 =>
          some (r2.1,
            ⟨false, drive_num, u32 (block_idx * st.block_size), st.block_size, some pos⟩ :: r2.2)

/-- What a read callback leaves behind: the caller's buffer, the I/O calls
issued, and the returned status. -/
structure ReadResult where
  buf : Buf
  ops : List Op
  status : Int

/-- Source `xmp_read` of `raid0.c`. -/
def xmp_read (fuel : Nat) (st : State) (buf : Buf) (len offset : Nat) : Option ReadResult :=
  let start_blk_num := u32 (offset / st.block_size)
  let start_blk_offset := offset % st.block_size
  let drive_num := start_blk_num % num_device
  let block_idx := start_blk_num / num_device
  if len ≤ st.block_size - start_blk_offset then
    some ⟨pread (st.dev_fd drive_num) (st.disk drive_num) buf 0 len
            (u32 (block_idx * st.block_size) + start_blk_offset),
          [⟨false, drive_num, u32 (block_idx * st.block_size) + start_blk_offset, len, some 0⟩],
          0⟩
  else
    let buf1 := pread (st.dev_fd drive_num) (st.disk drive_num) buf 0
      (st.block_size - start_blk_offset) (u32 (block_idx * st.block_size) + start_blk_offset)
    match xmp_read_loop st fuel buf1 (st.block_size - start_blk_offset)
        (u32 (len - (st.block_size - start_blk_offset))) (u32 (start_blk_num + 1)) with
    | none => none
    | some r2 =>
      some ⟨r2.1,
        ⟨false, drive_num, u32 (block_idx * st.block_size) + start_blk_offset,
          st.block_size - start_blk_offset, some 0⟩ :: r2.2, 0⟩

/-- The `while (len > 0)` loop of `xmp_write`. -/
def xmp_write_loop : Nat → State → Buf → Nat → Nat → Nat → Option (State × List Op)
  | 0, st, _, _, len, _ => if len = 0 then some (st, []) else none
  | fuel + 1, st, buf, pos, len, start_blk_num =>
    if len = 0 then some (st, []) else
      let drive_num := start_blk_num % num_device
      let block_idx := start_blk_num / num_device
      if len ≤ u32 st.block_size then
        some (st.pwrite drive_num buf pos len (u32 (block_idx * st.block_size)),
              [⟨true, drive_num, u32 (block_idx * st.block_size), len, some pos⟩])
      else
        let st1 := st.pwrite drive_num buf pos st.block_size (u32 (block_idx * st.block_size))
        match xmp_write_loop fuel st1 buf (pos + st.block_size) (u32 (len - st.block_size))
            (u32 (start_blk_num + 1)) with
        | none => none
        | some r2 =>
          some (r2.1,
            ⟨true, drive_num, u32 (block_idx * st.block_size), st.block_size, some pos⟩ :: r2.2)

/-- What a write callback leaves behind: the new state, the I/O calls issued,
and the returned status. -/
structure WriteResult where
  st : State
  ops : List Op
  status : Int

/-- Source `xmp_write` of `raid0.c`. -/
def xmp_write (fuel : Nat) (st : State) (buf : Buf) (len offset : Nat) : Option WriteResult :=
  let start_blk_num := u32 (offset / st.block_size)
  let start_blk_offset := offset % st.block_size
  let drive_num := start_blk_num % num_device
  let block_idx := start_blk_num / num_device
  if len ≤ st.block_size - start_blk_offset then
    some ⟨st.pwrite drive_num buf 0 len (u32 (block_idx * st.block_size) + start_blk_offset),
          [⟨true, drive_num, u32 (block_idx * st.block_size) + start_blk_offset, len, some 0⟩],
          0⟩
  else
    let st1 := st.pwrite drive_num buf 0 (st.block_size - start_blk_offset)
      (u32 (block_idx * st.block_size) + start_blk_offset)
    match xmp_write_loop fuel st1 buf (st.block_size - start_blk_offset)
        (u32 (len - (st.block_size - start_blk_offset))) (u32 (start_blk_num + 1)) with
    | none => none
    | some r2 =>
      some ⟨r2.1,
        ⟨true, drive_num, u32 (block_idx * st.block_size) + start_blk_offset,
          st.block_size - start_blk_offset, some 0⟩ :: r2.2, 0⟩

/-- The configuration is `block_size = bs` and both devices are open. -/
def BothOpen (bs : Nat) (st : State) : Prop :=
  st.block_size = bs ∧ ∀ s, s < 2 → st.dev_fd s ≠ -1

/-- Scenario (a): two devices, `block_size = 4`, all zero. -/
def scenario_zero : State := ⟨4, fun s => 3 + s, fun _ _ => 0⟩

/-- Two zeroed devices with `block_size = 4096`. -/
def scenario_4k : State := ⟨4096, fun s => 3 + s, fun _ _ => 0⟩

/-- Two zeroed devices with `block_size = 1`. -/
def scenario_1 : State := ⟨1, fun s => 3 + s, fun _ _ => 0⟩

/-- Two zeroed devices with `block_size = 2^30 + 1`. -/
def scenario_big : State := ⟨1073741825, fun s => 3 + s, fun _ _ => 0⟩

end Raid0

/-! ## Stripe XOR and the parity invariant (specification-level notions) -/

namespace Raid4

/-- XOR of `f s` over the slots `s < n` selected by `p`. -/
def xorOver (p : Nat → Bool) (f : Nat → Nat) : Nat → Nat
  | 0 => 0
  | n + 1 => if p n then xorOver p f n ^^^ f n else xorOver p f n

/-- XOR, over all slots of the array, of the byte at device offset `a`. -/
def stripeXor (st : State) (a : Nat) : Nat :=
  xorOver (fun _ => true) (fun s => st.disk s a) st.num_devices

/-- Slot `s` has a backing device: `dev_fd[s] != -1`. -/
def State.present (st : State) (s : Nat) : Bool := decide (st.dev_fd s ≠ -1)

/-- XOR, over the slots whose descriptor is not `-1`, of the byte at device offset `a`. -/
def presentXor (st : State) (a : Nat) : Nat :=
  xorOver st.present (fun s => st.disk s a) st.num_devices

/-- Byte `i` of block `k` of slot `s`, block `k` being the `block_size` bytes from
device offset `k * block_size`. -/
def blockByte (st : State) (s k i : Nat) : Nat := st.disk s (k * st.block_size + i)

/-- The parity invariant: for every in-device block index `k`, the XOR of block
`k` across all slots is the zero block. -/
def ParityInv (st : State) : Prop :=
  ∀ k i, i < st.block_size →
    xorOver (fun _ => true) (fun s => blockByte st s k i) st.num_devices = 0

/-- No slot of the array is absent and the array runs in the non-degraded mode. -/
def Healthy (st : State) : Prop :=
  st.degraded = false ∧ ∀ s, s < st.num_devices → st.dev_fd s ≠ -1

/-- The file offset `on_device_blk_idx * block_size` as the program computes it
(a 32-bit product). -/
def blk_off (st : State) (on_device_blk_idx : Nat) : Nat :=
  u32 (on_device_blk_idx * st.block_size)

/-- What the head and the loop of `xmp_read` / `xmp_write` hand to the body for
one piece: a data slot `d`, a block index `k`, an in-block offset `w`, a
positive byte count `n` that stays inside the block, the device offset of the
piece, and the whole block lying below the backing size `m`. -/
def PieceArgs (m : Nat) (st : State) (d k w n doff : Nat) : Prop :=
  d < st.num_devices - 1 ∧ doff = blk_off st k + w ∧ w + n ≤ st.block_size ∧ 0 < n ∧
    blk_off st k + st.block_size ≤ m

/-- The invariant carried through a healthy write: fixed configuration, no
absent slot, and vanishing XOR across all slots. -/
def HealthyInv (bs N : Nat) (st : State) : Prop :=
  st.block_size = bs ∧ st.num_devices = N ∧ st.degraded = false ∧
    (∀ s, s < N → st.dev_fd s ≠ -1) ∧ ∀ a, stripeXor st a = 0

/-- The configuration is `block_size = bs`, `num_devices = N`, and no slot is
absent. -/
def NoAbsent (bs N : Nat) (st : State) : Prop :=
  st.block_size = bs ∧ st.num_devices = N ∧ ∀ s, s < N → st.dev_fd s ≠ -1

/-- A request handed to `xmp_write`: the caller's buffer, `len` and `offset`. -/
structure WriteReq where
  buf : Buf
  len : Nat
  offset : Nat

/-- A finite sequence of `xmp_write` calls, each run to completion (fuel `len`
is enough for a request of `len` bytes). -/
def write_all : State → List WriteReq → Option State
  | st, [] => some st
  | st, r :: rs =>
    match xmp_write r.len st r.buf r.len r.offset with
    | none => none
    | some w => write_all w.st rs

/-! ## The concrete scenarios of the specification -/

/-- Scenario (b): three devices, `block_size = 4`, all zero, 8 bytes each. -/
def scenario_zero : State :=
  ⟨4, 3, fun s => 3 + s, false, 8, 0, fun _ _ => 0, fun _ => 0⟩

/-- Three zeroed devices with `block_size = 1`. -/
def scenario_1 : State :=
  ⟨1, 3, fun s => 3 + s, false, 4294967296, 0, fun _ _ => 0, fun _ => 0⟩

/-- Three zeroed devices with `block_size = 2^30 + 1`. -/
def scenario_big : State :=
  ⟨1073741825, 3, fun s => 3 + s, false, 2147483649 * 1073741825, 0, fun _ _ => 0, fun _ => 0⟩

/-- The writes of scenarios (b) and (c): `[AA BB CC DD]` at offset 0, then
`[11 22]` at offset 5. -/
def scenario_writes : List WriteReq :=
  [⟨ofBytes [0xAA, 0xBB, 0xCC, 0xDD], 4, 0⟩, ⟨ofBytes [0x11, 0x22], 2, 5⟩]

/-- Scenario (c): the array after the two writes. -/
def scenario_c : State :=
  match write_all scenario_zero scenario_writes with
  | some st => st
  | none => scenario_zero

/-- Scenario (d): scenario (c) with device 0 marked absent. -/
def scenario_d : State :=
  { scenario_c with dev_fd := fun s => if s = 0 then -1 else 3 + s, degraded := true }

/-- Scenario (f) with a replacement device 0 whose every byte is `fill`,
marked for rebuild. -/
def scenario_f (fill : Nat) : State :=
  { scenario_c with
    disk := fun s => if s = 0 then (fun _ => fill) else scenario_c.disk s
    rebuild_dev := 0 }

end Raid4

end BUSE

/-! ## The pieces of a request and the device-size computation of `main` -/

namespace BUSE

/-- One piece of a request as the head and the `while` loop of `xmp_read` /
`xmp_write` cut it: the logical block number, the byte offset inside the block,
the byte count, and the position of the piece in the caller's buffer. -/
structure Piece where
  blk : Nat
  w : Nat
  n : Nat
  pos : Nat
  deriving DecidableEq, Repr

/-- The pieces that the `while (len > 0)` loops cut: `c` pieces, one per block
from block `B` on, each of `min len block_size` bytes of the `len` bytes left. -/
def tail_pieces (block_size : Nat) : Nat → Nat → Nat → Nat → List Piece
  | 0, _, _, _ => []
  | c + 1, B, pos, len =>
    ⟨B, 0, min len block_size, pos⟩ ::
      tail_pieces block_size c (B + 1) (pos + min len block_size) (len - min len block_size)

/-- The pieces of the request `(offset, len)`: the head piece, which the programs
cut unconditionally (`len_tobe_read = min(len, block_size - offset_on_blk)`), then
one piece per further block while bytes are left. -/
def pieces (block_size offset len : Nat) : List Piece :=
  ⟨offset / block_size, offset % block_size, min len (block_size - offset % block_size), 0⟩ ::
    tail_pieces block_size
      ((len - min len (block_size - offset % block_size) + block_size - 1) / block_size)
      (offset / block_size + 1) (min len (block_size - offset % block_size))
      (len - min len (block_size - offset % block_size))

/-- The positional call that the programs issue for a piece: the block number is
held in a `u_int32_t`, the device is `blk_num % data_device_count`, the file
offset is the 32-bit product `on_device_blk_idx * block_size` plus the offset
inside the block. -/
def piece_op (wr : Bool) (block_size data_device_count : Nat) (p : Piece) : Op :=
  ⟨wr, u32 p.blk % data_device_count,
    u32 (u32 p.blk / data_device_count * block_size) + p.w, p.n, some p.pos⟩

/-- The calls of a sequence that move bytes of the caller's buffer. -/
def transfers (ops : List Op) : List Op := ops.filter (fun op => op.upos.isSome)

/-- What `main` can learn about a path: `open(path, O_RDWR)` fails (`none`), or
it succeeds and `lseek(fd, 0, SEEK_END)` reports the size of the file. -/
abbrev Files := String → Option Nat

/-- The statement `if (raid_device_size==0 || size<raid_device_size)
raid_device_size = size;` of both `main` functions. -/
def size_update (raid_device_size size : Nat) : Nat :=
  if raid_device_size = 0 ∨ size < raid_device_size then size else raid_device_size

/-- The number `m` is the minimum of the list `sizes`. -/
def IsMinOf (m : Nat) (sizes : List Nat) : Prop :=
  m ∈ sizes ∧ ∀ s ∈ sizes, m ≤ s

/-- A small file system for the start-up scenarios: files `a`, `b`, `c` of 10, 8
and 9 bytes, an empty file `z`, and nothing else. -/
def scenario_files : Files := fun path =>
  if path = "a" then some 10 else if path = "b" then some 8 else if path = "c" then some 9
  else if path = "z" then some 0 else none

namespace Raid4

/-- Source `struct arguments` of `raid4.c`, together with the global
`num_devices` that `parse_opt` maintains. -/
structure Arguments where
  block_size : Nat
  device : Nat → String
  raid_device : String
  verbose : Bool
  num_devices : Nat

/-- The keys that argp hands to `parse_opt`. -/
inductive Key where
  | v
  | ARGP_KEY_ARG
  | ARGP_KEY_END
  | other
  deriving DecidableEq, Repr

/-- How a call of `parse_opt` ends: it returns 0, it returns `ARGP_ERR_UNKNOWN`,
it leaves through `errx` ("SIZE must be an integer"), or it leaves through
`warnx` and `argp_usage` ("Wrong argument number!"). -/
inductive ParseResult where
  | ok (a : Arguments)
  | ARGP_ERR_UNKNOWN
  | exit_not_integer
  | exit_usage

/-- C `isspace` in the "C" locale. -/
def isspace (c : Char) : Bool := c = ' ' || (9 ≤ c.toNat && c.toNat ≤ 13)

/-- C `strtoul(arg, &endptr, 10)` followed by the test `*endptr != 0` of
`parse_opt`: leading white space and one sign are skipped and the decimal digits
are converted; the result is `none` when a character is left over after the
digits (`*endptr != 0`). Without any digit nothing is converted and `endptr` is
`arg` itself, so only the empty string passes, as 0. A value above `ULONG_MAX`
gives `ULONG_MAX`, a minus sign negates modulo `2^64`. -/
def strtoul (arg : String) : Option Nat :=
  let s := arg.data.dropWhile isspace
  let negative := s.head? = some '-'
  let body := if s.head? = some '-' ∨ s.head? = some '+' then s.tail else s
  let ds := body.takeWhile Char.isDigit
  let rest := body.dropWhile Char.isDigit
  if ds.isEmpty then (if arg.data.isEmpty then some 0 else none)
  else if !rest.isEmpty then none
  else
    let v := ds.foldl (fun n c => 10 * n + (c.toNat - 48)) 0
    some (if v > 18446744073709551615 then 18446744073709551615
      else if negative then (18446744073709551616 - v) % 18446744073709551616 else v)

/-- Source `parse_opt` of `raid4.c`; `arg_num` is `state->arg_num`. -/
def parse_opt (key : Key) (arg : String) (arg_num : Nat) (a : Arguments) : ParseResult :=
  match key with
  | .v => .ok { a with verbose := true }
  | .ARGP_KEY_ARG =>
    match arg_num with
    | 0 =>
      match strtoul arg with
      | some n => .ok { a with block_size := u32 n }
      | none => .exit_not_integer
    | 1 => .ok { a with raid_device := arg }
    | _ =>
      if arg_num ≤ 17 ∧ arg_num ≥ 2 then
        .ok { a with
          num_devices := if arg_num - 1 > a.num_devices then arg_num - 1 else a.num_devices
          device := fun i => if i = arg_num - 2 then arg else a.device i }
      else .ARGP_ERR_UNKNOWN
  | .ARGP_KEY_END =>
    if arg_num < 4 ∨ arg_num > 17 then .exit_usage else .ok a
  | .other => .ARGP_ERR_UNKNOWN

/-- The part of glibc `argp_parse` that concerns positional arguments: the parser
is called with `ARGP_KEY_ARG` for each argument in turn, `arg_num` being the
zero-based index of the argument, and, when every argument was taken, with
`ARGP_KEY_END`, `arg_num` being the number of arguments. An argument that the
parser answers with `ARGP_ERR_UNKNOWN` ends the parse ("Too many arguments"). -/
def argp_parse_from (a : Arguments) : List String → Nat → ParseResult
  | [], arg_num => parse_opt .ARGP_KEY_END "" arg_num a
  | arg :: rest, arg_num =>
    match parse_opt .ARGP_KEY_ARG arg arg_num a with
    | .ok a2 => argp_parse_from a2 rest (arg_num + 1)
    | r => r

/-- The call `argp_parse(&argp, argc, argv, 0, 0, &arguments)` of `main` on the
positional arguments `args`, starting from `.verbose = 0` and `num_devices = 0`. -/
def argp_parse (args : List String) : ParseResult :=
  argp_parse_from ⟨0, fun _ => "", "", false, 0⟩ args 0

/-- The invocation `BLOCKSIZE RAIDDEVICE DEVICE1 ... DEVICEN` is accepted: the
parse ends without error, every device is stored and `num_devices = N`. -/
def Accepts (block_size : String) (raid_device : String) (devices : List String) : Prop :=
  ∃ a, argp_parse (block_size :: raid_device :: devices) = .ok a ∧
    a.num_devices = devices.length ∧ ∀ i, i < devices.length → devices[i]? = some (a.device i)

/-- The variables of the device loop of `main`. -/
structure Startup where
  dev_fd : Nat → Int
  degraded : Bool
  ok_dev : Int
  rebuild_dev : Int
  rebuild_needed : Bool
  raid_device_size : Nat

/-- One iteration of the device loop of `main` (lines 370-397): slot `i` with
the token `dev_path`. `open` hands out descriptor `3 + i`. An `error` is the
status of `exit`. -/
def main_step (files : Files) (v : Startup) (i : Nat) (dev_path : String) :
    Except Nat Startup :=
  if dev_path = "MISSING" then
    .ok { v with degraded := true, dev_fd := fun s => if s = i then -1 else v.dev_fd s }
  else if dev_path.front = '+' ∧ v.rebuild_needed = true then .error 1
  else
    let path := if dev_path.front = '+' then dev_path.drop 1 else dev_path
    let v1 : Startup :=
      if dev_path.front = '+' then { v with rebuild_dev := i, rebuild_needed := true } else v
    match files path with
    | none => .error 1
    | some size =>
      .ok { v1 with
        ok_dev := i
        dev_fd := fun s => if s = i then 3 + (i : Int) else v1.dev_fd s
        raid_device_size := size_update v1.raid_device_size size }

/-- The device loop of `main` over the slots below `n`. -/
def main_loop (files : Files) (device : Nat → String) : Nat → Except Nat Startup
  | 0 => .ok ⟨fun _ => 0, false, -1, -1, false, 0⟩
  | n + 1 =>
    match main_loop files device n with
    | .error e => .error e
    | .ok v => main_step files v n (device n)

/-- What `main` has set up when it calls `buse_main`: the globals and backing
files, the size `bop.size` handed to the transport, and the I/O of the rebuild. -/
structure MainResult where
  st : State
  bop_size : Nat
  ops : List Op

/-- Source `main` of `raid4.c` after `argp_parse`, up to the call of
`buse_main`, for `0 < block_size < 2^31` (the values that the `int block_size`
holds as a positive number): `disk i` is the content of the file opened for slot
`i`. An `error` is the status of `exit`. -/
def main (a : Arguments) (files : Files) (disk : Nat → Buf) (fresh : Buf) :
    Except Nat MainResult :=
  match main_loop files a.device a.num_devices with
  | .error e => .error e
  | .ok v =>
    let raid_device_size := v.raid_device_size / a.block_size * a.block_size
    let st : State := ⟨a.block_size, a.num_devices, v.dev_fd, v.degraded, raid_device_size,
      v.rebuild_dev.toNat, disk, fresh⟩
    if v.rebuild_needed = true ∧ v.degraded = true then .error 1
    else
      let r := if v.rebuild_needed = true then do_raid_rebuild st else (st, [])
      if v.degraded = true ∧ v.ok_dev = -1 then .error 1
      else .ok ⟨r.1, raid_device_size, r.2⟩

/-- The sizes of the devices that the loop of `main` opens among the slots below
`n`: the tokens other than `MISSING`, a leading `+` removed. -/
def opened_sizes (files : Files) (device : Nat → String) (n : Nat) : List Nat :=
  (List.range n).filterMap (fun i =>
    if device i = "MISSING" then none
    else files (if (device i).front = '+' then (device i).drop 1 else device i))

/-- The number of `MISSING` tokens among the slots below `n`. -/
def missing_count (device : Nat → String) (n : Nat) : Nat :=
  ((List.range n).filter (fun i => decide (device i = "MISSING"))).length

/-- Three zeroed devices with `block_size = 3`. -/
def scenario_3 : State :=
  ⟨3, 3, fun s => 3 + s, false, 4294967298, 0, fun _ _ => 0, fun _ => 0⟩

/-- The parsed arguments of an invocation with `block_size = 4` and the listed
device tokens. -/
def scenario_args (devices : List String) : Arguments :=
  ⟨4, fun i => devices.getD i "", "/dev/nbd0", false, devices.length⟩

/-- The start-up of the RAID-4 program on the tokens `a MISSING c` with
`block_size = 4` and zeroed files. -/
def scenario_start : MainResult :=
  match main (scenario_args ["a", "MISSING", "c"]) scenario_files (fun _ _ => 0) (fun _ => 0) with
  | .ok r => r
  | .error _ => ⟨scenario_3, 0, []⟩

end Raid4

namespace Raid0

/-- The device loop of `main` of `raid0.c` over the slots below `n`: the
descriptors and `raid_device_size`. `open` hands out descriptor `3 + i`. An
`error` is the status of `exit`. -/
def main_loop (files : Files) (device : Nat → String) : Nat → Except Nat ((Nat → Int) × Nat)
  | 0 => .ok (fun _ => 0, 0)
  | n + 1 =>
    match main_loop files device n with
    | .error e => .error e
    | .ok v =>
      match files (device n) with
      | none => .error 1
      | some size =>
        .ok (fun s => if s = n then 3 + (n : Int) else v.1 s, size_update v.2 size)

/-- What `main` has set up when it calls `buse_main`: the globals and backing
files, and the size `bop.size` handed to the transport. -/
structure MainResult where
  st : State
  bop_size : Nat

/-- Source `main` of `raid0.c` after `argp_parse`, up to the call of `buse_main`,
for `0 < block_size < 2^31`. -/
def main (block_size : Nat) (device : Nat → String) (files : Files) (disk : Nat → Buf) :
    Except Nat MainResult :=
  match main_loop files device 2 with
  | .error e => .error e
  | .ok v =>
    let raid_device_size := v.2 / block_size * block_size
    .ok ⟨⟨block_size, v.1, disk⟩, raid_device_size⟩

/-- Two zeroed devices with `block_size = 3`. -/
def scenario_3 : State := ⟨3, fun s => 3 + s, fun _ _ => 0⟩

/-- The start-up of the RAID-0 program on the files `a` and `b` with
`block_size = 4` and zeroed files. -/
def scenario_start : MainResult :=
  match main 4 (fun i => ["a", "b"].getD i "") scenario_files (fun _ _ => 0) with
  | .ok r => r
  | .error _ => ⟨scenario_3, 0⟩

end Raid0

end BUSE

/-! ## The body of the callbacks, piece by piece -/

namespace BUSE

/-- The device, the file offset, the byte count and the buffer position of a call. -/
def Op.tuple (op : Op) : Nat × Nat × Nat × Option Nat := (op.slot, op.off, op.count, op.upos)

namespace Raid4

/-- The body of `xmp_read` (lines 86-93 and 103-110) executed once for each
piece of a list, in order, with the arguments that the head and the loop compute
for the piece. -/
def run_read (st : State) : Buf → List Piece → Buf × List Op
  | buf, [] => (buf, [])
  | buf, p :: ps =>
    let r := read_piece st buf p.pos (u32 p.blk % (st.num_devices - 1))
      (u32 p.blk / (st.num_devices - 1)) p.n
      (u32 (u32 p.blk / (st.num_devices - 1) * st.block_size) + p.w)
    let r2 := run_read st r.1 ps
    (r2.1, r.2 ++ r2.2)

/-- The body `piece` of `xmp_write` executed once for each piece of a list, in
order, with the arguments that the head and the loop compute for the piece. -/
def run_write (piece : State → Buf → Nat → Nat → Nat → Nat → Nat → Nat → State × List Op) :
    State → Buf → List Piece → State × List Op
  | st, _, [] => (st, [])
  | st, buf, p :: ps =>
    let r := piece st buf p.pos (u32 p.blk % (st.num_devices - 1))
      (u32 p.blk / (st.num_devices - 1)) p.w p.n
      (u32 (u32 p.blk / (st.num_devices - 1) * st.block_size) + p.w)
    let r2 := run_write piece r.1 buf ps
    (r2.1, r.2 ++ r2.2)

/-- The state with slot `D` marked absent and the degraded mode switched on; the
backing files are left as they are. -/
def State.mark_absent (st : State) (D : Nat) : State :=
  { st with dev_fd := fun s => if s = D then -1 else st.dev_fd s, degraded := true }

/-- The healthy array `S` next to the degraded array `T` that lacks the data
slot `D`: same configuration, `S` has no absent slot and vanishing XOR across
all slots, `T` has exactly slot `D` absent, every other slot holds the same
bytes in both, and the file of slot `D` in `T` is `old`. -/
def Agree (bs N D : Nat) (old : Buf) (S T : State) : Prop :=
  HealthyInv bs N S ∧ T.block_size = bs ∧ T.num_devices = N ∧
    (∀ s, s < N → (T.dev_fd s = -1 ↔ s = D)) ∧
    (∀ s a, s ≠ D → T.disk s a = S.disk s a) ∧ ∀ a, T.disk D a = old a

/-- Three zeroed devices with `block_size = 4096`. -/
def scenario_4k : State :=
  ⟨4096, 3, fun s => 3 + s, false, 8589934592, 0, fun _ _ => 0, fun _ => 0⟩

end Raid4

end BUSE

namespace BUSE

/-- The byte counts `counts` of the successive pieces of the request
`(offset, len)` count the length down: they sum to `len`, and for `len > 0`
every one is positive, so that the remaining length `len` minus the counts so
far strictly decreases and never underflows, and their number is
`ceil((offset mod block_size + len) / block_size)`. -/
def CountsDown (block_size offset len : Nat) (counts : List Nat) : Prop :=
  counts.sum = len ∧
  (0 < len → (∀ n ∈ counts, 0 < n) ∧
    counts.length = (offset % block_size + len + block_size - 1) / block_size)

end BUSE

/-! ## Basic facts -/

namespace BUSE

theorem u32_le (n : Nat) : u32 n ≤ n := Nat.mod_le _ _

theorem u32_eq_of_lt {n : Nat} (h : n < 4294967296) : u32 n = n := Nat.mod_eq_of_lt h

namespace Raid4

theorem xorOver_congr {p q : Nat → Bool} {f g : Nat → Nat} :
    ∀ n, (∀ s, s < n → p s = q s ∧ f s = g s) → xorOver p f n = xorOver q g n
  | 0, _ => rfl
  | n + 1, h => by
    have ih := xorOver_congr n (fun s hs => h s (Nat.lt_succ_of_lt hs))
    have hn := h n (Nat.lt_succ_self n)
    simp only [xorOver, ih, hn.1, hn.2]

/-- Changing the value of one selected slot changes the XOR by old XOR new. -/
theorem xorOver_update {p : Nat → Bool} {f g : Nat → Nat} {D : Nat} (hp : p D = true) :
    ∀ n, D < n → (∀ s, s < n → s ≠ D → g s = f s) →
      xorOver p g n = (xorOver p f n ^^^ f D) ^^^ g D
  | 0, h, _ => absurd h (Nat.not_lt_zero _)
  | n + 1, h, hg => by
    by_cases hD : D = n
    · subst hD
      have hc : xorOver p g D = xorOver p f D :=
        xorOver_congr D (fun s hs => ⟨rfl, hg s (Nat.lt_succ_of_lt hs) (Nat.ne_of_lt hs)⟩)
      simp only [xorOver, hp, if_true, hc]
      rw [Nat.xor_assoc (xorOver p f D) (f D) (f D), Nat.xor_self, Nat.xor_zero]
    · have hlt : D < n := lt_of_le_of_ne (Nat.le_of_lt_succ h) hD
      have ih := xorOver_update hp n hlt (fun s hs => hg s (Nat.lt_succ_of_lt hs))
      have hn : g n = f n := hg n (Nat.lt_succ_self n) (fun e => hD e.symm)
      simp only [xorOver, ih, hn]
      by_cases hpn : p n = true
      · simp only [hpn, if_true]
        rw [Nat.xor_assoc (xorOver p f n ^^^ f D) (g D) (f n), Nat.xor_comm (g D) (f n),
          ← Nat.xor_assoc, Nat.xor_assoc (xorOver p f n) (f D) (f n), Nat.xor_comm (f D) (f n),
          ← Nat.xor_assoc]
      · simp only [hpn]
        rfl

/-- If no slot below `n` is selected the XOR is zero. -/
theorem xorOver_none {p : Nat → Bool} {f : Nat → Nat} :
    ∀ n, (∀ s, s < n → p s = false) → xorOver p f n = 0
  | 0, _ => rfl
  | n + 1, h => by
    simp only [xorOver, h n (Nat.lt_succ_self n)]
    exact xorOver_none n (fun s hs => h s (Nat.lt_succ_of_lt hs))

end Raid4

end BUSE

namespace BUSE
namespace Raid4

theorem present_true {st : State} {s : Nat} (h : st.dev_fd s ≠ -1) : st.present s = true := by
  simp [State.present, h]

theorem present_false {st : State} {s : Nat} (h : st.dev_fd s = -1) : st.present s = false := by
  simp [State.present, h]

/-- The read that `getMissedBlk` issues on slot `s` for block `k`. -/
theorem getMissedBlk_fold (st : State) (k : Nat) :
    ∀ n, 
      let acc := (List.range n).foldl (getMissedBlk_step st k) ⟨st.fresh, st.fresh, false, []⟩
      (acc.buf1_inited = false → (∀ s, s < n → st.dev_fd s = -1) ∧ acc.buf1 = st.fresh) ∧
      (acc.buf1_inited = true → ∀ i, i < st.block_size →
        acc.buf1 i = xorOver st.present
          (fun s => st.disk s (blk_off st k + i)) n) ∧
      acc.ops = ((List.range n).filter st.present).map
        (fun s => ⟨false, s, blk_off st k, st.block_size, none⟩)
  | 0 => by simp
  | n + 1 => by
    have ih := getMissedBlk_fold st k n
    simp only [List.range_succ, List.foldl_append, List.foldl_cons, List.foldl_nil,
      List.filter_append, List.map_append] at ih ⊢
    generalize (List.range n).foldl (getMissedBlk_step st k) ⟨st.fresh, st.fresh, false, []⟩
      = acc at ih ⊢
    obtain ⟨ih1, ih2, ih3⟩ := ih
    by_cases hp : st.dev_fd n = -1
    · -- slot n absent: nothing happens
      have hstep : getMissedBlk_step st k acc n = acc := by
        simp [getMissedBlk_step, hp]
      rw [hstep]
      refine ⟨fun h => ⟨?_, (ih1 h).2⟩, fun h i hi => ?_, ?_⟩
      · intro s hs
        rcases Nat.lt_succ_iff_lt_or_eq.mp hs with h' | h'
        · exact (ih1 h).1 s h'
        · rw [h']; exact hp
      · rw [ih2 h i hi]; simp only [xorOver, present_false hp]; rfl
      · rw [ih3]; simp [present_false hp]
    · cases hin : acc.buf1_inited with
      | false =>
        have hstep : getMissedBlk_step st k acc n =
            { acc with
              buf1 := pread (st.dev_fd n) (st.disk n) acc.buf1 0 st.block_size
                        (u32 (k * st.block_size))
              buf1_inited := true
              ops := acc.ops ++ [⟨false, n, u32 (k * st.block_size), st.block_size, none⟩] } := by
          simp [getMissedBlk_step, hp, hin]
        rw [hstep]
        refine ⟨fun h => by simp at h, fun _ i hi => ?_, ?_⟩
        · have habs := (ih1 hin).1
          have hz : xorOver st.present
              (fun s => st.disk s (blk_off st k + i)) n = 0 :=
            xorOver_none n (fun s hs => present_false (habs s hs))
          simp only [xorOver, hz, present_true hp, if_true, Nat.zero_xor]
          simp [pread, hp, hi, blk_off]
        · simp [ih3, present_true hp, blk_off]
      | true =>
        have hstep : getMissedBlk_step st k acc n =
            { acc with
              buf1 := bigxor st acc.buf1 (pread (st.dev_fd n) (st.disk n) acc.buf2 0 st.block_size
                        (u32 (k * st.block_size)))
              buf2 := pread (st.dev_fd n) (st.disk n) acc.buf2 0 st.block_size
                        (u32 (k * st.block_size))
              ops := acc.ops ++ [⟨false, n, u32 (k * st.block_size), st.block_size, none⟩] } := by
          simp [getMissedBlk_step, hp, hin]
        rw [hstep]
        refine ⟨fun h => by simp [hin] at h, fun _ i hi => ?_, ?_⟩
        · simp only [xorOver, present_true hp, if_true, ← ih2 hin i hi]
          simp [bigxor, pread, hp, hi, blk_off]
        · simp [ih3, present_true hp, blk_off]

/-- The reads issued by `getMissedBlk`: one whole-block read per present slot, in
slot order. -/
theorem getMissedBlk_ops (st : State) (k : Nat) :
    (getMissedBlk st k).2 =
      ((List.range st.num_devices).filter st.present).map
        (fun s => ⟨false, s, blk_off st k, st.block_size, none⟩) :=
  (getMissedBlk_fold st k st.num_devices).2.2

/-- With at least one present slot, `getMissedBlk` returns the XOR of the block
over the present slots. -/
theorem getMissedBlk_val (st : State) (k : Nat) {s : Nat} (hs : s < st.num_devices)
    (hp : st.dev_fd s ≠ -1) {i : Nat} (hi : i < st.block_size) :
    (getMissedBlk st k).1 i = presentXor st (blk_off st k + i) := by
  have h := getMissedBlk_fold st k st.num_devices
  simp only at h
  cases hin : ((List.range st.num_devices).foldl (getMissedBlk_step st k)
      ⟨st.fresh, st.fresh, false, []⟩).buf1_inited with
  | false => exact absurd ((h.1 hin).1 s hs) hp
  | true => exact h.2.1 hin i hi

end Raid4
end BUSE

namespace BUSE
namespace Raid4

/-- The disk after `write_on_missed`: only the parity block changes. -/
theorem write_on_missed_disk (st : State) (buf : Buf) (pos k w n s a : Nat) :
    (write_on_missed st buf pos k w n).1.disk s a =
      if s = st.num_devices - 1 ∧ st.dev_fd (st.num_devices - 1) ≠ -1 ∧
          blk_off st k ≤ a ∧ a < blk_off st k + st.block_size then
        (st.disk (st.num_devices - 1) a ^^^ (getMissedBlk st k).1 (a - blk_off st k)) ^^^
          (if w ≤ a - blk_off st k ∧ a - blk_off st k < w + n
            then buf (pos + (a - blk_off st k - w)) else (getMissedBlk st k).1 (a - blk_off st k))
      else st.disk s a := by
  simp only [write_on_missed, State.pwrite, pwrite, blk_off]
  by_cases hs : s = st.num_devices - 1
  · subst hs
    by_cases hfd : st.dev_fd (st.num_devices - 1) = -1
    · simp [hfd, pwrite]
    · by_cases h1 : u32 (k * st.block_size) ≤ a ∧ a < u32 (k * st.block_size) + st.block_size
      · have hlt : a - u32 (k * st.block_size) < st.block_size := by omega
        have hadd : u32 (k * st.block_size) + (a - u32 (k * st.block_size)) = a := by omega
        simp [hfd, h1, get_new_parity_blk, hlt, pread, pwrite, memcpy, hadd]
      · simp [hfd, h1, pwrite]
  · simp [hs]

end Raid4
end BUSE

namespace BUSE
namespace Raid4

end Raid4
end BUSE

namespace BUSE
namespace Raid4

theorem xor_rmw_cancel (x o n p : Nat) :
    ((x ^^^ o) ^^^ n) ^^^ p ^^^ ((p ^^^ o) ^^^ n) = x := by
  apply Nat.eq_of_testBit_eq
  intro i
  simp only [Nat.testBit_xor]
  cases x.testBit i <;> cases o.testBit i <;> cases n.testBit i <;> cases p.testBit i <;> rfl

/-- The disk after `write_into_blk` when the target and the parity slot are present. -/
theorem write_into_blk_disk (st : State) (buf : Buf) (pos d n doff k s a : Nat)
    (hd : st.dev_fd d ≠ -1) (hP : st.dev_fd (st.num_devices - 1) ≠ -1)
    (hne : d ≠ st.num_devices - 1) :
    (write_into_blk st buf pos d n doff k).1.disk s a =
      if s = st.num_devices - 1 then
        if blk_off st k ≤ a ∧ a < blk_off st k + st.block_size then
          (st.disk (st.num_devices - 1) a ^^^ st.disk d a) ^^^
            (if doff ≤ a ∧ a < doff + n then buf (pos + (a - doff)) else st.disk d a)
        else st.disk (st.num_devices - 1) a
      else if s = d then
        if doff ≤ a ∧ a < doff + n then buf (pos + (a - doff)) else st.disk d a
      else st.disk s a := by
  simp only [write_into_blk, State.pwrite, blk_off]
  by_cases hs : s = st.num_devices - 1
  · subst hs
    have hne' : st.num_devices - 1 ≠ d := fun h => hne h.symm
    by_cases h1 : u32 (k * st.block_size) ≤ a ∧ a < u32 (k * st.block_size) + st.block_size
    · have hlt : a - u32 (k * st.block_size) < st.block_size := by omega
      have hadd : u32 (k * st.block_size) + (a - u32 (k * st.block_size)) = a := by omega
      simp [hd, hP, hne', h1, get_new_parity_blk, hlt, pread, pwrite, hadd]
    · simp [hP, hne', h1, pwrite]
  · by_cases hsd : s = d
    · subst hsd
      simp [hs, hd, pwrite]
    · simp [hs, hsd]

/-- One read-modify-write leaves the XOR across all slots unchanged at every
device offset, provided the payload lands inside the block whose parity is
recomputed. -/
theorem write_into_blk_stripeXor (st : State) (buf : Buf) (pos d n doff k a : Nat)
    (hd : st.dev_fd d ≠ -1) (hP : st.dev_fd (st.num_devices - 1) ≠ -1)
    (hlt : d < st.num_devices - 1)
    (hlo : blk_off st k ≤ doff) (hhi : doff + n ≤ blk_off st k + st.block_size) :
    stripeXor (write_into_blk st buf pos d n doff k).1 a = stripeXor st a := by
  have hne : d ≠ st.num_devices - 1 := Nat.ne_of_lt hlt
  have hdN : d < st.num_devices := by omega
  have hPN : st.num_devices - 1 < st.num_devices := by omega
  -- intermediate disk: only the data slot written
  let mid : Nat → Nat := fun s =>
    if s = d then (if doff ≤ a ∧ a < doff + n then buf (pos + (a - doff)) else st.disk d a)
    else st.disk s a
  have hmid := xorOver_update (p := fun _ => true) (f := fun s => st.disk s a) (g := mid) (D := d)
    rfl st.num_devices hdN (fun s _ hs => by simp [mid, hs])
  have hfin := xorOver_update (p := fun _ => true) (f := mid)
    (g := fun s => (write_into_blk st buf pos d n doff k).1.disk s a)
    (D := st.num_devices - 1) rfl st.num_devices hPN
    (fun s _ hs => by
      show (write_into_blk st buf pos d n doff k).1.disk s a = mid s
      rw [write_into_blk_disk st buf pos d n doff k s a hd hP hne]
      simp only [hs, if_false, mid])
  show xorOver (fun _ => true) (fun s => (write_into_blk st buf pos d n doff k).1.disk s a)
    st.num_devices = xorOver (fun _ => true) (fun s => st.disk s a) st.num_devices
  rw [hfin, hmid]
  simp only []
  rw [write_into_blk_disk st buf pos d n doff k _ a hd hP hne]
  have hmd : mid d = if doff ≤ a ∧ a < doff + n then buf (pos + (a - doff)) else st.disk d a := by
    simp [mid]
  have hne' : ¬ (st.num_devices - 1 = d) := fun h => hne h.symm
  have hmP : mid (st.num_devices - 1) = st.disk (st.num_devices - 1) a := by
    simp only [mid, if_neg hne']
  rw [hmd, hmP]
  simp only [if_true]
  generalize xorOver (fun _ => true) (fun s => st.disk s a) st.num_devices = x
  by_cases h1 : blk_off st k ≤ a ∧ a < blk_off st k + st.block_size
  · simp only [h1, and_self, if_true]
    exact xor_rmw_cancel x _ _ _
  · have h2 : ¬ (doff ≤ a ∧ a < doff + n) := by omega
    simp only [h1, h2, if_false]
    rw [Nat.xor_assoc x, Nat.xor_self, Nat.xor_zero, Nat.xor_assoc, Nat.xor_self, Nat.xor_zero]

end Raid4
end BUSE

namespace BUSE
namespace Raid4

/-- The block that the program addresses for a (possibly truncated) block number
not above the true block number `B` lies inside every backing device, as soon as
block `B` starts inside the virtual device. -/
theorem blk_off_bound {m bs dc blk B : Nat} (hle : blk ≤ B)
    (hB : B * bs < virtual_size m bs dc) : u32 (blk / dc * bs) + bs ≤ m := by
  unfold virtual_size at hB
  have h1 : B < m / bs * dc := by
    rw [Nat.mul_right_comm] at hB
    exact Nat.lt_of_mul_lt_mul_right hB
  have h2 : blk / dc < m / bs :=
    Nat.div_lt_of_lt_mul (by rw [Nat.mul_comm]; exact lt_of_le_of_lt hle h1)
  have h3 : (blk / dc + 1) * bs ≤ m / bs * bs := Nat.mul_le_mul_right bs h2
  have h4 : m / bs * bs ≤ m := Nat.div_mul_le_self m bs
  have h5 := u32_le (blk / dc * bs)
  rw [Nat.succ_mul] at h3
  omega

/-- Specification of the `while` loop of `xmp_write` for a body `piece` that
keeps the invariant `I` and issues only calls satisfying `Q`: with fuel at least
the remaining length the loop returns, the invariant holds at the end, and every
call issued satisfies `Q`. `B` is the true number of the block before the next
piece. -/
theorem xmp_write_loop_spec
    (piece : State → Buf → Nat → Nat → Nat → Nat → Nat → Nat → State × List Op)
    (I : State → Prop) (Q : Op → Prop) (m bs N : Nat)
    (hbs : 0 < bs) (hbs32 : bs < 4294967296) (hN : 2 ≤ N)
    (hI : ∀ st, I st → st.block_size = bs ∧ st.num_devices = N)
    (hpiece : ∀ st buf pos d k w n doff, I st → PieceArgs m st d k w n doff →
      I (piece st buf pos d k w n doff).1 ∧ ∀ op ∈ (piece st buf pos d k w n doff).2, Q op) :
    ∀ fuel st buf pos len blk B, I st → len ≤ fuel → blk ≤ B →
      (0 < len → (B + 1) * bs + len ≤ virtual_size m bs (N - 1)) →
      ∃ r, xmp_write_loop piece fuel st buf pos len blk = some r ∧ I r.1 ∧ ∀ op ∈ r.2, Q op
  | 0, st, buf, pos, len, blk, B, hst, hf, _, _ => by
    have : len = 0 := by omega
    subst this
    exact ⟨(st, []), by simp [xmp_write_loop], hst, by simp⟩
  | fuel + 1, st, buf, pos, len, blk, B, hst, hf, hblk, hr => by
    by_cases hl : len = 0
    · subst hl
      exact ⟨(st, []), by simp [xmp_write_loop], hst, by simp⟩
    · obtain ⟨hsb, hsN⟩ := hI st hst
      have hu : u32 st.block_size = bs := by rw [hsb]; exact u32_eq_of_lt hbs32
      have hlen : 0 < len := Nat.pos_of_ne_zero hl
      have hV := hr hlen
      have hblk' : u32 (blk + 1) ≤ B + 1 := le_trans (u32_le _) (by omega)
      have hdc : 0 < N - 1 := by omega
      have hargs : PieceArgs m st (u32 (blk + 1) % (st.num_devices - 1))
          (u32 (blk + 1) / (st.num_devices - 1)) 0
          (if len ≤ u32 st.block_size then len else u32 st.block_size)
          (u32 (u32 (blk + 1) / (st.num_devices - 1) * st.block_size)) := by
        refine ⟨?_, ?_, ?_, ?_, ?_⟩
        · rw [hsN]; exact Nat.mod_lt _ hdc
        · simp [blk_off]
        · rw [hu, hsb]; split <;> omega
        · rw [hu]; split <;> omega
        · rw [blk_off, hsN, hsb]
          exact blk_off_bound hblk' (by omega)
      obtain ⟨hI1, hQ1⟩ := hpiece st buf pos _ _ _ _ _ hst hargs
      have hrec := xmp_write_loop_spec piece I Q m bs N hbs hbs32 hN hI hpiece fuel
        (piece st buf pos (u32 (blk + 1) % (st.num_devices - 1))
          (u32 (blk + 1) / (st.num_devices - 1)) 0
          (if len ≤ u32 st.block_size then len else u32 st.block_size)
          (u32 (u32 (blk + 1) / (st.num_devices - 1) * st.block_size))).1
        buf (pos + (if len ≤ u32 st.block_size then len else u32 st.block_size))
        (len - (if len ≤ u32 st.block_size then len else u32 st.block_size))
        (u32 (blk + 1)) (B + 1) hI1
        (by rw [hu]; split <;> omega) hblk'
        (by
          rw [hu]
          intro h
          have hgt : ¬ len ≤ bs := by
            intro hle
            simp [hle] at h
          simp only [hgt, if_false] at h ⊢
          have e : (B + 1 + 1) * bs = (B + 1) * bs + bs := Nat.succ_mul (B + 1) bs
          omega)
      obtain ⟨r2, hr2, hI2, hQ2⟩ := hrec
      simp only [xmp_write_loop, hl, if_false, hr2]
      refine ⟨_, rfl, hI2, ?_⟩
      intro op hop
      rcases List.mem_append.mp hop with h | h
      · exact hQ1 op h
      · exact hQ2 op h

end Raid4
end BUSE

namespace BUSE
namespace Raid4

/-- The arguments that the head of `xmp_read` / `xmp_write` computes for the first
piece of an in-range request are well-formed. -/
theorem head_args (m : Nat) (st : State) (len offset : Nat)
    (hbs : 0 < st.block_size) (hbs32 : st.block_size < 4294967296) (hN : 2 ≤ st.num_devices)
    (hlen : 0 < len)
    (hr : offset + len ≤ virtual_size m st.block_size (st.num_devices - 1)) :
    PieceArgs m st (u32 (offset / st.block_size) % (st.num_devices - 1))
      (u32 (offset / st.block_size) / (st.num_devices - 1)) (offset % st.block_size)
      (u32 (if len ≤ st.block_size - offset % st.block_size then len
        else st.block_size - offset % st.block_size))
      (u32 (u32 (offset / st.block_size) / (st.num_devices - 1) * st.block_size) +
        offset % st.block_size) := by
  have hmod : offset % st.block_size < st.block_size := Nat.mod_lt _ hbs
  have hdm := Nat.div_add_mod offset st.block_size
  rw [Nat.mul_comm] at hdm
  have hn : u32 (if len ≤ st.block_size - offset % st.block_size then len
        else st.block_size - offset % st.block_size) =
      (if len ≤ st.block_size - offset % st.block_size then len
        else st.block_size - offset % st.block_size) :=
    u32_eq_of_lt (by split <;> omega)
  rw [hn]
  refine ⟨Nat.mod_lt _ (by omega), rfl, by split <;> omega, by split <;> omega, ?_⟩
  exact blk_off_bound (u32_le _) (by omega)

/-- Specification of `xmp_write` for a body that keeps the invariant `I` and
issues only calls satisfying `Q`, on an in-range request of positive length. -/
theorem xmp_write_spec
    (piece : State → Buf → Nat → Nat → Nat → Nat → Nat → Nat → State × List Op)
    (I : State → Prop) (Q : Op → Prop) (m bs N : Nat)
    (hbs : 0 < bs) (hbs32 : bs < 4294967296) (hN : 2 ≤ N)
    (hI : ∀ st, I st → st.block_size = bs ∧ st.num_devices = N)
    (hpiece : ∀ st buf pos d k w n doff, I st → PieceArgs m st d k w n doff →
      I (piece st buf pos d k w n doff).1 ∧ ∀ op ∈ (piece st buf pos d k w n doff).2, Q op)
    (fuel : Nat) (st : State) (buf : Buf) (len offset : Nat)
    (hsel : (if st.degraded then write_piece_degraded else write_piece_healthy) = piece)
    (hst : I st) (hlen : 0 < len) (hr : offset + len ≤ virtual_size m bs (N - 1))
    (hf : len ≤ fuel) :
    ∃ r, xmp_write fuel st buf len offset = some r ∧ I r.st ∧ (∀ op ∈ r.ops, Q op) ∧
      r.status = 0 := by
  obtain ⟨hsb, hsN⟩ := hI st hst
  have hargs := head_args m st len offset
    (by omega) (by omega) (by omega) hlen (by rw [hsb, hsN]; exact hr)
  obtain ⟨hI1, hQ1⟩ := hpiece st buf 0 _ _ _ _ _ hst hargs
  have hmod : offset % bs < bs := Nat.mod_lt _ hbs
  have hdm := Nat.div_add_mod offset bs
  rw [Nat.mul_comm] at hdm
  have hn : u32 (if len ≤ st.block_size - offset % st.block_size then len
        else st.block_size - offset % st.block_size) =
      (if len ≤ bs - offset % bs then len else bs - offset % bs) := by
    rw [hsb]; exact u32_eq_of_lt (by split <;> omega)
  have hloop := xmp_write_loop_spec piece I Q m bs N hbs hbs32 hN hI hpiece fuel
    (piece st buf 0 (u32 (offset / st.block_size) % (st.num_devices - 1))
      (u32 (offset / st.block_size) / (st.num_devices - 1)) (offset % st.block_size)
      (u32 (if len ≤ st.block_size - offset % st.block_size then len
        else st.block_size - offset % st.block_size))
      (u32 (u32 (offset / st.block_size) / (st.num_devices - 1) * st.block_size) +
        offset % st.block_size)).1
    buf
    (u32 (if len ≤ st.block_size - offset % st.block_size then len
        else st.block_size - offset % st.block_size))
    (len - u32 (if len ≤ st.block_size - offset % st.block_size then len
        else st.block_size - offset % st.block_size))
    (u32 (offset / st.block_size)) (offset / bs) hI1
    (by omega) (by rw [hsb]; exact u32_le _)
    (by
      rw [hn]
      intro h
      have hgt : ¬ len ≤ bs - offset % bs := by
        intro hle
        simp [hle] at h
      simp only [hgt, if_false] at h ⊢
      have e : (offset / bs + 1) * bs = offset / bs * bs + bs := Nat.succ_mul _ _
      omega)
  obtain ⟨r2, hr2, hI2, hQ2⟩ := hloop
  simp only [xmp_write, hsel, hr2]
  refine ⟨_, rfl, hI2, ?_, rfl⟩
  intro op hop
  rcases List.mem_append.mp hop with h | h
  · exact hQ1 op h
  · exact hQ2 op h

end Raid4
end BUSE

namespace BUSE
namespace Raid4

/-- The parity invariant says that the XOR across all slots vanishes at every
device offset. -/
theorem parityInv_iff_stripeXor (st : State) (hbs : 0 < st.block_size) :
    ParityInv st ↔ ∀ a, stripeXor st a = 0 := by
  constructor
  · intro h a
    have := h (a / st.block_size) (a % st.block_size) (Nat.mod_lt _ hbs)
    simp only [blockByte] at this
    rw [Nat.mul_comm, Nat.div_add_mod] at this
    exact this
  · intro h k i _
    exact h (k * st.block_size + i)

theorem write_into_blk_healthyInv {bs N : Nat} (st : State) (buf : Buf)
    (pos d k w n doff : Nat) (hst : HealthyInv bs N st)
    (hd : d < st.num_devices - 1) (hdoff : doff = blk_off st k + w)
    (hwn : w + n ≤ st.block_size) :
    HealthyInv bs N (write_into_blk st buf pos d n doff k).1 := by
  obtain ⟨h1, h2, h3, h4, h5⟩ := hst
  refine ⟨h1, h2, h3, h4, fun a => ?_⟩
  rw [write_into_blk_stripeXor st buf pos d n doff k a (h4 d (by omega))
    (h4 (st.num_devices - 1) (by omega)) hd (by omega) (by omega)]
  exact h5 a

end Raid4
end BUSE

namespace BUSE
namespace Raid4

theorem xmp_write_loop_zero
    (piece : State → Buf → Nat → Nat → Nat → Nat → Nat → Nat → State × List Op)
    (fuel : Nat) (st : State) (buf : Buf) (pos blk : Nat) :
    xmp_write_loop piece fuel st buf pos 0 blk = some (st, []) := by
  cases fuel <;> simp [xmp_write_loop]

/-- A healthy `xmp_write` of an in-range request returns and keeps the parity
invariant. -/
theorem xmp_write_healthyInv (bs N m : Nat) (hbs : 0 < bs) (hbs32 : bs < 4294967296)
    (hN : 2 ≤ N) (fuel : Nat) (st : State) (buf : Buf) (len offset : Nat)
    (hst : HealthyInv bs N st) (hr : offset + len ≤ virtual_size m bs (N - 1))
    (hf : len ≤ fuel) :
    ∃ r, xmp_write fuel st buf len offset = some r ∧ HealthyInv bs N r.st ∧ r.status = 0 := by
  have hdeg : st.degraded = false := hst.2.2.1
  have hsb : st.block_size = bs := hst.1
  have hsN : st.num_devices = N := hst.2.1
  by_cases hl : len = 0
  · subst hl
    simp only [xmp_write, hdeg, Nat.zero_sub, xmp_write_loop_zero]
    refine ⟨_, rfl, ?_, rfl⟩
    simp only [Bool.false_eq_true, if_false, write_piece_healthy]
    refine write_into_blk_healthyInv st buf 0 _ _ (offset % st.block_size) _ _ hst
      (Nat.mod_lt _ (by omega)) rfl ?_
    have hmod : offset % st.block_size < st.block_size := Nat.mod_lt _ (by omega)
    simp only [Nat.zero_le, if_true]
    simp [u32]
    omega
  · obtain ⟨r, h1, h2, _, h4⟩ := xmp_write_spec write_piece_healthy (HealthyInv bs N)
      (fun _ => True) m bs N hbs hbs32 hN (fun st h => ⟨h.1, h.2.1⟩)
      (fun st buf pos d k w n doff hI ha =>
        ⟨write_into_blk_healthyInv st buf pos d k w n doff hI ha.1 ha.2.1 ha.2.2.1,
         fun _ _ => trivial⟩)
      fuel st buf len offset (by simp [hdeg]) hst (Nat.pos_of_ne_zero hl) hr hf
    exact ⟨r, h1, h2, h4⟩

/-- Any finite sequence of in-range healthy writes returns and keeps the
invariant. -/
theorem write_all_healthyInv (bs N m : Nat) (hbs : 0 < bs) (hbs32 : bs < 4294967296)
    (hN : 2 ≤ N) :
    ∀ (reqs : List WriteReq) (st : State), HealthyInv bs N st →
      (∀ r ∈ reqs, r.offset + r.len ≤ virtual_size m bs (N - 1)) →
      ∃ st', write_all st reqs = some st' ∧ HealthyInv bs N st'
  | [], st, hst, _ => ⟨st, rfl, hst⟩
  | r :: rs, st, hst, hreq => by
    obtain ⟨w, hw, hI, _⟩ := xmp_write_healthyInv bs N m hbs hbs32 hN r.len st r.buf r.len
      r.offset hst (hreq r (List.mem_cons_self _ _)) (Nat.le_refl _)
    obtain ⟨st', h1, h2⟩ := write_all_healthyInv bs N m hbs hbs32 hN rs w.st hI
      (fun q hq => hreq q (List.mem_cons_of_mem _ hq))
    exact ⟨st', by simp only [write_all, hw, h1], h2⟩

end Raid4
end BUSE

namespace BUSE
namespace Raid4

/-- Every read issued by `getMissedBlk` is a whole-block read at the block's
offset on a present slot. -/
theorem getMissedBlk_op (st : State) (k : Nat) (op : Op) (h : op ∈ (getMissedBlk st k).2) :
    op.is_write = false ∧ op.off = blk_off st k ∧ op.count = st.block_size ∧ op.upos = none ∧
      op.slot < st.num_devices ∧ st.dev_fd op.slot ≠ -1 := by
  rw [getMissedBlk_ops] at h
  obtain ⟨s, hs, rfl⟩ := List.mem_map.mp h
  rw [List.mem_filter, List.mem_range] at hs
  refine ⟨rfl, rfl, rfl, rfl, hs.1, ?_⟩
  simpa [State.present] using hs.2

theorem OpOK_block {m : Nat} {st : State} {k : Nat} {op : Op}
    (hbs : 0 < st.block_size) (hm : blk_off st k + st.block_size ≤ m)
    (hoff : op.off = blk_off st k) (hcnt : op.count = st.block_size) :
    OpOK m st.block_size op := by
  unfold OpOK
  omega

theorem OpOK_piece {m : Nat} {st : State} {d k w n doff : Nat} {op : Op}
    (ha : PieceArgs m st d k w n doff) (hoff : op.off = doff) (hcnt : op.count = n) :
    OpOK m st.block_size op := by
  obtain ⟨_, h2, h3, h4, h5⟩ := ha
  unfold OpOK
  omega

theorem PieceArgs.bs_pos {m : Nat} {st : State} {d k w n doff : Nat}
    (ha : PieceArgs m st d k w n doff) : 0 < st.block_size := by
  obtain ⟨_, _, h3, h4, _⟩ := ha
  omega

/-- Every call issued by `write_into_blk` stays in bounds. -/
theorem write_into_blk_ops_ok {m : Nat} (st : State) (buf : Buf) (pos d k w n doff : Nat)
    (ha : PieceArgs m st d k w n doff) :
    ∀ op ∈ (write_into_blk st buf pos d n doff k).2, OpOK m st.block_size op := by
  intro op hop
  simp only [write_into_blk, List.mem_cons, List.mem_singleton, List.not_mem_nil, or_false]
    at hop
  rcases hop with h | h | h | h | h <;> subst h
  · exact OpOK_block ha.bs_pos ha.2.2.2.2 rfl rfl
  · exact OpOK_block ha.bs_pos ha.2.2.2.2 rfl rfl
  · exact OpOK_piece ha rfl rfl
  · exact OpOK_block ha.bs_pos ha.2.2.2.2 rfl rfl
  · exact OpOK_block ha.bs_pos ha.2.2.2.2 rfl rfl

/-- Every call issued by `write_on_missed` stays in bounds. -/
theorem write_on_missed_ops_ok {m : Nat} (st : State) (buf : Buf) (pos d k w n doff : Nat)
    (ha : PieceArgs m st d k w n doff) :
    ∀ op ∈ (write_on_missed st buf pos k w n).2, OpOK m st.block_size op := by
  intro op hop
  simp only [write_on_missed, List.mem_append, List.mem_cons, List.mem_singleton,
    List.not_mem_nil, or_false] at hop
  rcases hop with h | h | h
  · obtain ⟨_, h2, h3, _⟩ := getMissedBlk_op st k op h
    exact OpOK_block ha.bs_pos ha.2.2.2.2 h2 h3
  · subst h; exact OpOK_block ha.bs_pos ha.2.2.2.2 rfl rfl
  · subst h; exact OpOK_block ha.bs_pos ha.2.2.2.2 rfl rfl

/-- Every call issued by the degraded body of `xmp_write` stays in bounds. -/
theorem write_piece_degraded_ops_ok {m : Nat} (st : State) (buf : Buf)
    (pos d k w n doff : Nat) (ha : PieceArgs m st d k w n doff) :
    ∀ op ∈ (write_piece_degraded st buf pos d k w n doff).2, OpOK m st.block_size op := by
  unfold write_piece_degraded
  split
  · exact write_on_missed_ops_ok st buf pos d k w n doff ha
  · split
    · intro op hop
      simp only [List.mem_singleton] at hop
      subst hop
      exact OpOK_piece ha rfl rfl
    · exact write_into_blk_ops_ok st buf pos d k w n doff ha

/-- Every call issued by the body of `xmp_read` stays in bounds. -/
theorem read_piece_ops_ok {m : Nat} (st : State) (buf : Buf) (pos d k w n doff : Nat)
    (ha : PieceArgs m st d k w n doff) :
    ∀ op ∈ (read_piece st buf pos d k n doff).2, OpOK m st.block_size op := by
  unfold read_piece
  split
  · intro op hop
    simp only [List.mem_singleton] at hop
    subst hop
    exact OpOK_piece ha rfl rfl
  · intro op hop
    obtain ⟨_, h2, h3, _⟩ := getMissedBlk_op st k op hop
    exact OpOK_block ha.bs_pos ha.2.2.2.2 h2 h3

/-- Specification of the `while` loop of `xmp_read` for the calls issued: with
fuel at least the remaining length the loop returns and every call satisfies `Q`. -/
theorem xmp_read_loop_ops (st : State) (Q : Op → Prop) (m : Nat)
    (hbs : 0 < st.block_size) (hbs32 : st.block_size < 4294967296) (hN : 2 ≤ st.num_devices)
    (hpiece : ∀ buf pos d k w n doff, PieceArgs m st d k w n doff →
      ∀ op ∈ (read_piece st buf pos d k n doff).2, Q op) :
    ∀ fuel buf pos len blk B, len ≤ fuel → blk ≤ B →
      (0 < len → (B + 1) * st.block_size + len ≤
        virtual_size m st.block_size (st.num_devices - 1)) →
      ∃ r, xmp_read_loop st fuel buf pos len blk = some r ∧ ∀ op ∈ r.2, Q op
  | 0, buf, pos, len, blk, B, hf, _, _ => by
    have : len = 0 := by omega
    subst this
    exact ⟨(buf, []), by simp [xmp_read_loop], by simp⟩
  | fuel + 1, buf, pos, len, blk, B, hf, hblk, hr => by
    by_cases hl : len = 0
    · subst hl
      exact ⟨(buf, []), by simp [xmp_read_loop], by simp⟩
    · have hu : u32 st.block_size = st.block_size := u32_eq_of_lt hbs32
      have hlen : 0 < len := Nat.pos_of_ne_zero hl
      have hV := hr hlen
      have hblk' : u32 (blk + 1) ≤ B + 1 := le_trans (u32_le _) (by omega)
      have hargs : PieceArgs m st (u32 (blk + 1) % (st.num_devices - 1))
          (u32 (blk + 1) / (st.num_devices - 1)) 0
          (if len ≤ u32 st.block_size then len else u32 st.block_size)
          (u32 (u32 (blk + 1) / (st.num_devices - 1) * st.block_size)) := by
        refine ⟨Nat.mod_lt _ (by omega), by simp [blk_off], ?_, ?_, ?_⟩
        · rw [hu]; split <;> omega
        · rw [hu]; split <;> omega
        · exact blk_off_bound hblk' (by omega)
      have hQ1 := hpiece buf pos _ _ _ _ _ hargs
      obtain ⟨r2, hr2, hQ2⟩ := xmp_read_loop_ops st Q m hbs hbs32 hN hpiece fuel
        (read_piece st buf pos (u32 (blk + 1) % (st.num_devices - 1))
          (u32 (blk + 1) / (st.num_devices - 1))
          (if len ≤ u32 st.block_size then len else u32 st.block_size)
          (u32 (u32 (blk + 1) / (st.num_devices - 1) * st.block_size))).1
        (pos + (if len ≤ u32 st.block_size then len else u32 st.block_size))
        (len - (if len ≤ u32 st.block_size then len else u32 st.block_size))
        (u32 (blk + 1)) (B + 1)
        (by rw [hu]; split <;> omega) hblk'
        (by
          rw [hu]
          intro h
          have hgt : ¬ len ≤ st.block_size := by
            intro hle
            simp [hle] at h
          simp only [hgt, if_false] at h ⊢
          have e : (B + 1 + 1) * st.block_size = (B + 1) * st.block_size + st.block_size :=
            Nat.succ_mul (B + 1) st.block_size
          omega)
      simp only [xmp_read_loop, hl, if_false, hr2]
      refine ⟨_, rfl, ?_⟩
      intro op hop
      rcases List.mem_append.mp hop with h | h
      · exact hQ1 op h
      · exact hQ2 op h

/-- Specification of `xmp_read` for the calls issued on an in-range request of
positive length. -/
theorem xmp_read_ops (st : State) (Q : Op → Prop) (m : Nat)
    (hbs : 0 < st.block_size) (hbs32 : st.block_size < 4294967296) (hN : 2 ≤ st.num_devices)
    (hpiece : ∀ buf pos d k w n doff, PieceArgs m st d k w n doff →
      ∀ op ∈ (read_piece st buf pos d k n doff).2, Q op)
    (fuel : Nat) (buf : Buf) (len offset : Nat) (hlen : 0 < len)
    (hr : offset + len ≤ virtual_size m st.block_size (st.num_devices - 1)) (hf : len ≤ fuel) :
    ∃ r, xmp_read fuel st buf len offset = some r ∧ (∀ op ∈ r.ops, Q op) ∧ r.status = 0 := by
  have hargs := head_args m st len offset hbs hbs32 hN hlen hr
  have hQ1 := hpiece buf 0 _ _ _ _ _ hargs
  have hmod : offset % st.block_size < st.block_size := Nat.mod_lt _ hbs
  have hdm := Nat.div_add_mod offset st.block_size
  rw [Nat.mul_comm] at hdm
  have hn : u32 (if len ≤ st.block_size - offset % st.block_size then len
        else st.block_size - offset % st.block_size) =
      (if len ≤ st.block_size - offset % st.block_size then len
        else st.block_size - offset % st.block_size) :=
    u32_eq_of_lt (by split <;> omega)
  obtain ⟨r2, hr2, hQ2⟩ := xmp_read_loop_ops st Q m hbs hbs32 hN hpiece fuel
    (read_piece st buf 0 (u32 (offset / st.block_size) % (st.num_devices - 1))
      (u32 (offset / st.block_size) / (st.num_devices - 1))
      (u32 (if len ≤ st.block_size - offset % st.block_size then len
        else st.block_size - offset % st.block_size))
      (u32 (u32 (offset / st.block_size) / (st.num_devices - 1) * st.block_size) +
        offset % st.block_size)).1
    (u32 (if len ≤ st.block_size - offset % st.block_size then len
        else st.block_size - offset % st.block_size))
    (len - u32 (if len ≤ st.block_size - offset % st.block_size then len
        else st.block_size - offset % st.block_size))
    (u32 (offset / st.block_size)) (offset / st.block_size)
    (by omega) (u32_le _)
    (by
      rw [hn]
      intro h
      have hgt : ¬ len ≤ st.block_size - offset % st.block_size := by
        intro hle
        simp [hle] at h
      simp only [hgt, if_false] at h ⊢
      have e : (offset / st.block_size + 1) * st.block_size =
          offset / st.block_size * st.block_size + st.block_size := Nat.succ_mul _ _
      omega)
  simp only [xmp_read, hr2]
  refine ⟨_, rfl, ?_, rfl⟩
  intro op hop
  rcases List.mem_append.mp hop with h | h
  · exact hQ1 op h
  · exact hQ2 op h

end Raid4
end BUSE

namespace BUSE
namespace Raid0

open Raid4 (blk_off_bound)

/-- The `while` loop of the RAID-0 `xmp_read` returns, and every call it issues
stays in bounds. `B` is the true number of the next block. -/
theorem raid0_read_loop_ops_ok (st : State) (m : Nat)
    (hbs : 0 < st.block_size) (hbs32 : st.block_size < 4294967296) :
    ∀ fuel buf pos len sbn B, len ≤ fuel → len < 4294967296 → sbn ≤ B →
      (0 < len → B * st.block_size + len ≤ virtual_size m st.block_size 2) →
      ∃ r, xmp_read_loop st fuel buf pos len sbn = some r ∧
        ∀ op ∈ r.2, OpOK m st.block_size op
  | 0, buf, pos, len, sbn, B, hf, _, _, _ => by
    have : len = 0 := by omega
    subst this
    exact ⟨(buf, []), by simp [xmp_read_loop], by simp⟩
  | fuel + 1, buf, pos, len, sbn, B, hf, hl32, hblk, hr => by
    by_cases hl : len = 0
    · subst hl
      exact ⟨(buf, []), by simp [xmp_read_loop], by simp⟩
    · have hu : u32 st.block_size = st.block_size := u32_eq_of_lt hbs32
      have hlen : 0 < len := Nat.pos_of_ne_zero hl
      have hV := hr hlen
      have hb : u32 (sbn / num_device * st.block_size) + st.block_size ≤ m :=
        blk_off_bound hblk
          (by show B * st.block_size < virtual_size m st.block_size 2; omega)
      by_cases hle : len ≤ st.block_size
      · simp only [xmp_read_loop, hl, if_false, hu, hle, if_true]
        refine ⟨_, rfl, ?_⟩
        intro op hop
        simp only [List.mem_singleton] at hop
        subst hop
        unfold OpOK
        simp only
        omega
      · have hsub : u32 (len - st.block_size) = len - st.block_size :=
          u32_eq_of_lt (by omega)
        obtain ⟨r2, hr2, hQ2⟩ := raid0_read_loop_ops_ok st m hbs hbs32 fuel
          (pread (st.dev_fd (sbn % num_device)) (st.disk (sbn % num_device)) buf pos
            st.block_size (u32 (sbn / num_device * st.block_size)))
          (pos + st.block_size) (u32 (len - st.block_size)) (u32 (sbn + 1)) (B + 1)
          (by rw [hsub]; omega) (by rw [hsub]; omega)
          (le_trans (u32_le _) (by omega))
          (by
            rw [hsub]
            intro _
            have e : (B + 1) * st.block_size = B * st.block_size + st.block_size :=
              Nat.succ_mul _ _
            omega)
        simp only [xmp_read_loop, hl, if_false, hu, hle, hr2]
        refine ⟨_, rfl, ?_⟩
        intro op hop
        rcases List.mem_cons.mp hop with h | h
        · subst h
          unfold OpOK
          simp only
          omega
        · exact hQ2 op h

/-- The RAID-0 `xmp_read` returns on an in-range request of positive length, and
every call it issues stays in bounds. -/
theorem raid0_read_ops_ok (st : State) (m : Nat)
    (hbs : 0 < st.block_size) (hbs32 : st.block_size < 4294967296)
    (fuel : Nat) (buf : Buf) (len offset : Nat) (hlen : 0 < len) (hl32 : len < 4294967296)
    (hr : offset + len ≤ virtual_size m st.block_size 2) (hf : len ≤ fuel) :
    ∃ r, xmp_read fuel st buf len offset = some r ∧
      (∀ op ∈ r.ops, OpOK m st.block_size op) ∧ r.status = 0 := by
  have hmod : offset % st.block_size < st.block_size := Nat.mod_lt _ hbs
  have hdm := Nat.div_add_mod offset st.block_size
  rw [Nat.mul_comm] at hdm
  have hb : u32 (u32 (offset / st.block_size) / num_device * st.block_size) + st.block_size
      ≤ m := blk_off_bound (u32_le _)
        (by show offset / st.block_size * st.block_size < virtual_size m st.block_size 2; omega)
  by_cases hle : len ≤ st.block_size - offset % st.block_size
  · simp only [xmp_read, hle, if_true]
    refine ⟨_, rfl, ?_, rfl⟩
    intro op hop
    simp only [List.mem_singleton] at hop
    subst hop
    unfold OpOK
    simp only
    omega
  · have hsub : u32 (len - (st.block_size - offset % st.block_size)) =
        len - (st.block_size - offset % st.block_size) := u32_eq_of_lt (by omega)
    obtain ⟨r2, hr2, hQ2⟩ := raid0_read_loop_ops_ok st m hbs hbs32 fuel
      (pread (st.dev_fd (u32 (offset / st.block_size) % num_device))
        (st.disk (u32 (offset / st.block_size) % num_device)) buf 0
        (st.block_size - offset % st.block_size)
        (u32 (u32 (offset / st.block_size) / num_device * st.block_size) +
          offset % st.block_size))
      (st.block_size - offset % st.block_size)
      (u32 (len - (st.block_size - offset % st.block_size)))
      (u32 (u32 (offset / st.block_size) + 1)) (offset / st.block_size + 1)
      (by rw [hsub]; omega) (by rw [hsub]; omega)
      (le_trans (u32_le _) (Nat.succ_le_succ (u32_le _)))
      (by
        rw [hsub]
        intro _
        have e : (offset / st.block_size + 1) * st.block_size =
            offset / st.block_size * st.block_size + st.block_size := Nat.succ_mul _ _
        omega)
    simp only [xmp_read, hle, if_false, hr2]
    refine ⟨_, rfl, ?_, rfl⟩
    intro op hop
    rcases List.mem_cons.mp hop with h | h
    · subst h
      unfold OpOK
      simp only
      omega
    · exact hQ2 op h

/-- The `while` loop of the RAID-0 `xmp_write` returns, and every call it issues
stays in bounds. -/
theorem raid0_write_loop_ops_ok (bs m : Nat) (hbs : 0 < bs) (hbs32 : bs < 4294967296) :
    ∀ fuel (st : State) buf pos len sbn B, st.block_size = bs → len ≤ fuel →
      len < 4294967296 → sbn ≤ B →
      (0 < len → B * bs + len ≤ virtual_size m bs 2) →
      ∃ r, xmp_write_loop fuel st buf pos len sbn = some r ∧ r.1.block_size = bs ∧
        ∀ op ∈ r.2, OpOK m bs op
  | 0, st, buf, pos, len, sbn, B, hsb, hf, _, _, _ => by
    have : len = 0 := by omega
    subst this
    exact ⟨(st, []), by simp [xmp_write_loop], hsb, by simp⟩
  | fuel + 1, st, buf, pos, len, sbn, B, hsb, hf, hl32, hblk, hr => by
    by_cases hl : len = 0
    · subst hl
      exact ⟨(st, []), by simp [xmp_write_loop], hsb, by simp⟩
    · have hu : u32 st.block_size = bs := by rw [hsb]; exact u32_eq_of_lt hbs32
      have hlen : 0 < len := Nat.pos_of_ne_zero hl
      have hV := hr hlen
      have hb : u32 (sbn / num_device * bs) + bs ≤ m :=
        blk_off_bound hblk (by show B * bs < virtual_size m bs 2; omega)
      by_cases hle : len ≤ bs
      · simp only [xmp_write_loop, hl, if_false, hu, hle, if_true]
        refine ⟨_, rfl, hsb, ?_⟩
        intro op hop
        simp only [List.mem_singleton] at hop
        subst hop
        unfold OpOK
        simp only [hsb]
        omega
      · have hsub : u32 (len - bs) = len - bs := u32_eq_of_lt (by omega)
        obtain ⟨r2, hr2, hc2, hQ2⟩ := raid0_write_loop_ops_ok bs m hbs hbs32 fuel
          (st.pwrite (sbn % num_device) buf pos st.block_size
            (u32 (sbn / num_device * st.block_size)))
          buf (pos + st.block_size) (u32 (len - st.block_size)) (u32 (sbn + 1)) (B + 1)
          hsb
          (by rw [hsb, hsub]; omega) (by rw [hsb, hsub]; omega)
          (le_trans (u32_le _) (by omega))
          (by
            rw [hsb, hsub]
            intro _
            have e : (B + 1) * bs = B * bs + bs := Nat.succ_mul _ _
            omega)
        simp only [xmp_write_loop, hl, if_false, hu, hle, hr2]
        refine ⟨_, rfl, hc2, ?_⟩
        intro op hop
        rcases List.mem_cons.mp hop with h | h
        · subst h
          unfold OpOK
          simp only [hsb]
          omega
        · exact hQ2 op h

/-- The RAID-0 `xmp_write` returns on an in-range request of positive length, and
every call it issues stays in bounds. -/
theorem raid0_write_ops_ok (st : State) (m : Nat)
    (hbs : 0 < st.block_size) (hbs32 : st.block_size < 4294967296)
    (fuel : Nat) (buf : Buf) (len offset : Nat) (hlen : 0 < len) (hl32 : len < 4294967296)
    (hr : offset + len ≤ virtual_size m st.block_size 2) (hf : len ≤ fuel) :
    ∃ r, xmp_write fuel st buf len offset = some r ∧
      (∀ op ∈ r.ops, OpOK m st.block_size op) ∧ r.status = 0 := by
  have hmod : offset % st.block_size < st.block_size := Nat.mod_lt _ hbs
  have hdm := Nat.div_add_mod offset st.block_size
  rw [Nat.mul_comm] at hdm
  have hb : u32 (u32 (offset / st.block_size) / num_device * st.block_size) + st.block_size
      ≤ m := blk_off_bound (u32_le _)
        (by show offset / st.block_size * st.block_size < virtual_size m st.block_size 2; omega)
  by_cases hle : len ≤ st.block_size - offset % st.block_size
  · simp only [xmp_write, hle, if_true]
    refine ⟨_, rfl, ?_, rfl⟩
    intro op hop
    simp only [List.mem_singleton] at hop
    subst hop
    unfold OpOK
    simp only
    omega
  · have hsub : u32 (len - (st.block_size - offset % st.block_size)) =
        len - (st.block_size - offset % st.block_size) := u32_eq_of_lt (by omega)
    obtain ⟨r2, hr2, _, hQ2⟩ := raid0_write_loop_ops_ok st.block_size m hbs hbs32 fuel
      (st.pwrite (u32 (offset / st.block_size) % num_device) buf 0
        (st.block_size - offset % st.block_size)
        (u32 (u32 (offset / st.block_size) / num_device * st.block_size) +
          offset % st.block_size))
      buf (st.block_size - offset % st.block_size)
      (u32 (len - (st.block_size - offset % st.block_size)))
      (u32 (u32 (offset / st.block_size) + 1)) (offset / st.block_size + 1)
      rfl
      (by rw [hsub]; omega) (by rw [hsub]; omega)
      (le_trans (u32_le _) (Nat.succ_le_succ (u32_le _)))
      (by
        rw [hsub]
        intro _
        have e : (offset / st.block_size + 1) * st.block_size =
            offset / st.block_size * st.block_size + st.block_size := Nat.succ_mul _ _
        omega)
    simp only [xmp_write, hle, if_false, hr2]
    refine ⟨_, rfl, ?_, rfl⟩
    intro op hop
    rcases List.mem_cons.mp hop with h | h
    · subst h
      unfold OpOK
      simp only
      omega
    · exact hQ2 op h

end Raid0
end BUSE

/-! ## Where the bytes of a request go -/

namespace BUSE

theorem u32_succ (B : Nat) : u32 (u32 B + 1) = u32 (B + 1) := by
  unfold u32
  omega

/-- Inside the block that starts at virtual offset `(B + 1) * bs`, byte `t` is
located in block `B + 1` at in-block offset `t`. -/
theorem code_loc_in_block (bs dc B t : Nat) (ht : t < bs) :
    code_device bs dc ((B + 1) * bs + t) = u32 (B + 1) % dc ∧
    code_device_offset bs dc ((B + 1) * bs + t) = u32 (u32 (B + 1) / dc * bs) + t := by
  have hbs : 0 < bs := by omega
  have hdiv : ((B + 1) * bs + t) / bs = B + 1 := by
    rw [Nat.mul_comm, Nat.mul_add_div hbs, Nat.div_eq_of_lt ht, Nat.add_zero]
  have hmod : ((B + 1) * bs + t) % bs = t := by
    rw [Nat.mul_comm, Nat.mul_add_mod, Nat.mod_eq_of_lt ht]
  simp only [code_device, code_device_offset, hdiv, hmod, and_self]

/-- Inside the block that starts at virtual offset `B * bs`, byte `t` is located
in block `B` at in-block offset `t`. -/
theorem code_loc_at_block {bs dc B t : Nat} (ht : t < bs) :
    code_loc bs dc (B * bs + t) = (u32 B % dc, u32 (u32 B / dc * bs) + t) := by
  have hbs : 0 < bs := by omega
  have hdiv : (B * bs + t) / bs = B := by
    rw [Nat.mul_comm, Nat.mul_add_div hbs, Nat.div_eq_of_lt ht, Nat.add_zero]
  have hmod : (B * bs + t) % bs = t := by
    rw [Nat.mul_comm, Nat.mul_add_mod, Nat.mod_eq_of_lt ht]
  simp only [code_loc, code_device, code_device_offset, hdiv, hmod]

/-- In the block holding `offset`, byte `t` of the head piece is located in
block `offset / bs` at in-block offset `offset mod bs + t`. -/
theorem code_loc_head (bs dc offset t : Nat) (ht : offset % bs + t < bs) :
    code_device bs dc (offset + t) = u32 (offset / bs) % dc ∧
    code_device_offset bs dc (offset + t) =
      u32 (u32 (offset / bs) / dc * bs) + offset % bs + t := by
  have hbs : 0 < bs := by omega
  have hdm := Nat.div_add_mod offset bs
  have hdiv : (offset + t) / bs = offset / bs := by
    have : offset + t = bs * (offset / bs) + (offset % bs + t) := by omega
    rw [this, Nat.mul_add_div hbs, Nat.div_eq_of_lt ht, Nat.add_zero]
  have hmod : (offset + t) % bs = offset % bs + t := by
    have : offset + t = bs * (offset / bs) + (offset % bs + t) := by omega
    rw [this, Nat.mul_add_mod, Nat.mod_eq_of_lt ht]
  simp only [code_device, code_device_offset, hdiv, hmod, Nat.add_assoc, and_self]

end BUSE

namespace BUSE
namespace Raid4

/-- The data slots after `write_into_blk`: only the payload bytes change. -/
theorem write_into_blk_data (st : State) (buf : Buf) (pos d n doff k s a : Nat)
    (hd : st.dev_fd d ≠ -1) (hP : st.dev_fd (st.num_devices - 1) ≠ -1)
    (hne : d ≠ st.num_devices - 1) (hs : s ≠ st.num_devices - 1) :
    (write_into_blk st buf pos d n doff k).1.disk s a =
      if s = d ∧ doff ≤ a ∧ a < doff + n then buf (pos + (a - doff)) else st.disk s a := by
  rw [write_into_blk_disk st buf pos d n doff k s a hd hP hne]
  by_cases hsd : s = d
  · subst hsd
    simp only [if_neg hs, if_true, true_and]
  · simp [hs, hsd]

/-- The `while` loop of the non-degraded `xmp_write` on an array with no absent
slot: it returns; a byte of a data slot that is not the location of a byte of the
remaining request keeps its value (frame); and if the remaining bytes have
pairwise different locations, each is stored at its location. -/
theorem xmp_write_loop_content (bs N : Nat) (hbs : 0 < bs) (hbs32 : bs < 4294967296)
    (hN : 2 ≤ N) (buf : Buf) :
    ∀ fuel st pos len B, NoAbsent bs N st → len ≤ fuel →
      ∃ r, xmp_write_loop write_piece_healthy fuel st buf pos len (u32 B) = some r ∧
        NoAbsent bs N r.1 ∧
        (∀ s a, s < N - 1 →
          (∀ t, t < len → code_loc bs (N - 1) ((B + 1) * bs + t) ≠ (s, a)) →
          r.1.disk s a = st.disk s a) ∧
        ((∀ t u, t < len → u < len →
            code_loc bs (N - 1) ((B + 1) * bs + t) = code_loc bs (N - 1) ((B + 1) * bs + u) →
            t = u) →
          ∀ t, t < len →
            r.1.disk (code_loc bs (N - 1) ((B + 1) * bs + t)).1
              (code_loc bs (N - 1) ((B + 1) * bs + t)).2 = buf (pos + t))
  | 0, st, pos, len, B, hst, hf => by
    have : len = 0 := by omega
    subst this
    exact ⟨(st, []), by simp [xmp_write_loop], hst, fun _ _ _ _ => rfl,
      fun _ t ht => absurd ht (Nat.not_lt_zero _)⟩
  | fuel + 1, st, pos, len, B, hst, hf => by
    by_cases hl : len = 0
    · subst hl
      exact ⟨(st, []), by simp [xmp_write_loop], hst, fun _ _ _ _ => rfl,
        fun _ t ht => absurd ht (Nat.not_lt_zero _)⟩
    · obtain ⟨hsb, hsN, hpres⟩ := hst
      have hu : u32 st.block_size = bs := by rw [hsb]; exact u32_eq_of_lt hbs32
      have hdc : 0 < N - 1 := by omega
      -- the length of this piece
      obtain ⟨n, hn⟩ : ∃ n, n = (if len ≤ bs then len else bs) := ⟨_, rfl⟩
      have hn1 : 0 < n := by rw [hn]; split <;> omega
      have hn2 : n ≤ bs := by rw [hn]; split <;> omega
      have hn3 : n ≤ len := by rw [hn]; split <;> omega
      have hn4 : 0 < len - n → n = bs := by rw [hn]; split <;> omega
      have hdlt : u32 (B + 1) % (N - 1) < N - 1 := Nat.mod_lt _ hdc
      -- the state after this piece
      obtain ⟨st1, hst1⟩ : ∃ st1, st1 = (write_into_blk st buf pos (u32 (B + 1) % (N - 1)) n
          (u32 (u32 (B + 1) / (N - 1) * bs)) (u32 (B + 1) / (N - 1))).1 := ⟨_, rfl⟩
      have hcfg1 : NoAbsent bs N st1 := by rw [hst1]; exact ⟨hsb, hsN, hpres⟩
      have hdisk1 : ∀ s a, s < N - 1 → st1.disk s a =
          if s = u32 (B + 1) % (N - 1) ∧ u32 (u32 (B + 1) / (N - 1) * bs) ≤ a ∧
              a < u32 (u32 (B + 1) / (N - 1) * bs) + n
            then buf (pos + (a - u32 (u32 (B + 1) / (N - 1) * bs))) else st.disk s a := by
        intro s a hs
        rw [hst1]
        exact write_into_blk_data st buf pos _ n _ _ s a (hpres _ (by omega))
          (by rw [hsN]; exact hpres _ (by omega)) (by rw [hsN]; omega) (by rw [hsN]; omega)
      have hloc : ∀ t, t < n → code_loc bs (N - 1) ((B + 1) * bs + t) =
          (u32 (B + 1) % (N - 1), u32 (u32 (B + 1) / (N - 1) * bs) + t) := by
        intro t ht
        have := code_loc_in_block bs (N - 1) B t (by omega)
        simp only [code_loc, this.1, this.2]
      have hshift : ∀ t, 0 < len - n → (B + 1 + 1) * bs + t = (B + 1) * bs + (n + t) := by
        intro t h
        rw [Nat.succ_mul (B + 1) bs, Nat.add_assoc, hn4 h]
      have hu2 : u32 bs = bs := u32_eq_of_lt hbs32
      obtain ⟨r2, hr2, hc2, hfr2, hct2⟩ := xmp_write_loop_content bs N hbs hbs32 hN buf fuel st1
        (pos + n) (len - n) (B + 1) hcfg1 (by omega)
      have hcall : xmp_write_loop write_piece_healthy (fuel + 1) st buf pos len (u32 B) =
          some (r2.1, (write_into_blk st buf pos (u32 (B + 1) % (N - 1)) n
            (u32 (u32 (B + 1) / (N - 1) * bs)) (u32 (B + 1) / (N - 1))).2 ++ r2.2) := by
        simp only [xmp_write_loop, hl, if_false, hu2, u32_succ, write_piece_healthy, hsN, hsb,
          ← hn, ← hst1, hr2]
      refine ⟨_, hcall, hc2, ?_, ?_⟩
      · -- frame
        intro s a hs hfree
        show r2.1.disk s a = st.disk s a
        rw [hfr2 s a hs (fun t ht => by
          rw [hshift t (by omega)]
          exact hfree (n + t) (by omega))]
        rw [hdisk1 s a hs]
        split
        · rename_i h
          exfalso
          have := hfree (a - u32 (u32 (B + 1) / (N - 1) * bs)) (by omega)
          rw [hloc _ (by omega)] at this
          apply this
          rw [h.1]
          congr 1
          omega
        · rfl
      · -- content
        intro hinj t ht
        show r2.1.disk _ _ = buf (pos + t)
        by_cases htn : t < n
        · rw [hfr2 _ _ (by rw [hloc t htn]; exact hdlt) (fun u hu' => by
            rw [hshift u (by omega)]
            intro heq
            have := hinj (n + u) t (by omega) ht heq
            omega)]
          rw [hloc t htn]
          rw [hdisk1 _ _ hdlt]
          have hadd : u32 (u32 (B + 1) / (N - 1) * bs) + t - u32 (u32 (B + 1) / (N - 1) * bs) = t := by
            omega
          simp [htn, hadd]
        · have hpos : (B + 1) * bs + t = (B + 1 + 1) * bs + (t - n) := by
            rw [hshift (t - n) (by omega)]; congr 1; omega
          rw [hpos]
          rw [hct2 (fun x y hx hy heq => by
            rw [hshift x (by omega), hshift y (by omega)] at heq
            have := hinj (n + x) (n + y) (by omega) (by omega) heq
            omega) (t - n) (by omega)]
          congr 1
          omega

end Raid4
end BUSE

namespace BUSE
namespace Raid4

/-- The non-degraded `xmp_write` on an array with no absent slot: it returns
status 0; a byte of a data slot that is not the location of a byte of the
request keeps its value (frame); and if the bytes of the request have pairwise
different locations, each payload byte is stored at its location. -/
theorem xmp_write_content (bs N : Nat) (hbs : 0 < bs) (hbs32 : bs < 4294967296)
    (hN : 2 ≤ N) (fuel : Nat) (st : State) (buf : Buf) (len offset : Nat)
    (hst : NoAbsent bs N st) (hdeg : st.degraded = false) (hf : len ≤ fuel) :
    ∃ r, xmp_write fuel st buf len offset = some r ∧ NoAbsent bs N r.st ∧
      r.st.degraded = false ∧ r.status = 0 ∧
      (∀ s a, s < N - 1 →
        (∀ t, t < len → code_loc bs (N - 1) (offset + t) ≠ (s, a)) →
        r.st.disk s a = st.disk s a) ∧
      ((∀ t u, t < len → u < len →
          code_loc bs (N - 1) (offset + t) = code_loc bs (N - 1) (offset + u) → t = u) →
        ∀ t, t < len →
          r.st.disk (code_loc bs (N - 1) (offset + t)).1 (code_loc bs (N - 1) (offset + t)).2 =
            buf t) := by
  obtain ⟨hsb, hsN, hpres⟩ := hst
  have hdc : 0 < N - 1 := by omega
  have hmod : offset % bs < bs := Nat.mod_lt _ hbs
  have hdm := Nat.div_add_mod offset bs
  rw [Nat.mul_comm] at hdm
  obtain ⟨n, hn⟩ : ∃ n, n = (if len ≤ bs - offset % bs then len else bs - offset % bs) :=
    ⟨_, rfl⟩
  have hn2 : offset % bs + n ≤ bs := by rw [hn]; split <;> omega
  have hn3 : n ≤ len := by rw [hn]; split <;> omega
  have hn4 : 0 < len - n → n = bs - offset % bs := by rw [hn]; split <;> omega
  have hnu : u32 n = n := u32_eq_of_lt (by omega)
  have hdlt : u32 (offset / bs) % (N - 1) < N - 1 := Nat.mod_lt _ hdc
  obtain ⟨st1, hst1⟩ : ∃ st1, st1 = (write_into_blk st buf 0 (u32 (offset / bs) % (N - 1)) n
      (u32 (u32 (offset / bs) / (N - 1) * bs) + offset % bs)
      (u32 (offset / bs) / (N - 1))).1 := ⟨_, rfl⟩
  have hcfg1 : NoAbsent bs N st1 := by rw [hst1]; exact ⟨hsb, hsN, hpres⟩
  have hdeg1 : st1.degraded = false := by rw [hst1]; exact hdeg
  have hdisk1 : ∀ s a, s < N - 1 → st1.disk s a =
      if s = u32 (offset / bs) % (N - 1) ∧
          u32 (u32 (offset / bs) / (N - 1) * bs) + offset % bs ≤ a ∧
          a < u32 (u32 (offset / bs) / (N - 1) * bs) + offset % bs + n
        then buf (0 + (a - (u32 (u32 (offset / bs) / (N - 1) * bs) + offset % bs)))
        else st.disk s a := by
    intro s a hs
    rw [hst1]
    exact write_into_blk_data st buf 0 _ n _ _ s a (hpres _ (by omega))
      (by rw [hsN]; exact hpres _ (by omega)) (by rw [hsN]; omega) (by rw [hsN]; omega)
  have hloc : ∀ t, t < n → code_loc bs (N - 1) (offset + t) =
      (u32 (offset / bs) % (N - 1),
        u32 (u32 (offset / bs) / (N - 1) * bs) + offset % bs + t) := by
    intro t ht
    have := code_loc_head bs (N - 1) offset t (by omega)
    simp only [code_loc, this.1, this.2]
  have hshift : ∀ t, 0 < len - n → (offset / bs + 1) * bs + t = offset + (n + t) := by
    intro t h
    rw [Nat.succ_mul, hn4 h]
    omega
  obtain ⟨r2, hr2, hc2, hfr2, hct2⟩ := xmp_write_loop_content bs N hbs hbs32 hN buf fuel st1
    n (len - n) (offset / bs) hcfg1 (by omega)
  have hdeg2 : r2.1.degraded = false := by
    have hgen : ∀ (fuel : Nat) (s : State) (pos len blk : Nat) (r : State × List Op),
        xmp_write_loop write_piece_healthy fuel s buf pos len blk = some r →
        r.1.degraded = s.degraded := by
      intro fuel
      induction fuel with
      | zero =>
        intro s pos len blk r h
        simp only [xmp_write_loop] at h
        split at h
        · cases h; rfl
        · cases h
      | succ f ih =>
        intro s pos len blk r h
        simp only [xmp_write_loop] at h
        split at h
        · cases h; rfl
        · split at h
          · cases h
          · rename_i r3 h3
            cases h
            have := ih _ _ _ _ r3 h3
            exact this
    rw [hgen _ _ _ _ _ _ hr2]
    exact hdeg1
  have hcall : xmp_write fuel st buf len offset =
      some ⟨r2.1, (write_into_blk st buf 0 (u32 (offset / bs) % (N - 1)) n
        (u32 (u32 (offset / bs) / (N - 1) * bs) + offset % bs)
        (u32 (offset / bs) / (N - 1))).2 ++ r2.2, 0⟩ := by
    simp only [xmp_write, hdeg, Bool.false_eq_true, if_false, write_piece_healthy, hsN, hsb,
      ← hn, hnu, ← hst1, hr2]
  refine ⟨_, hcall, hc2, hdeg2, rfl, ?_, ?_⟩
  · intro s a hs hfree
    show r2.1.disk s a = st.disk s a
    rw [hfr2 s a hs (fun t ht => by
      rw [hshift t (by omega)]
      exact hfree (n + t) (by omega))]
    rw [hdisk1 s a hs]
    split
    · rename_i h
      exfalso
      have := hfree (a - (u32 (u32 (offset / bs) / (N - 1) * bs) + offset % bs)) (by omega)
      rw [hloc _ (by omega)] at this
      apply this
      rw [h.1]
      congr 1
      omega
    · rfl
  · intro hinj t ht
    show r2.1.disk _ _ = buf t
    by_cases htn : t < n
    · rw [hfr2 _ _ (by rw [hloc t htn]; exact hdlt) (fun u hu' => by
        rw [hshift u (by omega)]
        intro heq
        have := hinj (n + u) t (by omega) ht heq
        omega)]
      rw [hloc t htn]
      rw [hdisk1 _ _ hdlt]
      have hadd : u32 (u32 (offset / bs) / (N - 1) * bs) + offset % bs + t -
          (u32 (u32 (offset / bs) / (N - 1) * bs) + offset % bs) = t := by omega
      simp [htn, hadd]
    · have hpos : offset + t = (offset / bs + 1) * bs + (t - n) := by
        rw [hshift (t - n) (by omega)]; congr 1; omega
      rw [hpos]
      rw [hct2 (fun x y hx hy heq => by
        rw [hshift x (by omega), hshift y (by omega)] at heq
        have := hinj (n + x) (n + y) (by omega) (by omega) heq
        omega) (t - n) (by omega)]
      congr 1
      omega

end Raid4
end BUSE

namespace BUSE
namespace Raid4

/-- The `while` loop of `xmp_read` when every data slot is present: it returns;
the buffer bytes of the remaining request receive the bytes stored at their
locations and the rest of the buffer is untouched; the calls issued are reads
that fill the buffer in order. -/
theorem xmp_read_loop_content (st : State) (bs N : Nat) (hbs : 0 < bs)
    (hbs32 : bs < 4294967296) (hN : 2 ≤ N) (hsb : st.block_size = bs)
    (hsN : st.num_devices = N) (hpres : ∀ s, s < N - 1 → st.dev_fd s ≠ -1) :
    ∀ fuel buf pos len B, len ≤ fuel →
      ∃ r, xmp_read_loop st fuel buf pos len (u32 B) = some r ∧
        (∀ j, r.1 j = if pos ≤ j ∧ j < pos + len
          then st.disk (code_loc bs (N - 1) ((B + 1) * bs + (j - pos))).1
            (code_loc bs (N - 1) ((B + 1) * bs + (j - pos))).2
          else buf j) ∧
        Covers pos r.2 (pos + len) ∧
        TransfersAt false (fun j => code_loc bs (N - 1) ((B + 1) * bs + (j - pos)))
          pos (pos + len) r.2
  | 0, buf, pos, len, B, hf => by
    have : len = 0 := by omega
    subst this
    refine ⟨(buf, []), by simp [xmp_read_loop], fun j => ?_, rfl, ?_⟩
    · have h : ¬ (pos ≤ j ∧ j < pos + 0) := by omega
      simp only [h, if_false]
    · intro op hop
      cases hop
  | fuel + 1, buf, pos, len, B, hf => by
    by_cases hl : len = 0
    · subst hl
      refine ⟨(buf, []), by simp [xmp_read_loop], fun j => ?_, rfl, ?_⟩
      · have h : ¬ (pos ≤ j ∧ j < pos + 0) := by omega
        simp only [h, if_false]
      · intro op hop
        cases hop
    · have hu2 : u32 bs = bs := u32_eq_of_lt hbs32
      have hdc : 0 < N - 1 := by omega
      obtain ⟨n, hn⟩ : ∃ n, n = (if len ≤ bs then len else bs) := ⟨_, rfl⟩
      have hn1 : 0 < n := by rw [hn]; split <;> omega
      have hn2 : n ≤ bs := by rw [hn]; split <;> omega
      have hn3 : n ≤ len := by rw [hn]; split <;> omega
      have hn4 : 0 < len - n → n = bs := by rw [hn]; split <;> omega
      have hdlt : u32 (B + 1) % (N - 1) < N - 1 := Nat.mod_lt _ hdc
      have hfd : st.dev_fd (u32 (B + 1) % (N - 1)) ≠ -1 := hpres _ hdlt
      have hloc : ∀ t, t < n → code_loc bs (N - 1) ((B + 1) * bs + t) =
          (u32 (B + 1) % (N - 1), u32 (u32 (B + 1) / (N - 1) * bs) + t) := by
        intro t ht
        have := code_loc_in_block bs (N - 1) B t (by omega)
        simp only [code_loc, this.1, this.2]
      have hshift : ∀ t, 0 < len - n → (B + 1 + 1) * bs + t = (B + 1) * bs + (n + t) := by
        intro t h
        rw [Nat.succ_mul (B + 1) bs, Nat.add_assoc, hn4 h]
      obtain ⟨r2, hr2, hb2, hcov2, htr2⟩ := xmp_read_loop_content st bs N hbs hbs32 hN hsb hsN
        hpres fuel
        (pread (st.dev_fd (u32 (B + 1) % (N - 1))) (st.disk (u32 (B + 1) % (N - 1))) buf pos n
          (u32 (u32 (B + 1) / (N - 1) * bs)))
        (pos + n) (len - n) (B + 1) (by omega)
      have hcall : xmp_read_loop st (fuel + 1) buf pos len (u32 B) =
          some (r2.1, [⟨false, u32 (B + 1) % (N - 1), u32 (u32 (B + 1) / (N - 1) * bs), n,
            some pos⟩] ++ r2.2) := by
        simp only [xmp_read_loop, hl, if_false, hu2, u32_succ, read_piece, hsN, hsb, ← hn,
          hfd, ne_eq, not_false_eq_true, if_true, hr2]
      refine ⟨_, hcall, ?_, ?_, ?_⟩
      · intro j
        show r2.1 j = _
        rw [hb2 j]
        by_cases h1 : pos + n ≤ j ∧ j < pos + n + (len - n)
        · have h2 : pos ≤ j ∧ j < pos + len := by omega
          have e : (B + 1 + 1) * bs + (j - (pos + n)) = (B + 1) * bs + (j - pos) := by
            rw [hshift _ (by omega)]; congr 1; omega
          simp only [h1, h2, and_self, if_true, e]
        · by_cases h2 : pos ≤ j ∧ j < pos + len
          · have h3 : j - pos < n := by omega
            have hadd : pos + (j - pos) = j := by omega
            simp only [h1, h2, and_self, if_true, if_false, hloc _ h3, pread]
            simp [hfd, h2.1, hadd, show j < pos + n by omega]
          · have h3 : ¬ (pos ≤ j ∧ j < pos + n) := by omega
            simp only [h1, h2, if_false, pread]
            simp [h3]
      · show Covers pos (_ :: r2.2) (pos + len)
        refine ⟨rfl, ?_⟩
        have e : pos + n + (len - n) = pos + len := by omega
        rw [e] at hcov2
        exact hcov2
      · intro op hop
        rcases List.mem_append.mp hop with h | h
        · simp only [List.mem_singleton] at h
          rw [h]
          refine ⟨rfl, fun u j hu hj1 hj2 => ?_⟩
          have hu' : pos = u := by simpa using hu
          simp only at hj2 ⊢
          rw [← hu'] at hj1 hj2 ⊢
          refine ⟨Nat.le_refl _, by omega, ?_⟩
          rw [hloc _ (by omega)]
        · obtain ⟨h1, h2⟩ := htr2 op h
          refine ⟨h1, fun u j hu hj1 hj2 => ?_⟩
          obtain ⟨h3, h4, h5⟩ := h2 u j hu hj1 hj2
          refine ⟨by omega, by omega, ?_⟩
          rw [h5]
          simp only
          have e : (B + 1 + 1) * bs + (j - (pos + n)) = (B + 1) * bs + (j - pos) := by
            rw [hshift _ (by omega)]; congr 1; omega
          rw [e]

end Raid4
end BUSE

namespace BUSE
namespace Raid4

/-- The RAID-4 `xmp_read` when every data slot is present: it returns status 0;
buffer byte `j < len` receives the byte stored at the location of virtual offset
`offset + j`, the rest of the buffer is untouched; the calls issued are reads
that fill the buffer in order from position 0 to `len`. -/
theorem xmp_read_content (st : State) (bs N : Nat) (hbs : 0 < bs)
    (hbs32 : bs < 4294967296) (hN : 2 ≤ N) (hsb : st.block_size = bs)
    (hsN : st.num_devices = N) (hpres : ∀ s, s < N - 1 → st.dev_fd s ≠ -1)
    (fuel : Nat) (buf : Buf) (len offset : Nat) (hf : len ≤ fuel) :
    ∃ r, xmp_read fuel st buf len offset = some r ∧ r.status = 0 ∧
      (∀ j, r.buf j = if j < len
        then st.disk (code_loc bs (N - 1) (offset + j)).1 (code_loc bs (N - 1) (offset + j)).2
        else buf j) ∧
      Covers 0 r.ops len ∧
      TransfersAt false (fun j => code_loc bs (N - 1) (offset + j)) 0 len r.ops := by
  have hdc : 0 < N - 1 := by omega
  have hmod : offset % bs < bs := Nat.mod_lt _ hbs
  have hdm := Nat.div_add_mod offset bs
  rw [Nat.mul_comm] at hdm
  obtain ⟨n, hn⟩ : ∃ n, n = (if len ≤ bs - offset % bs then len else bs - offset % bs) :=
    ⟨_, rfl⟩
  have hn2 : offset % bs + n ≤ bs := by rw [hn]; split <;> omega
  have hn3 : n ≤ len := by rw [hn]; split <;> omega
  have hn4 : 0 < len - n → n = bs - offset % bs := by rw [hn]; split <;> omega
  have hnu : u32 n = n := u32_eq_of_lt (by omega)
  have hdlt : u32 (offset / bs) % (N - 1) < N - 1 := Nat.mod_lt _ hdc
  have hfd : st.dev_fd (u32 (offset / bs) % (N - 1)) ≠ -1 := hpres _ hdlt
  have hloc : ∀ t, t < n → code_loc bs (N - 1) (offset + t) =
      (u32 (offset / bs) % (N - 1),
        u32 (u32 (offset / bs) / (N - 1) * bs) + offset % bs + t) := by
    intro t ht
    have := code_loc_head bs (N - 1) offset t (by omega)
    simp only [code_loc, this.1, this.2]
  have hshift : ∀ t, 0 < len - n → (offset / bs + 1) * bs + t = offset + (n + t) := by
    intro t h
    rw [Nat.succ_mul, hn4 h]
    omega
  obtain ⟨r2, hr2, hb2, hcov2, htr2⟩ := xmp_read_loop_content st bs N hbs hbs32 hN hsb hsN
    hpres fuel
    (pread (st.dev_fd (u32 (offset / bs) % (N - 1))) (st.disk (u32 (offset / bs) % (N - 1)))
      buf 0 n (u32 (u32 (offset / bs) / (N - 1) * bs) + offset % bs))
    n (len - n) (offset / bs) (by omega)
  have hcall : xmp_read fuel st buf len offset =
      some ⟨r2.1, [⟨false, u32 (offset / bs) % (N - 1),
        u32 (u32 (offset / bs) / (N - 1) * bs) + offset % bs, n, some 0⟩] ++ r2.2, 0⟩ := by
    simp only [xmp_read, read_piece, hsN, hsb, ← hn, hnu, hfd, ne_eq, not_false_eq_true,
      if_true, hr2]
  refine ⟨_, hcall, rfl, ?_, ?_, ?_⟩
  · intro j
    show r2.1 j = _
    rw [hb2 j]
    by_cases h1 : n ≤ j ∧ j < n + (len - n)
    · have h2 : j < len := by omega
      have e : (offset / bs + 1) * bs + (j - n) = offset + j := by
        rw [hshift _ (by omega)]; congr 1; omega
      simp only [h1, h2, and_self, if_true, e]
    · by_cases h2 : j < len
      · have h3 : j < n := by omega
        simp only [h1, h2, if_true, if_false, hloc _ h3, pread]
        simp [hfd, h3]
      · have h3 : ¬ j < n := by omega
        simp only [h1, h2, if_false, pread]
        simp [h3]
  · show Covers 0 (_ :: r2.2) len
    refine ⟨rfl, ?_⟩
    have e : n + (len - n) = len := by omega
    rw [e] at hcov2
    simp only [Nat.zero_add]
    exact hcov2
  · intro op hop
    rcases List.mem_append.mp hop with h | h
    · simp only [List.mem_singleton] at h
      rw [h]
      refine ⟨rfl, fun u j hu hj1 hj2 => ?_⟩
      have hu' : 0 = u := by simpa using hu
      simp only at hj2 ⊢
      rw [← hu'] at hj1 hj2 ⊢
      refine ⟨Nat.le_refl _, by omega, ?_⟩
      rw [hloc _ (by omega)]
      rfl
    · obtain ⟨h1, h2⟩ := htr2 op h
      refine ⟨h1, fun u j hu hj1 hj2 => ?_⟩
      obtain ⟨h3, h4, h5⟩ := h2 u j hu hj1 hj2
      refine ⟨by omega, by omega, ?_⟩
      rw [h5]
      simp only
      have e : (offset / bs + 1) * bs + (j - n) = offset + j := by
        rw [hshift _ (by omega)]; congr 1; omega
      rw [e]

end Raid4
end BUSE

namespace BUSE

/-- While the block number and the block's device offset fit in 32 bits, the
programs compute the location of the spec's block mapping. -/
theorem code_loc_eq_spec_loc {bs dc p : Nat} (h1 : p / bs < 4294967296)
    (h2 : p / bs / dc * bs < 4294967296) : code_loc bs dc p = spec_loc bs dc p := by
  simp only [code_loc, spec_loc, code_device, code_device_offset, spec_device,
    spec_device_offset, u32_eq_of_lt h1, u32_eq_of_lt h2]

/-- The spec's block mapping sends different virtual offsets to different
locations. -/
theorem spec_loc_inj {bs dc p q : Nat} (hbs : 0 < bs)
    (h : spec_loc bs dc p = spec_loc bs dc q) : p = q := by
  simp only [spec_loc, spec_device, spec_device_offset, Prod.mk.injEq] at h
  obtain ⟨hd, ho⟩ := h
  have hp : p % bs < bs := Nat.mod_lt _ hbs
  have hq : q % bs < bs := Nat.mod_lt _ hbs
  have e1 : (p / bs / dc * bs + p % bs) / bs = p / bs / dc := by
    rw [Nat.mul_comm, Nat.mul_add_div hbs, Nat.div_eq_of_lt hp, Nat.add_zero]
  have e2 : (q / bs / dc * bs + q % bs) / bs = q / bs / dc := by
    rw [Nat.mul_comm, Nat.mul_add_div hbs, Nat.div_eq_of_lt hq, Nat.add_zero]
  have e3 : (p / bs / dc * bs + p % bs) % bs = p % bs := by
    rw [Nat.mul_comm, Nat.mul_add_mod, Nat.mod_eq_of_lt hp]
  have e4 : (q / bs / dc * bs + q % bs) % bs = q % bs := by
    rw [Nat.mul_comm, Nat.mul_add_mod, Nat.mod_eq_of_lt hq]
  have hk : p / bs / dc = q / bs / dc := by rw [← e1, ← e2, ho]
  have hx : p % bs = q % bs := by rw [← e3, ← e4, ho]
  have hB : p / bs = q / bs := by
    have a := Nat.div_add_mod (p / bs) dc
    have b := Nat.div_add_mod (q / bs) dc
    rw [hk, hd] at a
    omega
  have a := Nat.div_add_mod p bs
  have b := Nat.div_add_mod q bs
  rw [hB, hx] at a
  omega

/-- Two different virtual offsets less than `2^32` apart, with block numbers
below `2^32`, have different locations, also when the 32-bit product
`block index * block_size` wraps. -/
theorem code_loc_inj_near {bs dc u v : Nat} (hbs : 0 < bs) (hdc : 0 < dc) (huv : u < v)
    (hnear : v - u < 4294967296) (hblk : v / bs < 4294967296)
    (h : code_loc bs dc u = code_loc bs dc v) : False := by
  have hle : u / bs ≤ v / bs := Nat.div_le_div_right (Nat.le_of_lt huv)
  have hu32 : u32 (u / bs) = u / bs := u32_eq_of_lt (by omega)
  have hv32 : u32 (v / bs) = v / bs := u32_eq_of_lt hblk
  simp only [code_loc, code_device, code_device_offset, hu32, hv32, Prod.mk.injEq] at h
  obtain ⟨hd, ho⟩ := h
  have hx : u % bs < bs := Nat.mod_lt _ hbs
  have hy : v % bs < bs := Nat.mod_lt _ hbs
  have du := Nat.div_add_mod u bs
  have dv := Nat.div_add_mod v bs
  have bu := Nat.div_add_mod (u / bs) dc
  have bv := Nat.div_add_mod (v / bs) dc
  have hk : u / bs / dc ≤ v / bs / dc := Nat.div_le_div_right hle
  by_cases hkeq : u / bs / dc = v / bs / dc
  · rw [hkeq] at ho bu
    have hB : u / bs = v / bs := by omega
    rw [hB] at du
    omega
  · have hklt : u / bs / dc < v / bs / dc := lt_of_le_of_ne hk hkeq
    -- the two block starts, exact and as 32-bit products
    have ha := Nat.div_add_mod (u / bs / dc * bs) 4294967296
    have hc := Nat.div_add_mod (v / bs / dc * bs) 4294967296
    have hwa : u / bs / dc * bs % 4294967296 < 4294967296 := Nat.mod_lt _ (by decide)
    have hwc : v / bs / dc * bs % 4294967296 < 4294967296 := Nat.mod_lt _ (by decide)
    unfold u32 at ho
    -- the exact block starts are at least one block apart
    have hsep : u / bs / dc * bs + bs ≤ v / bs / dc * bs := by
      have := Nat.mul_le_mul_right bs hklt
      rw [Nat.succ_mul] at this
      exact this
    -- the virtual distance is at least the distance of the block starts
    have hdist : bs * (u / bs) + v / bs / dc * bs ≤ bs * (v / bs) + u / bs / dc * bs := by
      have h1 : u / bs + v / bs / dc ≤ v / bs + u / bs / dc := by
        have h2 : dc * (u / bs / dc) + (v / bs / dc - u / bs / dc) ≤ dc * (v / bs / dc) := by
          have h3 : v / bs / dc = u / bs / dc + (v / bs / dc - u / bs / dc) := by omega
          have h4 : v / bs / dc - u / bs / dc ≤ dc * (v / bs / dc - u / bs / dc) :=
            Nat.le_mul_of_pos_left _ hdc
          calc dc * (u / bs / dc) + (v / bs / dc - u / bs / dc)
              ≤ dc * (u / bs / dc) + dc * (v / bs / dc - u / bs / dc) :=
                Nat.add_le_add_left h4 _
            _ = dc * (u / bs / dc + (v / bs / dc - u / bs / dc)) := (Nat.mul_add _ _ _).symm
            _ = dc * (v / bs / dc) := by rw [← h3]
        omega
      have h5 := Nat.mul_le_mul_left bs h1
      rw [Nat.mul_add, Nat.mul_add, Nat.mul_comm bs (v / bs / dc),
        Nat.mul_comm bs (u / bs / dc)] at h5
      exact h5
    omega

end BUSE

namespace BUSE
namespace Raid0

/-- The disk after one `pwrite` of the RAID-0 program on an open device. -/
theorem pwrite_disk (st : State) (slot : Nat) (buf : Buf) (pos n off s a : Nat)
    (hfd : st.dev_fd slot ≠ -1) :
    (st.pwrite slot buf pos n off).disk s a =
      if s = slot ∧ off ≤ a ∧ a < off + n then buf (pos + (a - off)) else st.disk s a := by
  simp only [State.pwrite]
  by_cases hs : s = slot
  · subst hs
    simp [hfd, BUSE.pwrite]
  · simp [hs]

/-- The `while` loop of the RAID-0 `xmp_write` with both devices open: it
returns; a device byte that is not the location of a byte of the remaining
request keeps its value (frame); and if the remaining bytes have pairwise
different locations, each is stored at its location. `B` is the number of the
next block. -/
theorem raid0_write_loop_content (bs : Nat) (hbs : 0 < bs) (hbs32 : bs < 4294967296)
    (buf : Buf) :
    ∀ fuel st pos len B, BothOpen bs st → len ≤ fuel → len < 4294967296 →
      ∃ r, xmp_write_loop fuel st buf pos len (u32 B) = some r ∧ BothOpen bs r.1 ∧
        (∀ s a, (∀ t, t < len → code_loc bs 2 (B * bs + t) ≠ (s, a)) →
          r.1.disk s a = st.disk s a) ∧
        ((∀ t u, t < len → u < len →
            code_loc bs 2 (B * bs + t) = code_loc bs 2 (B * bs + u) → t = u) →
          ∀ t, t < len →
            r.1.disk (code_loc bs 2 (B * bs + t)).1 (code_loc bs 2 (B * bs + t)).2 =
              buf (pos + t))
  | 0, st, pos, len, B, hst, hf, _ => by
    have : len = 0 := by omega
    subst this
    exact ⟨(st, []), by simp [xmp_write_loop], hst, fun _ _ _ => rfl,
      fun _ t ht => absurd ht (Nat.not_lt_zero _)⟩
  | fuel + 1, st, pos, len, B, hst, hf, hl32 => by
    by_cases hl : len = 0
    · subst hl
      exact ⟨(st, []), by simp [xmp_write_loop], hst, fun _ _ _ => rfl,
        fun _ t ht => absurd ht (Nat.not_lt_zero _)⟩
    · obtain ⟨hsb, hopen⟩ := hst
      have hu2 : u32 bs = bs := u32_eq_of_lt hbs32
      have hdlt : u32 B % 2 < 2 := Nat.mod_lt _ (by decide)
      have hfd : st.dev_fd (u32 B % 2) ≠ -1 := hopen _ hdlt
      have hloc : ∀ t, t < bs → code_loc bs 2 (B * bs + t) =
          (u32 B % 2, u32 (u32 B / 2 * bs) + t) := fun t ht => code_loc_at_block ht
      by_cases hle : len ≤ bs
      · -- last piece
        have hcall : xmp_write_loop (fuel + 1) st buf pos len (u32 B) =
            some (st.pwrite (u32 B % 2) buf pos len (u32 (u32 B / 2 * bs)),
              [⟨true, u32 B % 2, u32 (u32 B / 2 * bs), len, some pos⟩]) := by
          simp only [xmp_write_loop, hl, if_false, hsb, hu2, hle, if_true, num_device]
        refine ⟨_, hcall, ⟨hsb, hopen⟩, ?_, ?_⟩
        · intro s a hfree
          show (st.pwrite _ _ _ _ _).disk s a = _
          rw [pwrite_disk st _ buf pos len _ s a hfd]
          split
          · rename_i h
            exfalso
            have := hfree (a - u32 (u32 B / 2 * bs)) (by omega)
            rw [hloc _ (by omega)] at this
            apply this
            rw [h.1]
            congr 1
            omega
          · rfl
        · intro _ t ht
          show (st.pwrite _ _ _ _ _).disk _ _ = _
          rw [hloc t (by omega), pwrite_disk st _ buf pos len _ _ _ hfd]
          have hadd : u32 (u32 B / 2 * bs) + t - u32 (u32 B / 2 * bs) = t := by omega
          simp [ht, hadd]
      · -- a full block, then the rest
        have hsub : u32 (len - bs) = len - bs := u32_eq_of_lt (by omega)
        have hshift : ∀ t, (B + 1) * bs + t = B * bs + (bs + t) := by
          intro t
          rw [Nat.succ_mul, Nat.add_assoc]
        obtain ⟨st1, hst1⟩ : ∃ st1, st1 = st.pwrite (u32 B % 2) buf pos bs
            (u32 (u32 B / 2 * bs)) := ⟨_, rfl⟩
        have hcfg1 : BothOpen bs st1 := by rw [hst1]; exact ⟨hsb, hopen⟩
        obtain ⟨r2, hr2, hc2, hfr2, hct2⟩ := raid0_write_loop_content bs hbs hbs32 buf fuel st1
          (pos + bs) (len - bs) (B + 1) hcfg1 (by omega) (by omega)
        have hcall : xmp_write_loop (fuel + 1) st buf pos len (u32 B) =
            some (r2.1, ⟨true, u32 B % 2, u32 (u32 B / 2 * bs), bs, some pos⟩ :: r2.2) := by
          simp only [xmp_write_loop, hl, if_false, hsb, hu2, hle, num_device, hsub, u32_succ,
            ← hst1, hr2]
        refine ⟨_, hcall, hc2, ?_, ?_⟩
        · intro s a hfree
          show r2.1.disk s a = _
          rw [hfr2 s a (fun t ht => by
            rw [hshift]
            exact hfree (bs + t) (by omega))]
          rw [hst1, pwrite_disk st _ buf pos bs _ s a hfd]
          split
          · rename_i h
            exfalso
            have := hfree (a - u32 (u32 B / 2 * bs)) (by omega)
            rw [hloc _ (by omega)] at this
            apply this
            rw [h.1]
            congr 1
            omega
          · rfl
        · intro hinj t ht
          show r2.1.disk _ _ = _
          by_cases htn : t < bs
          · rw [hfr2 _ _ (fun u hu' => by
              rw [hshift]
              intro heq
              have := hinj (bs + u) t (by omega) ht heq
              omega)]
            rw [hloc t htn, hst1, pwrite_disk st _ buf pos bs _ _ _ hfd]
            have hadd : u32 (u32 B / 2 * bs) + t - u32 (u32 B / 2 * bs) = t := by omega
            simp [htn, hadd]
          · have hpos : B * bs + t = (B + 1) * bs + (t - bs) := by
              rw [hshift]; congr 1; omega
            rw [hpos]
            rw [hct2 (fun x y hx hy heq => by
              rw [hshift, hshift] at heq
              have := hinj (bs + x) (bs + y) (by omega) (by omega) heq
              omega) (t - bs) (by omega)]
            congr 1
            omega

end Raid0
end BUSE

namespace BUSE
namespace Raid0

/-- The RAID-0 `xmp_write` with both devices open: it returns status 0; a device
byte that is not the location of a byte of the request keeps its value (frame);
and if the bytes of the request have pairwise different locations, each payload
byte is stored at its location. -/
theorem raid0_write_content (bs : Nat) (hbs : 0 < bs) (hbs32 : bs < 4294967296)
    (fuel : Nat) (st : State) (buf : Buf) (len offset : Nat)
    (hst : BothOpen bs st) (hl32 : len < 4294967296) (hf : len ≤ fuel) :
    ∃ r, xmp_write fuel st buf len offset = some r ∧ BothOpen bs r.st ∧ r.status = 0 ∧
      (∀ s a, (∀ t, t < len → code_loc bs 2 (offset + t) ≠ (s, a)) →
        r.st.disk s a = st.disk s a) ∧
      ((∀ t u, t < len → u < len →
          code_loc bs 2 (offset + t) = code_loc bs 2 (offset + u) → t = u) →
        ∀ t, t < len →
          r.st.disk (code_loc bs 2 (offset + t)).1 (code_loc bs 2 (offset + t)).2 = buf t) := by
  obtain ⟨hsb, hopen⟩ := hst
  have hmod : offset % bs < bs := Nat.mod_lt _ hbs
  have hdm := Nat.div_add_mod offset bs
  rw [Nat.mul_comm] at hdm
  have hdlt : u32 (offset / bs) % 2 < 2 := Nat.mod_lt _ (by decide)
  have hfd : st.dev_fd (u32 (offset / bs) % 2) ≠ -1 := hopen _ hdlt
  have hloc : ∀ t, offset % bs + t < bs → code_loc bs 2 (offset + t) =
      (u32 (offset / bs) % 2, u32 (u32 (offset / bs) / 2 * bs) + offset % bs + t) := by
    intro t ht
    have := code_loc_head bs (2) offset t ht
    simp only [code_loc, this.1, this.2]
  by_cases hle : len ≤ bs - offset % bs
  · have hcall : xmp_write fuel st buf len offset =
        some ⟨st.pwrite (u32 (offset / bs) % 2) buf 0 len
            (u32 (u32 (offset / bs) / 2 * bs) + offset % bs),
          [⟨true, u32 (offset / bs) % 2, u32 (u32 (offset / bs) / 2 * bs) + offset % bs, len,
            some 0⟩], 0⟩ := by
      simp only [xmp_write, hsb, hle, if_true, num_device]
    refine ⟨_, hcall, ⟨hsb, hopen⟩, rfl, ?_, ?_⟩
    · intro s a hfree
      show (st.pwrite _ _ _ _ _).disk s a = _
      rw [pwrite_disk st _ buf 0 len _ s a hfd]
      split
      · rename_i h
        exfalso
        have := hfree (a - (u32 (u32 (offset / bs) / 2 * bs) + offset % bs)) (by omega)
        rw [hloc _ (by omega)] at this
        apply this
        rw [h.1]
        congr 1
        omega
      · rfl
    · intro _ t ht
      show (st.pwrite _ _ _ _ _).disk _ _ = _
      rw [hloc t (by omega), pwrite_disk st _ buf 0 len _ _ _ hfd]
      have hadd : u32 (u32 (offset / bs) / 2 * bs) + offset % bs + t -
          (u32 (u32 (offset / bs) / 2 * bs) + offset % bs) = t := by omega
      simp [ht, hadd]
  · obtain ⟨n, hn⟩ : ∃ n, n = bs - offset % bs := ⟨_, rfl⟩
    have hsub : u32 (len - n) = len - n := u32_eq_of_lt (by omega)
    have hshift : ∀ t, (offset / bs + 1) * bs + t = offset + (n + t) := by
      intro t
      rw [Nat.succ_mul]
      omega
    obtain ⟨st1, hst1⟩ : ∃ st1, st1 = st.pwrite (u32 (offset / bs) % 2) buf 0 n
        (u32 (u32 (offset / bs) / 2 * bs) + offset % bs) := ⟨_, rfl⟩
    have hcfg1 : BothOpen bs st1 := by rw [hst1]; exact ⟨hsb, hopen⟩
    obtain ⟨r2, hr2, hc2, hfr2, hct2⟩ := raid0_write_loop_content bs hbs hbs32 buf fuel st1
      n (len - n) (offset / bs + 1) hcfg1 (by omega) (by omega)
    have hcall : xmp_write fuel st buf len offset =
        some ⟨r2.1, ⟨true, u32 (offset / bs) % 2,
          u32 (u32 (offset / bs) / 2 * bs) + offset % bs, n, some 0⟩ :: r2.2, 0⟩ := by
      have hle2 : ¬ len ≤ n := by rw [hn]; exact hle
      simp only [xmp_write, hsb, num_device, ← hn, hle2, if_false, hsub, u32_succ, ← hst1, hr2]
    refine ⟨_, hcall, hc2, rfl, ?_, ?_⟩
    · intro s a hfree
      show r2.1.disk s a = _
      rw [hfr2 s a (fun t ht => by
        rw [hshift]
        exact hfree (n + t) (by omega))]
      rw [hst1, pwrite_disk st _ buf 0 n _ s a hfd]
      split
      · rename_i h
        exfalso
        have := hfree (a - (u32 (u32 (offset / bs) / 2 * bs) + offset % bs)) (by omega)
        rw [hloc _ (by omega)] at this
        apply this
        rw [h.1]
        congr 1
        omega
      · rfl
    · intro hinj t ht
      show r2.1.disk _ _ = _
      by_cases htn : t < n
      · rw [hfr2 _ _ (fun u hu' => by
          rw [hshift]
          intro heq
          have := hinj (n + u) t (by omega) ht heq
          omega)]
        rw [hloc t (by omega), hst1, pwrite_disk st _ buf 0 n _ _ _ hfd]
        have hadd : u32 (u32 (offset / bs) / 2 * bs) + offset % bs + t -
            (u32 (u32 (offset / bs) / 2 * bs) + offset % bs) = t := by omega
        simp [htn, hadd]
      · have hpos : offset + t = (offset / bs + 1) * bs + (t - n) := by
          rw [hshift]; congr 1; omega
        rw [hpos]
        rw [hct2 (fun x y hx hy heq => by
          rw [hshift, hshift] at heq
          have := hinj (n + x) (n + y) (by omega) (by omega) heq
          omega) (t - n) (by omega)]
        congr 1
        omega

/-- The `while` loop of the RAID-0 `xmp_read` with both devices open: it
returns, the buffer bytes of the remaining request receive the bytes stored at
their locations, and the rest of the buffer is untouched. -/
theorem raid0_read_loop_content (st : State) (bs : Nat) (hbs : 0 < bs)
    (hbs32 : bs < 4294967296) (hst : BothOpen bs st) :
    ∀ fuel buf pos len B, len ≤ fuel → len < 4294967296 →
      ∃ r, xmp_read_loop st fuel buf pos len (u32 B) = some r ∧
        ∀ j, r.1 j = if pos ≤ j ∧ j < pos + len
          then st.disk (code_loc bs 2 (B * bs + (j - pos))).1
            (code_loc bs 2 (B * bs + (j - pos))).2
          else buf j
  | 0, buf, pos, len, B, hf, _ => by
    have : len = 0 := by omega
    subst this
    refine ⟨(buf, []), by simp [xmp_read_loop], fun j => ?_⟩
    have h : ¬ (pos ≤ j ∧ j < pos + 0) := by omega
    simp only [h, if_false]
  | fuel + 1, buf, pos, len, B, hf, hl32 => by
    by_cases hl : len = 0
    · subst hl
      refine ⟨(buf, []), by simp [xmp_read_loop], fun j => ?_⟩
      have h : ¬ (pos ≤ j ∧ j < pos + 0) := by omega
      simp only [h, if_false]
    · obtain ⟨hsb, hopen⟩ := hst
      have hu2 : u32 bs = bs := u32_eq_of_lt hbs32
      have hdlt : u32 B % 2 < 2 := Nat.mod_lt _ (by decide)
      have hfd : st.dev_fd (u32 B % 2) ≠ -1 := hopen _ hdlt
      have hloc : ∀ t, t < bs → code_loc bs 2 (B * bs + t) =
          (u32 B % 2, u32 (u32 B / 2 * bs) + t) := fun t ht => code_loc_at_block ht
      by_cases hle : len ≤ bs
      · have hcall : xmp_read_loop st (fuel + 1) buf pos len (u32 B) =
            some (pread (st.dev_fd (u32 B % 2)) (st.disk (u32 B % 2)) buf pos len
                (u32 (u32 B / 2 * bs)),
              [⟨false, u32 B % 2, u32 (u32 B / 2 * bs), len, some pos⟩]) := by
          simp only [xmp_read_loop, hl, if_false, hsb, hu2, hle, if_true, num_device]
        refine ⟨_, hcall, fun j => ?_⟩
        show pread _ _ _ _ _ _ j = _
        by_cases h2 : pos ≤ j ∧ j < pos + len
        · simp only [h2, and_self, if_true, hloc _ (show j - pos < bs by omega), pread]
          simp [hfd, h2.1, h2.2]
        · simp only [h2, if_false, pread]
          simp [h2]
      · have hsub : u32 (len - bs) = len - bs := u32_eq_of_lt (by omega)
        have hshift : ∀ t, (B + 1) * bs + t = B * bs + (bs + t) := by
          intro t
          rw [Nat.succ_mul, Nat.add_assoc]
        obtain ⟨r2, hr2, hb2⟩ := raid0_read_loop_content st bs hbs hbs32 ⟨hsb, hopen⟩ fuel
          (pread (st.dev_fd (u32 B % 2)) (st.disk (u32 B % 2)) buf pos bs
            (u32 (u32 B / 2 * bs)))
          (pos + bs) (len - bs) (B + 1) (by omega) (by omega)
        have hcall : xmp_read_loop st (fuel + 1) buf pos len (u32 B) =
            some (r2.1, ⟨false, u32 B % 2, u32 (u32 B / 2 * bs), bs, some pos⟩ :: r2.2) := by
          simp only [xmp_read_loop, hl, if_false, hsb, hu2, hle, num_device, hsub, u32_succ,
            hr2]
        refine ⟨_, hcall, fun j => ?_⟩
        show r2.1 j = _
        rw [hb2 j]
        by_cases h1 : pos + bs ≤ j ∧ j < pos + bs + (len - bs)
        · have h2 : pos ≤ j ∧ j < pos + len := by omega
          have e : (B + 1) * bs + (j - (pos + bs)) = B * bs + (j - pos) := by
            rw [hshift]; congr 1; omega
          simp only [h1, h2, and_self, if_true, e]
        · by_cases h2 : pos ≤ j ∧ j < pos + len
          · have h3 : j - pos < bs := by omega
            simp only [h1, h2, and_self, if_true, if_false, hloc _ h3, pread]
            simp [hfd, h2.1, show j < pos + bs by omega]
          · have h3 : ¬ (pos ≤ j ∧ j < pos + bs) := by omega
            simp only [h1, h2, if_false, pread]
            simp [h3]

/-- The RAID-0 `xmp_read` with both devices open: it returns status 0; buffer
byte `j < len` receives the byte stored at the location of virtual offset
`offset + j`, and the rest of the buffer is untouched. -/
theorem raid0_read_content (st : State) (bs : Nat) (hbs : 0 < bs)
    (hbs32 : bs < 4294967296) (hst : BothOpen bs st)
    (fuel : Nat) (buf : Buf) (len offset : Nat) (hl32 : len < 4294967296) (hf : len ≤ fuel) :
    ∃ r, xmp_read fuel st buf len offset = some r ∧ r.status = 0 ∧
      ∀ j, r.buf j = if j < len
        then st.disk (code_loc bs 2 (offset + j)).1 (code_loc bs 2 (offset + j)).2
        else buf j := by
  obtain ⟨hsb, hopen⟩ := hst
  have hmod : offset % bs < bs := Nat.mod_lt _ hbs
  have hdm := Nat.div_add_mod offset bs
  rw [Nat.mul_comm] at hdm
  have hdlt : u32 (offset / bs) % 2 < 2 := Nat.mod_lt _ (by decide)
  have hfd : st.dev_fd (u32 (offset / bs) % 2) ≠ -1 := hopen _ hdlt
  have hloc : ∀ t, offset % bs + t < bs → code_loc bs 2 (offset + t) =
      (u32 (offset / bs) % 2, u32 (u32 (offset / bs) / 2 * bs) + offset % bs + t) := by
    intro t ht
    have := code_loc_head bs (2) offset t ht
    simp only [code_loc, this.1, this.2]
  by_cases hle : len ≤ bs - offset % bs
  · have hcall : xmp_read fuel st buf len offset =
        some ⟨pread (st.dev_fd (u32 (offset / bs) % 2)) (st.disk (u32 (offset / bs) % 2))
            buf 0 len (u32 (u32 (offset / bs) / 2 * bs) + offset % bs),
          [⟨false, u32 (offset / bs) % 2, u32 (u32 (offset / bs) / 2 * bs) + offset % bs, len,
            some 0⟩], 0⟩ := by
      simp only [xmp_read, hsb, hle, if_true, num_device]
    refine ⟨_, hcall, rfl, fun j => ?_⟩
    show pread _ _ _ _ _ _ j = _
    by_cases h2 : j < len
    · simp only [h2, if_true, hloc _ (show offset % bs + j < bs by omega), pread]
      simp [hfd, h2]
    · simp only [h2, if_false, pread]
      simp [h2]
  · obtain ⟨n, hn⟩ : ∃ n, n = bs - offset % bs := ⟨_, rfl⟩
    have hsub : u32 (len - n) = len - n := u32_eq_of_lt (by omega)
    have hshift : ∀ t, (offset / bs + 1) * bs + t = offset + (n + t) := by
      intro t
      rw [Nat.succ_mul]
      omega
    obtain ⟨r2, hr2, hb2⟩ := raid0_read_loop_content st bs hbs hbs32 ⟨hsb, hopen⟩ fuel
      (pread (st.dev_fd (u32 (offset / bs) % 2)) (st.disk (u32 (offset / bs) % 2)) buf 0 n
        (u32 (u32 (offset / bs) / 2 * bs) + offset % bs))
      n (len - n) (offset / bs + 1) (by omega) (by omega)
    have hcall : xmp_read fuel st buf len offset =
        some ⟨r2.1, ⟨false, u32 (offset / bs) % 2,
          u32 (u32 (offset / bs) / 2 * bs) + offset % bs, n, some 0⟩ :: r2.2, 0⟩ := by
      have hle2 : ¬ len ≤ n := by rw [hn]; exact hle
      simp only [xmp_read, hsb, num_device, ← hn, hle2, if_false, hsub, u32_succ, hr2]
    refine ⟨_, hcall, rfl, fun j => ?_⟩
    show r2.1 j = _
    rw [hb2 j]
    by_cases h1 : n ≤ j ∧ j < n + (len - n)
    · have h2 : j < len := by omega
      have e : (offset / bs + 1) * bs + (j - n) = offset + j := by
        rw [hshift]; congr 1; omega
      simp only [h1, h2, and_self, if_true, e]
    · by_cases h2 : j < len
      · have h3 : j < n := by omega
        simp only [h1, h2, if_true, if_false, hloc _ (show offset % bs + j < bs by omega), pread]
        simp [hfd, h3]
      · have h3 : ¬ j < n := by omega
        simp only [h1, h2, if_false, pread]
        simp [h3]

end Raid0
end BUSE

namespace BUSE

/-- Block numbers of a request that ends at or below `2^32 * bs` fit in 32 bits. -/
theorem block_number_lt {bs offset len j : Nat}
    (hblk : offset + len ≤ 4294967296 * bs) (hj : j < len) :
    (offset + j) / bs < 4294967296 :=
  Nat.div_lt_of_lt_mul (by rw [Nat.mul_comm]; omega)

/-- Block offsets of an in-range request on backing devices of at most `2^32`
bytes fit in 32 bits. -/
theorem block_offset_lt {m bs dc p : Nat} (hm : m ≤ 4294967296)
    (hp : p < virtual_size m bs dc) : p / bs / dc * bs < 4294967296 := by
  unfold virtual_size at hp
  have h1 : p / bs < m / bs * dc :=
    Nat.div_lt_of_lt_mul (by rw [Nat.mul_comm, Nat.mul_right_comm]; exact hp)
  have h2 : p / bs / dc < m / bs := Nat.div_lt_of_lt_mul (by rw [Nat.mul_comm]; exact h1)
  have h3 : (p / bs / dc + 1) * bs ≤ m / bs * bs := Nat.mul_le_mul_right bs h2
  have h4 : m / bs * bs ≤ m := Nat.div_mul_le_self m bs
  have hbs : 0 < bs := by
    rcases Nat.eq_zero_or_pos bs with h | h
    · subst h; simp at hp
    · exact h
  rw [Nat.succ_mul] at h3
  omega

/-- In the 32-bit exact regime the programs locate every byte of an in-range
request where the spec's block mapping puts it. -/
theorem code_loc_exact {m bs dc offset len j : Nat} (hm : m ≤ 4294967296)
    (hr : offset + len ≤ virtual_size m bs dc) (hblk : offset + len ≤ 4294967296 * bs)
    (hj : j < len) : code_loc bs dc (offset + j) = spec_loc bs dc (offset + j) :=
  code_loc_eq_spec_loc (block_number_lt hblk hj) (block_offset_lt hm (by omega))

/-- The bytes of one request whose block numbers fit in 32 bits are located at
pairwise different places. -/
theorem request_inj {bs dc offset len : Nat} (hbs : 0 < bs) (hdc : 0 < dc)
    (hl32 : len < 4294967296) (hblk : offset + len ≤ 4294967296 * bs) :
    ∀ t u, t < len → u < len →
      code_loc bs dc (offset + t) = code_loc bs dc (offset + u) → t = u := by
  intro t u ht hu h
  rcases Nat.lt_trichotomy t u with hlt | heq | hgt
  · exact absurd h (fun h => code_loc_inj_near hbs hdc (show offset + t < offset + u by omega)
      (by omega) (block_number_lt hblk hu) h)
  · exact heq
  · exact absurd h.symm (fun h => code_loc_inj_near hbs hdc
      (show offset + u < offset + t by omega) (by omega) (block_number_lt hblk ht) h)

theorem TransfersAt.congr {wr : Bool} {loc loc2 : Nat → Nat × Nat} {lo hi : Nat}
    {ops : List Op} (h : TransfersAt wr loc lo hi ops)
    (heq : ∀ j, lo ≤ j → j < hi → loc j = loc2 j) : TransfersAt wr loc2 lo hi ops := by
  intro op hop
  obtain ⟨h1, h2⟩ := h op hop
  refine ⟨h1, fun u j hu hj1 hj2 => ?_⟩
  obtain ⟨h3, h4, h5⟩ := h2 u j hu hj1 hj2
  exact ⟨h3, h4, by rw [h5, heq j (by omega) (by omega)]⟩

end BUSE

/-! ## The claims -/

namespace BUSE
namespace Raid4

/-- Every body of `xmp_write` leaves the configuration alone. -/
theorem write_piece_cfg (bs N : Nat) (st : State) (buf : Buf) (pos d k w n doff : Nat)
    (h : st.block_size = bs ∧ st.num_devices = N) :
    ((write_piece_degraded st buf pos d k w n doff).1.block_size = bs ∧
      (write_piece_degraded st buf pos d k w n doff).1.num_devices = N) ∧
    ((write_piece_healthy st buf pos d k w n doff).1.block_size = bs ∧
      (write_piece_healthy st buf pos d k w n doff).1.num_devices = N) := by
  refine ⟨?_, h⟩
  unfold write_piece_degraded
  split
  · exact h
  · split <;> exact h

/-- The RAID-4 `xmp_write` returns on an in-range request of positive length, and
every call it issues stays in bounds. -/
theorem xmp_write_ops_ok (st : State) (m : Nat)
    (hbs : 0 < st.block_size) (hbs32 : st.block_size < 4294967296) (hN : 2 ≤ st.num_devices)
    (fuel : Nat) (buf : Buf) (len offset : Nat) (hlen : 0 < len)
    (hr : offset + len ≤ virtual_size m st.block_size (st.num_devices - 1)) (hf : len ≤ fuel) :
    ∃ r, xmp_write fuel st buf len offset = some r ∧
      (∀ op ∈ r.ops, OpOK m st.block_size op) ∧ r.status = 0 := by
  obtain ⟨r, h1, _, h3, h4⟩ := xmp_write_spec
    (if st.degraded then write_piece_degraded else write_piece_healthy)
    (fun s => s.block_size = st.block_size ∧ s.num_devices = st.num_devices)
    (OpOK m st.block_size) m st.block_size st.num_devices hbs hbs32 hN (fun _ h => h)
    (fun s buf pos d k w n doff hI ha => by
      have hc := write_piece_cfg st.block_size st.num_devices s buf pos d k w n doff hI
      cases st.degraded
      · refine ⟨hc.2, ?_⟩
        have := write_into_blk_ops_ok s buf pos d k w n doff ha
        rw [hI.1] at this
        exact this
      · refine ⟨hc.1, ?_⟩
        have := write_piece_degraded_ops_ok s buf pos d k w n doff ha
        rw [hI.1] at this
        exact this)
    fuel st buf len offset rfl ⟨rfl, rfl⟩ hlen hr hf
  exact ⟨r, h1, h3, h4⟩

/-- C2. Parity invariant: starting from a RAID-4 array with no absent slot in
which the XOR of block `k` across all slots is the zero block for every `k`,
any finite sequence of in-range `xmp_write` calls in the non-degraded mode (any
offsets, lengths and payloads) runs to completion and leaves an array in which
the XOR of block `k` across all slots is again zero for every `k`. -/
theorem parity_invariant_after_writes (st : State) (m : Nat) (reqs : List WriteReq)
    (hbs : 0 < st.block_size) (hbs31 : st.block_size < 2147483648) (hN : 2 ≤ st.num_devices)
    (hh : Healthy st) (hinv : ParityInv st)
    (hreq : ∀ r ∈ reqs,
      r.offset + r.len ≤ virtual_size m st.block_size (st.num_devices - 1)) :
    ∃ st', write_all st reqs = some st' ∧ ParityInv st' ∧ Healthy st' ∧
      st'.block_size = st.block_size ∧ st'.num_devices = st.num_devices := by
  have hI : HealthyInv st.block_size st.num_devices st :=
    ⟨rfl, rfl, hh.1, hh.2, (parityInv_iff_stripeXor st hbs).mp hinv⟩
  obtain ⟨st', h1, h2⟩ := write_all_healthyInv st.block_size st.num_devices m hbs
    (by omega) hN reqs st hI hreq
  obtain ⟨e1, e2, e3, e4, e5⟩ := h2
  refine ⟨st', h1, ?_, ⟨e3, ?_⟩, e1, e2⟩
  · exact (parityInv_iff_stripeXor st' (by omega)).mpr e5
  · rw [e2]; exact e4

end Raid4

/-- C10. In-bounds device access: with `m` the minimum backing size and
`virtual_size = floor(m / block_size) * block_size * data_device_count`
(`num_devices - 1` data devices for RAID-4, 2 for RAID-0), for every
`block_size > 0` and every request with `length > 0` and
`offset + length <= virtual_size`, `xmp_read` and `xmp_write` of both programs
return, and every positional read or write they issue (the whole-block reads and
writes of the RAID-4 read-modify-write and of the reconstruction included)
satisfies `device_offset + transfer_length <= m`, with a transfer length that is
`> 0` and `<= block_size`. -/
theorem device_access_in_bounds (m bs len offset fuel : Nat) (buf : Buf)
    (s4 : Raid4.State) (s0 : Raid0.State)
    (hbs : 0 < bs) (hbs31 : bs < 2147483648) (hlen : 0 < len) (hl32 : len < 4294967296)
    (hf : len ≤ fuel)
    (h4 : s4.block_size = bs) (hN : 2 ≤ s4.num_devices) (h0 : s0.block_size = bs) :
    (offset + len ≤ virtual_size m bs (s4.num_devices - 1) →
      (∃ r, Raid4.xmp_read fuel s4 buf len offset = some r ∧ ∀ op ∈ r.ops, OpOK m bs op) ∧
      (∃ r, Raid4.xmp_write fuel s4 buf len offset = some r ∧ ∀ op ∈ r.ops, OpOK m bs op)) ∧
    (offset + len ≤ virtual_size m bs 2 →
      (∃ r, Raid0.xmp_read fuel s0 buf len offset = some r ∧ ∀ op ∈ r.ops, OpOK m bs op) ∧
      (∃ r, Raid0.xmp_write fuel s0 buf len offset = some r ∧ ∀ op ∈ r.ops, OpOK m bs op)) := by
  subst h4
  refine ⟨fun hr => ⟨?_, ?_⟩, fun hr => ⟨?_, ?_⟩⟩
  · obtain ⟨r, h1, h2, _⟩ := Raid4.xmp_read_ops s4 (OpOK m s4.block_size) m hbs (by omega) hN
      (fun buf pos d k w n doff ha => Raid4.read_piece_ops_ok s4 buf pos d k w n doff ha)
      fuel buf len offset hlen hr hf
    exact ⟨r, h1, h2⟩
  · obtain ⟨r, h1, h2, _⟩ := Raid4.xmp_write_ops_ok s4 m hbs (by omega) hN fuel buf len offset
      hlen hr hf
    exact ⟨r, h1, h2⟩
  · rw [← h0] at hr hbs hbs31 ⊢
    obtain ⟨r, h1, h2, _⟩ := Raid0.raid0_read_ops_ok s0 m hbs (by omega) fuel buf len offset
      hlen hl32 hr hf
    exact ⟨r, h1, h2⟩
  · rw [← h0] at hr hbs hbs31 ⊢
    obtain ⟨r, h1, h2, _⟩ := Raid0.raid0_write_ops_ok s0 m hbs (by omega) fuel buf len offset
      hlen hl32 hr hf
    exact ⟨r, h1, h2⟩

end BUSE

/-! ## Coverage, layout and round trip in the 32-bit regime -/

namespace BUSE
namespace Raid4

/-- C3 (amended). RAID-4 healthy round trip: on an array with no absent slot,
for every `block_size > 0`, every in-range `(offset, length)` with
`offset + length <= 2^32 * block_size` (logical block numbers below `2^32`) and
every payload, `xmp_write` followed by `xmp_read` of the same region returns
exactly the payload, and both calls return status 0. -/
theorem healthy_round_trip_32bit (st : State) (m fuel len offset : Nat) (payload buf : Buf)
    (hbs : 0 < st.block_size) (hbs31 : st.block_size < 2147483648) (hN : 2 ≤ st.num_devices)
    (hh : Healthy st) (hl32 : len < 4294967296)
    (hr : offset + len ≤ virtual_size m st.block_size (st.num_devices - 1))
    (hblk : offset + len ≤ 4294967296 * st.block_size) (hf : len ≤ fuel) :
    ∃ w, xmp_write fuel st payload len offset = some w ∧ w.status = 0 ∧
      ∃ r, xmp_read fuel w.st buf len offset = some r ∧ r.status = 0 ∧
        ∀ j, j < len → r.buf j = payload j := by
  have _ := hr
  obtain ⟨w, h1, hc, _, h3, _, h5⟩ := xmp_write_content st.block_size st.num_devices hbs
    (by omega) hN fuel st payload len offset ⟨rfl, rfl, hh.2⟩ hh.1 hf
  obtain ⟨r, g1, g2, g3, _, _⟩ := xmp_read_content w.st st.block_size st.num_devices hbs
    (by omega) hN hc.1 hc.2.1 (fun s hs => hc.2.2 s (by omega)) fuel buf len offset hf
  refine ⟨w, h1, h3, r, g1, g2, fun j hj => ?_⟩
  rw [g3 j]
  simp only [hj, if_true]
  exact h5 (request_inj hbs (by omega) hl32 hblk) j hj

end Raid4

namespace Raid0

/-- C4 (amended). RAID-0 byte layout of a write: for every `block_size > 0`,
in-range `(offset, length)` with backing devices of at most `2^32` bytes (device
offsets below `2^32`) and `offset + length <= 2^32 * block_size` (logical block
numbers below `2^32`), and every payload, after `xmp_write` the byte
`payload[j]` is stored, for every `j < length`, on device
`((offset+j)/block_size) mod 2` at device offset
`(((offset+j)/block_size)/2)*block_size + (offset+j) mod block_size`, and every
other byte of both devices is unchanged. -/
theorem raid0_layout_32bit (st : State) (m fuel len offset : Nat) (payload : Buf)
    (hbs : 0 < st.block_size) (hbs31 : st.block_size < 2147483648)
    (hopen : ∀ s, s < 2 → st.dev_fd s ≠ -1) (hl32 : len < 4294967296)
    (hr : offset + len ≤ virtual_size m st.block_size 2)
    (hm : m ≤ 4294967296) (hblk : offset + len ≤ 4294967296 * st.block_size)
    (hf : len ≤ fuel) :
    ∃ w, xmp_write fuel st payload len offset = some w ∧
      (∀ j, j < len →
        w.st.disk (spec_device st.block_size 2 (offset + j))
          (spec_device_offset st.block_size 2 (offset + j)) = payload j) ∧
      (∀ s a, (∀ j, j < len → spec_loc st.block_size 2 (offset + j) ≠ (s, a)) →
        w.st.disk s a = st.disk s a) := by
  obtain ⟨w, h1, _, _, h4, h5⟩ := raid0_write_content st.block_size hbs (by omega) fuel st
    payload len offset ⟨rfl, hopen⟩ hl32 hf
  refine ⟨w, h1, fun j hj => ?_, fun s a hfree => ?_⟩
  · have := h5 (request_inj hbs (by decide) hl32 hblk) j hj
    rw [code_loc_exact hm hr hblk hj] at this
    exact this
  · exact h4 s a (fun t ht => by rw [code_loc_exact hm hr hblk ht]; exact hfree t ht)

/-- C5 (amended). RAID-0 round trip: for every `block_size > 0`, every in-range
`(offset, length)` with `offset + length <= 2^32 * block_size` (logical block
numbers below `2^32`) and every payload, `xmp_write` followed by `xmp_read` of
the same region returns exactly the payload; and after two writes to
non-overlapping in-range regions, on backing devices of at most `2^32` bytes
(device offsets below `2^32`) and with the logical block numbers of both regions
below `2^32`, reading either region returns the bytes last written to it. -/
theorem raid0_round_trip_32bit (st : State) (m fuel : Nat) (buf : Buf)
    (p1 : Buf) (len1 o1 : Nat) (p2 : Buf) (len2 o2 : Nat)
    (hbs : 0 < st.block_size) (hbs31 : st.block_size < 2147483648)
    (hopen : ∀ s, s < 2 → st.dev_fd s ≠ -1) (hl1 : len1 < 4294967296)
    (hr1 : o1 + len1 ≤ virtual_size m st.block_size 2)
    (hblk1 : o1 + len1 ≤ 4294967296 * st.block_size) (hf1 : len1 ≤ fuel) :
    (∃ w, xmp_write fuel st p1 len1 o1 = some w ∧
      ∃ r, xmp_read fuel w.st buf len1 o1 = some r ∧ ∀ j, j < len1 → r.buf j = p1 j) ∧
    (m ≤ 4294967296 → len2 < 4294967296 → o2 + len2 ≤ virtual_size m st.block_size 2 →
      o2 + len2 ≤ 4294967296 * st.block_size → len2 ≤ fuel →
      (o1 + len1 ≤ o2 ∨ o2 + len2 ≤ o1) →
      ∃ w1, xmp_write fuel st p1 len1 o1 = some w1 ∧
      ∃ w2, xmp_write fuel w1.st p2 len2 o2 = some w2 ∧
      (∃ r, xmp_read fuel w2.st buf len1 o1 = some r ∧ ∀ j, j < len1 → r.buf j = p1 j) ∧
      (∃ r, xmp_read fuel w2.st buf len2 o2 = some r ∧ ∀ j, j < len2 → r.buf j = p2 j)) := by
  have hbs32 : st.block_size < 4294967296 := by omega
  obtain ⟨w1, h1, hc1, _, _, h5⟩ := raid0_write_content st.block_size hbs hbs32 fuel st
    p1 len1 o1 ⟨rfl, hopen⟩ hl1 hf1
  have hin1 := h5 (request_inj hbs (by decide) hl1 hblk1)
  constructor
  · obtain ⟨r, g1, _, g3⟩ := raid0_read_content w1.st st.block_size hbs hbs32 hc1 fuel buf
      len1 o1 hl1 hf1
    refine ⟨w1, h1, r, g1, fun j hj => ?_⟩
    rw [g3 j]
    simp only [hj, if_true]
    exact hin1 j hj
  · intro hm hl2 hr2 hblk2 hf2 hdisj
    obtain ⟨w2, k1, hc2, _, k4, k5⟩ := raid0_write_content st.block_size hbs hbs32 fuel w1.st
      p2 len2 o2 hc1 hl2 hf2
    refine ⟨w1, h1, w2, k1, ?_, ?_⟩
    · obtain ⟨r, g1, _, g3⟩ := raid0_read_content w2.st st.block_size hbs hbs32 hc2 fuel buf
        len1 o1 hl1 hf1
      refine ⟨r, g1, fun j hj => ?_⟩
      rw [g3 j]
      simp only [hj, if_true]
      rw [k4 _ _ (fun t ht heq => by
        have heq2 : code_loc st.block_size 2 (o2 + t) = code_loc st.block_size 2 (o1 + j) := heq
        rw [code_loc_exact hm hr2 hblk2 ht, code_loc_exact hm hr1 hblk1 hj] at heq2
        have := spec_loc_inj hbs heq2
        omega)]
      exact hin1 j hj
    · obtain ⟨r, g1, _, g3⟩ := raid0_read_content w2.st st.block_size hbs hbs32 hc2 fuel buf
        len2 o2 hl2 hf2
      refine ⟨r, g1, fun j hj => ?_⟩
      rw [g3 j]
      simp only [hj, if_true]
      exact k5 (request_inj hbs (by decide) hl2 hblk2) j hj

end Raid0
end BUSE

namespace BUSE
namespace Raid4

theorem scenario_zero_healthyInv : HealthyInv 4 3 scenario_zero := by
  refine ⟨rfl, rfl, rfl, ?_, ?_⟩
  · decide
  · intro a
    simp [stripeXor, xorOver, scenario_zero]

theorem scenario_c_healthyInv : HealthyInv 4 3 scenario_c := by
  obtain ⟨st', h1, h2⟩ := write_all_healthyInv 4 3 8 (by decide) (by decide) (by decide)
    scenario_writes scenario_zero scenario_zero_healthyInv (by decide)
  have : scenario_c = st' := by simp only [scenario_c, h1]
  rw [this]
  exact h2

/-- C2, witness: scenarios (b) and (c) of the specification. On three zeroed
devices with `block_size = 4`, writing `[AA BB CC DD]` at offset 0 and then
`[11 22]` at offset 5 keeps the parity invariant and leaves device 0 block 0 =
`[AA BB CC DD]`, device 1 block 0 = `[00 11 22 00]`, parity block 0 =
`[AA AA EE DD]`. -/
theorem parity_invariant_after_writes_witness :
    (0 < scenario_zero.block_size ∧ Healthy scenario_zero ∧ ParityInv scenario_zero ∧
      ∀ r ∈ scenario_writes, r.offset + r.len ≤
        virtual_size 8 scenario_zero.block_size (scenario_zero.num_devices - 1)) ∧
    (∃ st', write_all scenario_zero scenario_writes = some st' ∧ ParityInv st' ∧ Healthy st' ∧
      st'.block_size = scenario_zero.block_size ∧
      st'.num_devices = scenario_zero.num_devices) ∧
    (write_all scenario_zero scenario_writes).map
      (fun st => (bytes (st.disk 0) 0 4, bytes (st.disk 1) 0 4, bytes (st.disk 2) 0 4)) =
      some ([0xAA, 0xBB, 0xCC, 0xDD], [0x00, 0x11, 0x22, 0x00], [0xAA, 0xAA, 0xEE, 0xDD]) :=
  ⟨⟨by decide, ⟨rfl, by decide⟩,
      (parityInv_iff_stripeXor scenario_zero (by decide)).mpr scenario_zero_healthyInv.2.2.2.2,
      by decide⟩,
    parity_invariant_after_writes scenario_zero 8 scenario_writes (by decide) (by decide)
      (by decide) ⟨rfl, by decide⟩
      ((parityInv_iff_stripeXor scenario_zero (by decide)).mpr scenario_zero_healthyInv.2.2.2.2)
      (by decide),
    by decide⟩

end Raid4

/-- C10, witness: the 8-byte request at offset 2 of scenario (a), on devices of
8 bytes with `block_size = 4`, for both programs. -/
theorem device_access_in_bounds_witness :
    (2 + 8 ≤ virtual_size 8 4 (Raid4.scenario_zero.num_devices - 1) ∧
      2 + 8 ≤ virtual_size 8 4 2) ∧
    ((∃ r, Raid4.xmp_read 8 Raid4.scenario_zero (fun _ => 0) 8 2 = some r ∧
        ∀ op ∈ r.ops, OpOK 8 4 op) ∧
      (∃ r, Raid4.xmp_write 8 Raid4.scenario_zero (fun _ => 0) 8 2 = some r ∧
        ∀ op ∈ r.ops, OpOK 8 4 op)) ∧
    ((∃ r, Raid0.xmp_read 8 Raid0.scenario_zero (fun _ => 0) 8 2 = some r ∧
        ∀ op ∈ r.ops, OpOK 8 4 op) ∧
      (∃ r, Raid0.xmp_write 8 Raid0.scenario_zero (fun _ => 0) 8 2 = some r ∧
        ∀ op ∈ r.ops, OpOK 8 4 op)) :=
  ⟨⟨by decide, by decide⟩,
    (device_access_in_bounds 8 4 8 2 8 (fun _ => 0) Raid4.scenario_zero Raid0.scenario_zero
      (by decide) (by decide) (by decide) (by decide) (by decide) rfl (by decide) rfl).1
      (by decide),
    (device_access_in_bounds 8 4 8 2 8 (fun _ => 0) Raid4.scenario_zero Raid0.scenario_zero
      (by decide) (by decide) (by decide) (by decide) (by decide) rfl (by decide) rfl).2
      (by decide)⟩

end BUSE

namespace BUSE
namespace Raid4

/-- C3 (amended), witness: writing `[01 .. 08]` at offset 2 on scenario (b) and
reading the 8 bytes back. -/
theorem healthy_round_trip_32bit_witness :
    (Healthy scenario_zero ∧
      2 + 8 ≤ virtual_size 8 scenario_zero.block_size (scenario_zero.num_devices - 1) ∧
      2 + 8 ≤ 4294967296 * scenario_zero.block_size) ∧
    (∃ w, xmp_write 8 scenario_zero (ofBytes [1, 2, 3, 4, 5, 6, 7, 8]) 8 2 = some w ∧
      w.status = 0 ∧
      ∃ r, xmp_read 8 w.st (fun _ => 0) 8 2 = some r ∧ r.status = 0 ∧
        ∀ j, j < 8 → r.buf j = ofBytes [1, 2, 3, 4, 5, 6, 7, 8] j) ∧
    (xmp_write 8 scenario_zero (ofBytes [1, 2, 3, 4, 5, 6, 7, 8]) 8 2).bind
      (fun w => (xmp_read 8 w.st (fun _ => 0) 8 2).map (fun r => bytes r.buf 0 8)) =
      some [1, 2, 3, 4, 5, 6, 7, 8] :=
  ⟨⟨⟨rfl, by decide⟩, by decide, by decide⟩,
    healthy_round_trip_32bit scenario_zero 8 8 8 2 (ofBytes [1, 2, 3, 4, 5, 6, 7, 8])
      (fun _ => 0) (by decide) (by decide) (by decide) ⟨rfl, by decide⟩ (by decide)
      (by decide) (by decide) (by decide),
    by decide⟩

end Raid4

namespace Raid0

/-- C4 (amended), witness: scenario (a) of the specification. `block_size = 4`,
two zeroed devices, writing `[01 .. 08]` at offset 2 leaves device 0 =
`[00 00 01 02 | 07 08 00 00]` and device 1 = `[03 04 05 06 | 00 00 00 00]`. -/
theorem raid0_layout_32bit_witness :
    ((∀ s, s < 2 → scenario_zero.dev_fd s ≠ -1) ∧
      2 + 8 ≤ virtual_size 8 scenario_zero.block_size 2 ∧
      2 + 8 ≤ 4294967296 * scenario_zero.block_size) ∧
    (∃ w, xmp_write 8 scenario_zero (ofBytes [1, 2, 3, 4, 5, 6, 7, 8]) 8 2 = some w ∧
      (∀ j, j < 8 →
        w.st.disk (spec_device scenario_zero.block_size 2 (2 + j))
          (spec_device_offset scenario_zero.block_size 2 (2 + j)) =
            ofBytes [1, 2, 3, 4, 5, 6, 7, 8] j) ∧
      (∀ s a, (∀ j, j < 8 → spec_loc scenario_zero.block_size 2 (2 + j) ≠ (s, a)) →
        w.st.disk s a = scenario_zero.disk s a)) ∧
    (xmp_write 8 scenario_zero (ofBytes [1, 2, 3, 4, 5, 6, 7, 8]) 8 2).map
      (fun w => (bytes (w.st.disk 0) 0 8, bytes (w.st.disk 1) 0 8)) =
      some ([0, 0, 1, 2, 7, 8, 0, 0], [3, 4, 5, 6, 0, 0, 0, 0]) :=
  ⟨⟨by decide, by decide, by decide⟩,
    raid0_layout_32bit scenario_zero 8 8 8 2 (ofBytes [1, 2, 3, 4, 5, 6, 7, 8]) (by decide)
      (by decide) (by decide) (by decide) (by decide) (by decide) (by decide) (by decide),
    by decide⟩

/-- C5 (amended), witness: on scenario (a), writing `[01 02 03]` at offset 1 and
`[09 08]` at offset 6, then reading either region. -/
theorem raid0_round_trip_32bit_witness :
    ((∀ s, s < 2 → scenario_zero.dev_fd s ≠ -1) ∧
      1 + 3 ≤ virtual_size 8 scenario_zero.block_size 2 ∧
      6 + 2 ≤ virtual_size 8 scenario_zero.block_size 2 ∧ (1 + 3 ≤ 6 ∨ 6 + 2 ≤ 1)) ∧
    (∃ w, xmp_write 3 scenario_zero (ofBytes [1, 2, 3]) 3 1 = some w ∧
      ∃ r, xmp_read 3 w.st (fun _ => 0) 3 1 = some r ∧
        ∀ j, j < 3 → r.buf j = ofBytes [1, 2, 3] j) ∧
    (∃ w1, xmp_write 3 scenario_zero (ofBytes [1, 2, 3]) 3 1 = some w1 ∧
      ∃ w2, xmp_write 3 w1.st (ofBytes [9, 8]) 2 6 = some w2 ∧
      (∃ r, xmp_read 3 w2.st (fun _ => 0) 3 1 = some r ∧
        ∀ j, j < 3 → r.buf j = ofBytes [1, 2, 3] j) ∧
      (∃ r, xmp_read 3 w2.st (fun _ => 0) 2 6 = some r ∧
        ∀ j, j < 2 → r.buf j = ofBytes [9, 8] j)) :=
  ⟨⟨by decide, by decide, by decide, by decide⟩,
    (raid0_round_trip_32bit scenario_zero 8 3 (fun _ => 0) (ofBytes [1, 2, 3]) 3 1
      (ofBytes [9, 8]) 2 6 (by decide) (by decide) (by decide) (by decide) (by decide)
      (by decide) (by decide)).1,
    (raid0_round_trip_32bit scenario_zero 8 3 (fun _ => 0) (ofBytes [1, 2, 3]) 3 1
      (ofBytes [9, 8]) 2 6 (by decide) (by decide) (by decide) (by decide) (by decide)
      (by decide) (by decide)).2 (by decide) (by decide) (by decide) (by decide) (by decide)
      (by decide)⟩

end Raid0
end BUSE

/-! ## Inputs on which the programs leave the specified behaviour -/

namespace BUSE
namespace Raid4

/-- The contents of scenario (c). -/
theorem scenario_c_bytes :
    bytes (scenario_c.disk 0) 0 8 = [0xAA, 0xBB, 0xCC, 0xDD, 0, 0, 0, 0] ∧
    bytes (scenario_c.disk 1) 0 8 = [0x00, 0x11, 0x22, 0x00, 0, 0, 0, 0] ∧
    bytes (scenario_c.disk 2) 0 8 = [0xAA, 0xAA, 0xEE, 0xDD, 0, 0, 0, 0] := by decide

/-- C3, counterexample. `block_size = 2^30 + 1`, three present devices, request
`offset = (2^32 - 1) * block_size`, `length = 2 * block_size + 2^30` (below
`2^32`), in range for backing devices of `(2^31 + 1) * block_size` bytes. The
request covers logical blocks `2^32 - 1`, `2^32` and `2^32 + 1`; the 32-bit block
counter wraps to 0 and 1, and the 32-bit product `on_device_blk_idx * block_size`
of block `2^32 - 1` wraps to `2^30 - 1`, so payload bytes 0 and
`2 * block_size + 2^30 - 1` land on the same byte of device 1. After the write,
the read returns 2 at buffer byte 0 where the payload holds 1. -/
theorem healthy_round_trip_counterexample :
    (Healthy scenario_big ∧ scenario_big.block_size < 2147483648 ∧
      2 * 1073741825 + 1073741824 < 4294967296 ∧
      4294967295 * 1073741825 + (2 * 1073741825 + 1073741824) ≤
        virtual_size (2147483649 * 1073741825) scenario_big.block_size
          (scenario_big.num_devices - 1)) ∧
    (xmp_write 4 scenario_big (fun j => if j = 0 then 1 else 2) (2 * 1073741825 + 1073741824)
        (4294967295 * 1073741825)).bind
      (fun w => (xmp_read 4 w.st (fun _ => 0) (2 * 1073741825 + 1073741824)
        (4294967295 * 1073741825)).map
        (fun r => (w.status, r.status, r.buf 0,
          w.ops.filter (fun op => op.upos.isSome)))) =
      some (0, 0, 2,
        [⟨true, 1, 1073741823, 1073741825, some 0⟩,
         ⟨true, 0, 0, 1073741825, some 1073741825⟩,
         ⟨true, 1, 0, 1073741824, some 2147483650⟩]) :=
  ⟨⟨⟨rfl, by decide⟩, by decide, by decide, by decide⟩, by decide⟩

/-- C6, failing input. Scenario (c) satisfies the parity invariant; reading 2
bytes at offset 1 returns `[BB CC]`. With device 0 then marked absent (scenario
(d)), the same read returns `[AA BB]`: `xmp_read` copies the reconstructed block
from its first byte instead of from the in-block offset 1. The aligned read of
scenario (d) (4 bytes at offset 0) still returns `[AA BB CC DD]`. -/
theorem degraded_read_differs_when_unaligned :
    ParityInv scenario_c ∧ Healthy scenario_c ∧
    (xmp_read 2 scenario_c (fun _ => 0) 2 1).map (fun r => bytes r.buf 0 2) =
      some [0xBB, 0xCC] ∧
    (xmp_read 2 scenario_d (fun _ => 0) 2 1).map (fun r => bytes r.buf 0 2) =
      some [0xAA, 0xBB] ∧
    (xmp_read 4 scenario_d (fun _ => 0) 4 0).map (fun r => bytes r.buf 0 4) =
      some [0xAA, 0xBB, 0xCC, 0xDD] :=
  ⟨(parityInv_iff_stripeXor scenario_c (by decide)).mpr scenario_c_healthyInv.2.2.2.2,
    ⟨scenario_c_healthyInv.2.2.1, by decide⟩, by decide, by decide, by decide⟩

/-- C8, failing input. In scenario (d) (device 0 absent, `degraded = true`),
writing `[FF]` at offset 2 and reading 1 byte at offset 2 returns `[AA]`: the
write splices the payload at in-block offset 2 of the logical block, the read
copies the reconstructed block from its first byte. -/
theorem degraded_round_trip_fails_when_unaligned :
    (scenario_d.degraded = true ∧
      ∀ s, s < scenario_d.num_devices → (scenario_d.dev_fd s = -1 ↔ s = 0)) ∧
    (xmp_write 1 scenario_d (ofBytes [0xFF]) 1 2).bind
      (fun w => (xmp_read 1 w.st (fun _ => 0) 1 2).map (fun r => bytes r.buf 0 1)) =
      some [0xAA] := by decide

/-- C9, failing input. Scenario (f) with a replacement device 0 whose bytes are
all `07`: after `do_raid_rebuild` device 0 block 0 is `[AD BC CB DA]`, not the
lost `[AA BB CC DD]`, because `getMissedBlk` also XORs in the block of the
rebuild slot itself. With a zero-filled replacement the rebuild gives
`[AA BB CC DD]`. -/
theorem rebuild_depends_on_replacement_content :
    bytes (scenario_c.disk 0) 0 4 = [0xAA, 0xBB, 0xCC, 0xDD] ∧
    bytes ((do_raid_rebuild (scenario_f 0x07)).1.disk 0) 0 4 = [0xAD, 0xBC, 0xCB, 0xDA] ∧
    bytes ((do_raid_rebuild (scenario_f 0x00)).1.disk 0) 0 4 = [0xAA, 0xBB, 0xCC, 0xDD] ∧
    (do_raid_rebuild (scenario_f 0x07)).2.take 4 =
      [⟨false, 0, 0, 4, none⟩, ⟨false, 1, 0, 4, none⟩, ⟨false, 2, 0, 4, none⟩,
       ⟨true, 0, 0, 4, none⟩] := by decide

end Raid4

namespace Raid0

/-- C4, counterexample. (1) Two zeroed devices of `2^32 + 4096` bytes,
`block_size = 4096` (`virtual_size = 2^33 + 8192`), writing `[FF]` at offset
`2^33`: the spec's mapping stores the byte on device 0 at device offset `2^32`;
`xmp_write` stores it at device offset 0 of device 0 (the 32-bit product
`block_idx * block_size = 2^20 * 4096` wraps to 0), so the byte at `2^32` keeps
its old value and the byte at 0, which is not a payload position, changes.
(2) Two zeroed devices of `2^32` bytes, `block_size = 1`, writing `[FF]` at
offset `2^32`: the spec's mapping stores the byte on device 0 at device offset
`2^31`; `xmp_write` stores it at device offset 0 (the block number `2^32` is
stored in a `u_int32_t` and becomes 0). -/
theorem raid0_layout_counterexample :
    (8589934592 + 1 ≤ virtual_size (4294967296 + 4096) 4096 2 ∧
      spec_loc 4096 2 (8589934592 + 0) = (0, 4294967296) ∧
      (xmp_write 1 scenario_4k (ofBytes [0xFF]) 1 8589934592).map
          (fun r => (r.ops, r.st.disk 0 4294967296, r.st.disk 0 0)) =
        some ([⟨true, 0, 0, 1, some 0⟩], 0, 0xFF)) ∧
    (4294967296 + 1 ≤ virtual_size 4294967296 1 2 ∧
      spec_loc 1 2 (4294967296 + 0) = (0, 2147483648) ∧
      (xmp_write 1 scenario_1 (ofBytes [0xFF]) 1 4294967296).map
          (fun r => (r.ops, r.st.disk 0 2147483648, r.st.disk 0 0)) =
        some ([⟨true, 0, 0, 1, some 0⟩], 0, 0xFF)) := by decide

/-- C5, counterexample. (1) Two zeroed devices of `2^32 + 4096` bytes,
`block_size = 4096`: writing `[01]` at offset 0, then `[02]` at offset `2^33` (a
region that does not overlap the first), then reading 1 byte at offset 0 returns
`[02]`: both writes land on byte 0 of device 0 (wrapped 32-bit product). (2) Two
zeroed devices of `2^32` bytes, `block_size = 1`: writing `[01]` at offset 0, then
`[02]` at offset `2^32`, then reading 1 byte at offset 0 returns `[02]`
(truncated block number). (3) `block_size = 2^30 + 1`: writing a payload with
byte 0 = 1 and all other bytes = 2 to `offset = (2^32 - 1) * block_size`,
`length = 2 * block_size + 2^30`, then reading the same region returns 2 at
buffer byte 0 (the 32-bit block counter wraps inside the request). -/
theorem raid0_round_trip_counterexample :
    ((0 + 1 ≤ 8589934592 ∧ 8589934592 + 1 ≤ virtual_size (4294967296 + 4096) 4096 2) ∧
      ((xmp_write 1 scenario_4k (ofBytes [0x01]) 1 0).bind
        (fun w1 => (xmp_write 1 w1.st (ofBytes [0x02]) 1 8589934592).bind
          (fun w2 => (xmp_read 1 w2.st (fun _ => 0) 1 0).map (fun r => bytes r.buf 0 1)))) =
        some [0x02]) ∧
    ((0 + 1 ≤ 4294967296 ∧ 4294967296 + 1 ≤ virtual_size 4294967296 1 2) ∧
      ((xmp_write 1 scenario_1 (ofBytes [0x01]) 1 0).bind
        (fun w1 => (xmp_write 1 w1.st (ofBytes [0x02]) 1 4294967296).bind
          (fun w2 => (xmp_read 1 w2.st (fun _ => 0) 1 0).map (fun r => bytes r.buf 0 1)))) =
        some [0x02]) ∧
    ((2 * 1073741825 + 1073741824 < 4294967296 ∧
        4294967295 * 1073741825 + (2 * 1073741825 + 1073741824) ≤
          virtual_size (2147483649 * 1073741825) 1073741825 2) ∧
      (xmp_write 4 scenario_big (fun j => if j = 0 then 1 else 2)
          (2 * 1073741825 + 1073741824) (4294967295 * 1073741825)).bind
        (fun w => (xmp_read 4 w.st (fun _ => 0) (2 * 1073741825 + 1073741824)
          (4294967295 * 1073741825)).map (fun r => r.buf 0)) = some 2) := by decide

end Raid0
end BUSE

/-! ## Block-level operations: read-modify-write and reconstruction -/

namespace BUSE
namespace Raid4

/-- With slot `j` the only unselected slot below `n`, the XOR over all slots is
the XOR over the selected slots XOR the value of slot `j`. -/
theorem xorOver_absent {p : Nat → Bool} {f : Nat → Nat} {j : Nat} (hj : p j = false) :
    ∀ n, j < n → (∀ s, s < n → s ≠ j → p s = true) →
      xorOver (fun _ => true) f n = xorOver p f n ^^^ f j
  | 0, h, _ => absurd h (Nat.not_lt_zero _)
  | n + 1, h, hp => by
    by_cases hD : j = n
    · subst hD
      have hc : xorOver (fun _ => true) f j = xorOver p f j :=
        xorOver_congr j (fun s hs =>
          ⟨(hp s (Nat.lt_succ_of_lt hs) (Nat.ne_of_lt hs)).symm, rfl⟩)
      simp only [xorOver, hj, if_true, hc]
      rfl
    · have hlt : j < n := lt_of_le_of_ne (Nat.le_of_lt_succ h) hD
      have ih := xorOver_absent (f := f) hj n hlt (fun s hs => hp s (Nat.lt_succ_of_lt hs))
      have hn : p n = true := hp n (Nat.lt_succ_self n) (fun e => hD e.symm)
      simp only [xorOver, ih, hn, if_true]
      rw [Nat.xor_assoc (xorOver p f n) (f j) (f n), Nat.xor_comm (f j) (f n),
        ← Nat.xor_assoc]

end Raid4
end BUSE

/-! ## No positional call on an absent slot -/

namespace BUSE

/-- Every request is in range of a large enough backing size. -/
theorem le_virtual_size_large {bs dc : Nat} (hbs : 0 < bs) (hdc : 0 < dc) (x : Nat) :
    x ≤ virtual_size (x * bs) bs dc := by
  unfold virtual_size
  rw [Nat.mul_div_cancel x hbs]
  calc x ≤ x * bs := Nat.le_mul_of_pos_right x hbs
    _ ≤ x * bs * dc := Nat.le_mul_of_pos_right (x * bs) hdc

namespace Raid4

/-- The `while` loop of `xmp_read` does nothing when no byte is left. -/
theorem xmp_read_loop_zero (st : State) (fuel : Nat) (buf : Buf) (pos blk : Nat) :
    xmp_read_loop st fuel buf pos 0 blk = some (buf, []) := by
  cases fuel <;> simp [xmp_read_loop]

/-- A zero-length `xmp_read` is the head piece with byte count 0. -/
theorem xmp_read_len_zero (fuel : Nat) (st : State) (buf : Buf) (offset : Nat) :
    xmp_read fuel st buf 0 offset =
      some ⟨(read_piece st buf 0 (u32 (offset / st.block_size) % (st.num_devices - 1))
          (u32 (offset / st.block_size) / (st.num_devices - 1)) 0
          (u32 (u32 (offset / st.block_size) / (st.num_devices - 1) * st.block_size) +
            offset % st.block_size)).1,
        (read_piece st buf 0 (u32 (offset / st.block_size) % (st.num_devices - 1))
          (u32 (offset / st.block_size) / (st.num_devices - 1)) 0
          (u32 (u32 (offset / st.block_size) / (st.num_devices - 1) * st.block_size) +
            offset % st.block_size)).2, 0⟩ := by
  simp [xmp_read, u32, xmp_read_loop_zero]

/-- A zero-length `xmp_write` is the head piece with byte count 0. -/
theorem xmp_write_len_zero (fuel : Nat) (st : State) (buf : Buf) (offset : Nat) :
    xmp_write fuel st buf 0 offset =
      some ⟨((if st.degraded then write_piece_degraded else write_piece_healthy) st buf 0
          (u32 (offset / st.block_size) % (st.num_devices - 1))
          (u32 (offset / st.block_size) / (st.num_devices - 1)) (offset % st.block_size) 0
          (u32 (u32 (offset / st.block_size) / (st.num_devices - 1) * st.block_size) +
            offset % st.block_size)).1,
        ((if st.degraded then write_piece_degraded else write_piece_healthy) st buf 0
          (u32 (offset / st.block_size) % (st.num_devices - 1))
          (u32 (offset / st.block_size) / (st.num_devices - 1)) (offset % st.block_size) 0
          (u32 (u32 (offset / st.block_size) / (st.num_devices - 1) * st.block_size) +
            offset % st.block_size)).2, 0⟩ := by
  simp [xmp_write, u32, xmp_write_loop_zero]

/-- The calls of the body of `xmp_read` for a piece on a data slot, in a
configuration where slot `j` is the one absent slot: reads on present slots,
and plain transfers from data slots when the parity slot is the absent one. -/
theorem read_piece_slots (st : State) (j : Nat) (buf : Buf) (pos d k n doff : Nat)
    (hN : 2 ≤ st.num_devices)
    (habs : ∀ s, s < st.num_devices → (st.dev_fd s = -1 ↔ s = j))
    (hd : d < st.num_devices - 1) :
    ∀ op ∈ (read_piece st buf pos d k n doff).2,
      (st.dev_fd op.slot ≠ -1 ∧ op.slot < st.num_devices ∧ op.slot ≠ j ∧
        op.is_write = false) ∧
      (j = st.num_devices - 1 → op.slot < st.num_devices - 1 ∧ op.upos.isSome = true) := by
  have key : ∀ s, s < st.num_devices → st.dev_fd s ≠ -1 → s ≠ j := fun s hs h e =>
    h ((habs s hs).mpr e)
  unfold read_piece
  split
  · rename_i hp
    intro op hop
    simp only [List.mem_singleton] at hop
    subst hop
    exact ⟨⟨hp, by show d < _; omega, key d (by omega) hp, rfl⟩, fun _ => ⟨hd, rfl⟩⟩
  · rename_i hp
    have hdj : d = j := (habs d (by omega)).mp (not_not.mp hp)
    intro op hop
    obtain ⟨h1, _, _, _, h5, h6⟩ := getMissedBlk_op st k op hop
    exact ⟨⟨h6, h5, key _ h5 h6, h1⟩, fun hj => by omega⟩

/-- The calls of the degraded body of `xmp_write` for a piece on a data slot, in
a configuration where slot `j` is the one absent slot: calls on present slots,
and plain payload writes to data slots when the parity slot is the absent one. -/
theorem write_piece_degraded_slots (st : State) (j : Nat) (buf : Buf)
    (pos d k w n doff : Nat) (hN : 2 ≤ st.num_devices)
    (habs : ∀ s, s < st.num_devices → (st.dev_fd s = -1 ↔ s = j))
    (hd : d < st.num_devices - 1) :
    ∀ op ∈ (write_piece_degraded st buf pos d k w n doff).2,
      (st.dev_fd op.slot ≠ -1 ∧ op.slot < st.num_devices ∧ op.slot ≠ j) ∧
      (j = st.num_devices - 1 →
        op.slot < st.num_devices - 1 ∧ op.is_write = true ∧ op.upos.isSome = true) := by
  have key : ∀ s, s < st.num_devices → st.dev_fd s ≠ -1 → s ≠ j := fun s hs h e =>
    h ((habs s hs).mpr e)
  have hPlt : st.num_devices - 1 < st.num_devices := by omega
  unfold write_piece_degraded
  split
  · rename_i hp
    have hdj : d = j := (habs d (by omega)).mp hp
    have hP : st.dev_fd (st.num_devices - 1) ≠ -1 := fun h => by
      have := (habs _ hPlt).mp h
      omega
    intro op hop
    simp only [write_on_missed, List.mem_append, List.mem_cons, List.mem_singleton,
      List.not_mem_nil, or_false] at hop
    rcases hop with h | h | h
    · obtain ⟨_, _, _, _, h5, h6⟩ := getMissedBlk_op st k op h
      exact ⟨⟨h6, h5, key _ h5 h6⟩, fun hj => by omega⟩
    · subst h
      exact ⟨⟨hP, hPlt, key _ hPlt hP⟩, fun hj => by omega⟩
    · subst h
      exact ⟨⟨hP, hPlt, key _ hPlt hP⟩, fun hj => by omega⟩
  · rename_i hp
    split
    · intro op hop
      simp only [List.mem_singleton] at hop
      subst hop
      exact ⟨⟨hp, by show d < _; omega, key d (by omega) hp⟩, fun _ => ⟨hd, rfl, rfl⟩⟩
    · rename_i hP
      intro op hop
      simp only [write_into_blk, List.mem_cons, List.mem_singleton, List.not_mem_nil,
        or_false] at hop
      have hjP : j ≠ st.num_devices - 1 := fun e => hP ((habs _ hPlt).mpr e.symm)
      rcases hop with h | h | h | h | h <;> subst h
      · exact ⟨⟨hp, by show d < _; omega, key d (by omega) hp⟩, fun hj => absurd hj hjP⟩
      · exact ⟨⟨hP, hPlt, key _ hPlt hP⟩, fun hj => absurd hj hjP⟩
      · exact ⟨⟨hp, by show d < _; omega, key d (by omega) hp⟩, fun hj => absurd hj hjP⟩
      · exact ⟨⟨hp, by show d < _; omega, key d (by omega) hp⟩, fun hj => absurd hj hjP⟩
      · exact ⟨⟨hP, hPlt, key _ hPlt hP⟩, fun hj => absurd hj hjP⟩

/-- The degraded body of `xmp_write` leaves the descriptors and the mode alone. -/
theorem write_piece_degraded_fd (st : State) (buf : Buf) (pos d k w n doff : Nat) :
    (write_piece_degraded st buf pos d k w n doff).1.dev_fd = st.dev_fd ∧
    (write_piece_degraded st buf pos d k w n doff).1.degraded = st.degraded := by
  unfold write_piece_degraded
  split
  · exact ⟨rfl, rfl⟩
  · split <;> exact ⟨rfl, rfl⟩

/-- C19. No I/O on an absent slot: in every RAID-4 configuration with exactly
one absent slot `j` (a data slot or the parity slot) and `degraded = true`, for
every request (any offset, any length, zero included) `xmp_read` and `xmp_write`
return and every positional call they issue is on a slot whose descriptor is not
`-1`. When the parity slot is the absent one, every call of `xmp_read` is a
transfer from a data device and every call of `xmp_write` is a payload write to
a data device (no parity read or write). A read piece on the absent data slot is
served by `getMissedBlk`, a write piece on it by `write_on_missed`. -/
theorem no_io_on_absent_slot (st : State) (j fuel len offset : Nat) (buf : Buf)
    (hbs : 0 < st.block_size) (hbs32 : st.block_size < 4294967296) (hN : 2 ≤ st.num_devices)
    (hdeg : st.degraded = true) (hj : j < st.num_devices)
    (habs : ∀ s, s < st.num_devices → (st.dev_fd s = -1 ↔ s = j)) (hf : len ≤ fuel) :
    (∃ r, xmp_read fuel st buf len offset = some r ∧
      (∀ op ∈ r.ops, st.dev_fd op.slot ≠ -1 ∧ op.slot < st.num_devices ∧ op.slot ≠ j ∧
        op.is_write = false) ∧
      (j = st.num_devices - 1 →
        ∀ op ∈ r.ops, op.slot < st.num_devices - 1 ∧ op.upos.isSome = true)) ∧
    (∃ r, xmp_write fuel st buf len offset = some r ∧
      (∀ op ∈ r.ops, st.dev_fd op.slot ≠ -1 ∧ op.slot < st.num_devices ∧ op.slot ≠ j) ∧
      (j = st.num_devices - 1 →
        ∀ op ∈ r.ops, op.slot < st.num_devices - 1 ∧ op.is_write = true ∧
          op.upos.isSome = true)) ∧
    (j < st.num_devices - 1 → ∀ pos k n doff,
      read_piece st buf pos j k n doff =
        (memcpy buf pos (getMissedBlk st k).1 0 n, (getMissedBlk st k).2)) ∧
    (j < st.num_devices - 1 → ∀ pos k w n doff,
      write_piece_degraded st buf pos j k w n doff = write_on_missed st buf pos k w n) := by
  have _ := hj
  have hdc : 0 < st.num_devices - 1 := by omega
  have hjabs : st.dev_fd j = -1 := (habs j hj).mpr rfl
  refine ⟨?_, ?_, ?_, ?_⟩
  · by_cases hl : len = 0
    · subst hl
      rw [xmp_read_len_zero]
      refine ⟨_, rfl, ?_, ?_⟩
      · intro op hop
        exact (read_piece_slots st j buf 0 _ _ 0 _ hN habs (Nat.mod_lt _ hdc) op hop).1
      · intro hjP op hop
        exact (read_piece_slots st j buf 0 _ _ 0 _ hN habs (Nat.mod_lt _ hdc) op hop).2 hjP
    · obtain ⟨r, h1, h2, _⟩ := xmp_read_ops st
        (fun op => (st.dev_fd op.slot ≠ -1 ∧ op.slot < st.num_devices ∧ op.slot ≠ j ∧
            op.is_write = false) ∧
          (j = st.num_devices - 1 → op.slot < st.num_devices - 1 ∧ op.upos.isSome = true))
        ((offset + len) * st.block_size) hbs hbs32 hN
        (fun buf pos d k w n doff ha => read_piece_slots st j buf pos d k n doff hN habs ha.1)
        fuel buf len offset (Nat.pos_of_ne_zero hl) (le_virtual_size_large hbs hdc _) hf
      exact ⟨r, h1, fun op hop => (h2 op hop).1, fun hjP op hop => (h2 op hop).2 hjP⟩
  · by_cases hl : len = 0
    · subst hl
      rw [xmp_write_len_zero]
      simp only [hdeg, if_true]
      refine ⟨_, rfl, ?_, ?_⟩
      · intro op hop
        exact (write_piece_degraded_slots st j buf 0 _ _ _ 0 _ hN habs (Nat.mod_lt _ hdc)
          op hop).1
      · intro hjP op hop
        exact (write_piece_degraded_slots st j buf 0 _ _ _ 0 _ hN habs (Nat.mod_lt _ hdc)
          op hop).2 hjP
    · obtain ⟨r, h1, _, h3, _⟩ := xmp_write_spec write_piece_degraded
        (fun s => s.block_size = st.block_size ∧ s.num_devices = st.num_devices ∧
          s.dev_fd = st.dev_fd)
        (fun op => (st.dev_fd op.slot ≠ -1 ∧ op.slot < st.num_devices ∧ op.slot ≠ j) ∧
          (j = st.num_devices - 1 →
            op.slot < st.num_devices - 1 ∧ op.is_write = true ∧ op.upos.isSome = true))
        ((offset + len) * st.block_size) st.block_size st.num_devices hbs hbs32 hN
        (fun _ h => ⟨h.1, h.2.1⟩)
        (fun s buf pos d k w n doff hI ha => by
          have hc := (write_piece_cfg st.block_size st.num_devices s buf pos d k w n doff
            ⟨hI.1, hI.2.1⟩).1
          have hfd := (write_piece_degraded_fd s buf pos d k w n doff).1
          refine ⟨⟨hc.1, hc.2, hfd.trans hI.2.2⟩, ?_⟩
          have habs' : ∀ t, t < s.num_devices → (s.dev_fd t = -1 ↔ t = j) := by
            rw [hI.2.1, hI.2.2]; exact habs
          have hs := write_piece_degraded_slots s j buf pos d k w n doff
            (by rw [hI.2.1]; exact hN) habs' ha.1
          rw [hI.2.1, hI.2.2] at hs
          exact hs)
        fuel st buf len offset (by simp [hdeg]) ⟨rfl, rfl, rfl⟩ (Nat.pos_of_ne_zero hl)
        (le_virtual_size_large hbs hdc _) hf
      exact ⟨r, h1, fun op hop => (h3 op hop).1, fun hjP op hop => (h3 op hop).2 hjP⟩
  · intro _ pos k n doff
    simp [read_piece, hjabs]
  · intro _ pos k w n doff
    simp [write_piece_degraded, hjabs]

end Raid4
end BUSE

/-! ## Zero-length requests -/

namespace BUSE

/-- A `pread` of zero bytes leaves the memory as it is. -/
theorem pread_zero (fd : Int) (file buf : Buf) (pos off : Nat) :
    pread fd file buf pos 0 off = buf := by
  funext j
  simp only [pread]
  split
  · omega
  · rfl

/-- A `pwrite` of zero bytes leaves the file as it is. -/
theorem pwrite_zero (fd : Int) (file buf : Buf) (pos off : Nat) :
    pwrite fd file buf pos 0 off = file := by
  funext a
  simp only [pwrite]
  split
  · omega
  · rfl

/-- A `memcpy` of zero bytes leaves the destination as it is. -/
theorem memcpy_zero (dst : Buf) (dpos : Nat) (src : Buf) (spos : Nat) :
    memcpy dst dpos src spos 0 = dst := by
  funext j
  simp only [memcpy]
  split
  · omega
  · rfl

namespace Raid4

/-- Writing a file's own bytes back leaves the state as it is. -/
theorem State.pwrite_same (st : State) (slot : Nat) (buf : Buf) (pos count off : Nat)
    (h : ∀ a, off ≤ a → a < off + count → st.dev_fd slot ≠ -1 →
      buf (pos + (a - off)) = st.disk slot a) :
    st.pwrite slot buf pos count off = st := by
  have hd : (fun s => if s = slot then
      BUSE.pwrite (st.dev_fd slot) (st.disk slot) buf pos count off else st.disk s) = st.disk := by
    funext s
    by_cases hs : s = slot
    · subst hs
      simp only [if_true]
      funext a
      simp only [BUSE.pwrite]
      split
      · rename_i hc
        exact h a hc.2.1 hc.2.2 hc.1
      · rfl
    · simp only [hs, if_false]
  cases st
  simp only [State.pwrite] at hd ⊢
  rw [hd]

/-- With a payload of zero bytes `write_into_blk` leaves every device as it is. -/
theorem write_into_blk_zero (st : State) (buf : Buf) (pos d doff k : Nat) :
    (write_into_blk st buf pos d 0 doff k).1 = st := by
  have h1 : st.pwrite d buf pos 0 doff = st :=
    State.pwrite_same st d buf pos 0 doff (fun a h1 h2 _ => by omega)
  simp only [write_into_blk, h1]
  apply State.pwrite_same
  intro a ha1 ha2 hP
  have hlt : a - u32 (k * st.block_size) < st.block_size := by omega
  have hadd : u32 (k * st.block_size) + (a - u32 (k * st.block_size)) = a := by omega
  simp [get_new_parity_blk, pread, hP, hlt, hadd, Nat.xor_assoc]

/-- With a payload of zero bytes `write_on_missed` leaves every device as it is. -/
theorem write_on_missed_zero (st : State) (buf : Buf) (pos k w : Nat) :
    (write_on_missed st buf pos k w 0).1 = st := by
  simp only [write_on_missed, memcpy_zero]
  apply State.pwrite_same
  intro a ha1 ha2 hP
  have hlt : a - u32 (k * st.block_size) < st.block_size := by omega
  have hadd : u32 (k * st.block_size) + (a - u32 (k * st.block_size)) = a := by omega
  simp [get_new_parity_blk, pread, memcpy, hP, hlt, hadd, Nat.xor_assoc]

/-- With a payload of zero bytes both bodies of `xmp_write` leave every device as
it is, and the only call on the caller's buffer they issue moves zero bytes. -/
theorem write_piece_zero (st : State) (buf : Buf) (pos d k w doff : Nat) :
    ((if st.degraded then write_piece_degraded else write_piece_healthy)
      st buf pos d k w 0 doff).1 = st ∧
    ∀ op ∈ ((if st.degraded then write_piece_degraded else write_piece_healthy)
      st buf pos d k w 0 doff).2, op.upos.isSome = true → op.count = 0 := by
  have hmiss : ∀ op ∈ (write_on_missed st buf pos k w 0).2,
      op.upos.isSome = true → op.count = 0 := by
    intro op hop
    simp only [write_on_missed, List.mem_append, List.mem_cons, List.mem_singleton,
      List.not_mem_nil, or_false] at hop
    rcases hop with h | h | h
    · obtain ⟨_, _, _, h4, _⟩ := getMissedBlk_op st k op h
      simp [h4]
    · subst h; simp
    · subst h; simp
  have hrmw : ∀ op ∈ (write_into_blk st buf pos d 0 doff k).2,
      op.upos.isSome = true → op.count = 0 := by
    intro op hop
    simp only [write_into_blk, List.mem_cons, List.mem_singleton, List.not_mem_nil,
      or_false] at hop
    rcases hop with h | h | h | h | h <;> subst h <;> simp
  cases st.degraded
  · exact ⟨write_into_blk_zero st buf pos d doff k, hrmw⟩
  · simp only [if_true]
    unfold write_piece_degraded
    split
    · exact ⟨write_on_missed_zero st buf pos k w, hmiss⟩
    · split
      · refine ⟨State.pwrite_same st d buf pos 0 doff (fun a h1 h2 _ => by omega), ?_⟩
        intro op hop
        simp only [List.mem_singleton] at hop
        subst hop
        intro _
        rfl
      · exact ⟨write_into_blk_zero st buf pos d doff k, hrmw⟩

/-- With a byte count of zero the body of `xmp_read` leaves the caller's buffer as
it is, issues reads only, and the only call on the caller's buffer moves zero
bytes. -/
theorem read_piece_zero (st : State) (buf : Buf) (pos d k doff : Nat) :
    (read_piece st buf pos d k 0 doff).1 = buf ∧
    ∀ op ∈ (read_piece st buf pos d k 0 doff).2,
      op.is_write = false ∧ (op.upos.isSome = true → op.count = 0) := by
  unfold read_piece
  split
  · refine ⟨pread_zero _ _ _ _ _, ?_⟩
    intro op hop
    simp only [List.mem_singleton] at hop
    subst hop
    exact ⟨rfl, fun _ => rfl⟩
  · refine ⟨memcpy_zero _ _ _ _, ?_⟩
    intro op hop
    obtain ⟨h1, _, _, h4, _⟩ := getMissedBlk_op st k op hop
    exact ⟨h1, by simp [h4]⟩

end Raid4

namespace Raid0

/-- Writing zero bytes leaves the state as it is. -/
theorem raid0_pwrite_zero (st : State) (slot : Nat) (buf : Buf) (pos off : Nat) :
    st.pwrite slot buf pos 0 off = st := by
  have hd : (fun s => if s = slot then
      BUSE.pwrite (st.dev_fd slot) (st.disk slot) buf pos 0 off else st.disk s) = st.disk := by
    funext s
    by_cases hs : s = slot
    · subst hs
      simp only [if_true, BUSE.pwrite_zero]
    · simp only [hs, if_false]
  cases st
  simp only [State.pwrite] at hd ⊢
  rw [hd]

end Raid0

/-- C20, as the programs behave. Zero-length request: for every configuration
(healthy or degraded), every buffer and every offset, a request with
`length = 0` returns 0 and changes no byte of any device and no byte of the
caller's buffer, and every call it issues on the caller's buffer moves zero
bytes. The request is not free of device operations: the head piece is cut
unconditionally, so RAID-0 `xmp_read` / `xmp_write` issue exactly one `pread` /
`pwrite` of zero bytes at the translated position of `offset`, RAID-4 `xmp_read`
issues reads only, and RAID-4 `xmp_write` runs the body of the head piece with
an empty payload. -/
theorem zero_length_request_changes_nothing (s4 : Raid4.State) (s0 : Raid0.State)
    (fuel offset : Nat) (buf : Buf) :
    (∃ r, Raid4.xmp_read fuel s4 buf 0 offset = some r ∧ r.buf = buf ∧ r.status = 0 ∧
      ∀ op ∈ r.ops, op.is_write = false ∧ (op.upos.isSome = true → op.count = 0)) ∧
    (∃ r, Raid4.xmp_write fuel s4 buf 0 offset = some r ∧ r.st = s4 ∧ r.status = 0 ∧
      ∀ op ∈ r.ops, op.upos.isSome = true → op.count = 0) ∧
    Raid0.xmp_read fuel s0 buf 0 offset =
      some ⟨buf, [⟨false, u32 (offset / s0.block_size) % 2,
        u32 (u32 (offset / s0.block_size) / 2 * s0.block_size) + offset % s0.block_size,
        0, some 0⟩], 0⟩ ∧
    Raid0.xmp_write fuel s0 buf 0 offset =
      some ⟨s0, [⟨true, u32 (offset / s0.block_size) % 2,
        u32 (u32 (offset / s0.block_size) / 2 * s0.block_size) + offset % s0.block_size,
        0, some 0⟩], 0⟩ := by
  refine ⟨?_, ?_, ?_, ?_⟩
  · rw [Raid4.xmp_read_len_zero]
    exact ⟨_, rfl, (Raid4.read_piece_zero s4 buf 0 _ _ _).1, rfl,
      (Raid4.read_piece_zero s4 buf 0 _ _ _).2⟩
  · rw [Raid4.xmp_write_len_zero]
    exact ⟨_, rfl, (Raid4.write_piece_zero s4 buf 0 _ _ _ _).1, rfl,
      (Raid4.write_piece_zero s4 buf 0 _ _ _ _).2⟩
  · simp [Raid0.xmp_read, pread_zero, Raid0.num_device]
  · simp [Raid0.xmp_write, Raid0.raid0_pwrite_zero, Raid0.num_device]

/-- C20, counterexample. A zero-length request does issue device operations: on
the zeroed arrays with `block_size = 4`, a zero-length request at offset 0
makes RAID-0 `xmp_read` issue one `pread` of zero bytes, RAID-0 `xmp_write` one
`pwrite` of zero bytes, healthy RAID-4 `xmp_read` one `pread` of zero bytes, and
healthy RAID-4 `xmp_write` the whole read-modify-write (three block reads, a
zero-byte payload write and a write of the parity block); in the degraded
scenario (d) the read reconstructs the block by reading devices 1 and 2. -/
theorem zero_length_request_counterexample :
    (Raid0.xmp_read 0 Raid0.scenario_zero (fun _ => 0) 0 0).map (fun r => (r.ops, r.status)) =
      some ([⟨false, 0, 0, 0, some 0⟩], 0) ∧
    (Raid0.xmp_write 0 Raid0.scenario_zero (fun _ => 0) 0 0).map (fun r => (r.ops, r.status)) =
      some ([⟨true, 0, 0, 0, some 0⟩], 0) ∧
    (Raid4.xmp_read 0 Raid4.scenario_zero (fun _ => 0) 0 0).map (fun r => (r.ops, r.status)) =
      some ([⟨false, 0, 0, 0, some 0⟩], 0) ∧
    (Raid4.xmp_write 0 Raid4.scenario_zero (fun _ => 0) 0 0).map (fun r => (r.ops, r.status)) =
      some ([⟨false, 0, 0, 4, none⟩, ⟨false, 2, 0, 4, none⟩, ⟨true, 0, 0, 0, some 0⟩,
        ⟨false, 0, 0, 4, none⟩, ⟨true, 2, 0, 4, none⟩], 0) ∧
    (Raid4.xmp_read 0 Raid4.scenario_d (fun _ => 0) 0 0).map (fun r => (r.ops, r.status)) =
      some ([⟨false, 1, 0, 4, none⟩, ⟨false, 2, 0, 4, none⟩], 0) := by
  refine ⟨by decide, by decide, by decide, by decide, by decide⟩

end BUSE

/-! ## The calls of a request, piece by piece -/

namespace BUSE

/-- Cutting one piece off `len > 0` bytes lowers the number of blocks needed by one. -/
theorem ceil_step {bs len : Nat} (hbs : 0 < bs) (hlen : 0 < len) :
    (len + bs - 1) / bs = (len - min len bs + bs - 1) / bs + 1 := by
  have h1 : len + bs - 1 = (len - 1) + bs := by omega
  rw [h1, Nat.add_div_right _ hbs]
  congr 1
  by_cases h : len ≤ bs
  · rw [Nat.min_eq_left h]
    rw [Nat.div_eq_of_lt (by omega), Nat.div_eq_of_lt (by omega)]
  · rw [Nat.min_eq_right (by omega)]
    congr 1
    omega

/-- No block is needed for zero bytes. -/
theorem ceil_zero {bs : Nat} (hbs : 0 < bs) : (0 + bs - 1) / bs = 0 :=
  Nat.div_eq_of_lt (by omega)

/-- An index below the number of blocks needed for `x` bytes starts inside them. -/
theorem lt_ceil {bs x i : Nat} (hbs : 0 < bs) (h : i < (x + bs - 1) / bs) : i * bs < x := by
  have h1 : (i + 1) * bs ≤ x + bs - 1 := (Nat.le_div_iff_mul_le hbs).mp h
  rw [Nat.succ_mul] at h1
  omega

theorem tail_pieces_length (bs : Nat) :
    ∀ c B pos len, (tail_pieces bs c B pos len).length = c
  | 0, _, _, _ => rfl
  | c + 1, B, pos, len => by
    simp only [tail_pieces, List.length_cons, tail_pieces_length bs c]

/-- Piece number `i` of the loop is block `B + i` from its first byte, and a piece
that is not the last one is a whole block. -/
theorem tail_pieces_get (bs : Nat) (hbs : 0 < bs) :
    ∀ c B pos len, c = (len + bs - 1) / bs → ∀ i p, (tail_pieces bs c B pos len)[i]? = some p →
      p.blk = B + i ∧ p.w = 0 ∧ (i + 1 < c → p.n = bs)
  | 0, _, _, _, _, i, p, h => by simp [tail_pieces] at h
  | c + 1, B, pos, len, hc, i, p, h => by
    have hlen : 0 < len := by
      rcases Nat.eq_zero_or_pos len with h0 | h0
      · rw [h0, ceil_zero hbs] at hc
        omega
      · exact h0
    have hc' : c = (len - min len bs + bs - 1) / bs := by
      have := ceil_step hbs hlen
      omega
    cases i with
    | zero =>
      simp only [tail_pieces, List.getElem?_cons_zero, Option.some.injEq] at h
      subst h
      refine ⟨rfl, rfl, ?_⟩
      intro h2
      have hpos : 0 < c := by omega
      rw [hc'] at hpos
      have := lt_ceil hbs hpos
      show min len bs = bs
      have hle : bs ≤ len := by
        by_contra hcon
        rw [Nat.min_eq_left (by omega)] at this
        omega
      exact Nat.min_eq_right hle
    | succ i =>
      simp only [tail_pieces, List.getElem?_cons_succ] at h
      obtain ⟨h1, h2, h3⟩ := tail_pieces_get bs hbs c (B + 1) _ _ hc' i p h
      exact ⟨by omega, h2, fun h4 => h3 (by omega)⟩

theorem transfers_append (a b : List Op) : transfers (a ++ b) = transfers a ++ transfers b := by
  simp [transfers]

namespace Raid4

/-- The payload write is the one call of `write_into_blk` on the caller's buffer. -/
theorem transfers_write_into_blk (st : State) (buf : Buf) (pos d n doff k : Nat) :
    transfers (write_into_blk st buf pos d n doff k).2 = [⟨true, d, doff, n, some pos⟩] := by
  simp [transfers, write_into_blk]

/-- With every data slot present, the `while` loop of `xmp_read` returns, and its
calls are the transfers of the pieces from block `B + 1` on. -/
theorem xmp_read_loop_pieces (st : State) (bs N : Nat) (hbs : 0 < bs)
    (hbs32 : bs < 4294967296) (hN : 2 ≤ N) (hsb : st.block_size = bs)
    (hsN : st.num_devices = N) (hpres : ∀ d, d < N - 1 → st.dev_fd d ≠ -1) :
    ∀ fuel buf pos len B, len ≤ fuel →
      ∃ r, xmp_read_loop st fuel buf pos len (u32 B) = some r ∧
        r.2 = (tail_pieces bs ((len + bs - 1) / bs) (B + 1) pos len).map
          (piece_op false bs (N - 1))
  | 0, buf, pos, len, B, hf => by
    have : len = 0 := by omega
    subst this
    exact ⟨(buf, []), by simp [xmp_read_loop], by rw [ceil_zero hbs]; rfl⟩
  | fuel + 1, buf, pos, len, B, hf => by
    by_cases hl : len = 0
    · subst hl
      exact ⟨(buf, []), by simp [xmp_read_loop], by rw [ceil_zero hbs]; rfl⟩
    · have hu : u32 bs = bs := u32_eq_of_lt hbs32
      have hlen : 0 < len := Nat.pos_of_ne_zero hl
      have hmin : (if len ≤ bs then len else bs) = min len bs := by
        split
        · rw [Nat.min_eq_left (by assumption)]
        · rw [Nat.min_eq_right (by omega)]
      have hd : st.dev_fd (u32 (B + 1) % (N - 1)) ≠ -1 :=
        hpres _ (Nat.mod_lt _ (by omega))
      obtain ⟨r2, hr2, hops⟩ := xmp_read_loop_pieces st bs N hbs hbs32 hN hsb hsN hpres fuel
        (read_piece st buf pos (u32 (B + 1) % (N - 1)) (u32 (B + 1) / (N - 1)) (min len bs)
          (u32 (u32 (B + 1) / (N - 1) * bs))).1
        (pos + min len bs) (len - min len bs) (B + 1)
        (by have : 0 < min len bs := Nat.lt_min.mpr ⟨hlen, hbs⟩
            omega)
      simp only [xmp_read_loop, hl, if_false, u32_succ, hu, hmin, hsN, hsb, hr2]
      refine ⟨_, rfl, ?_⟩
      rw [ceil_step hbs hlen, hops]
      simp [tail_pieces, piece_op, read_piece, hd]

/-- With every data slot present, `xmp_read` returns, and its calls are the
transfers of the pieces of the request. -/
theorem xmp_read_pieces (st : State) (bs N : Nat) (hbs : 0 < bs)
    (hbs32 : bs < 4294967296) (hN : 2 ≤ N) (hsb : st.block_size = bs)
    (hsN : st.num_devices = N) (hpres : ∀ d, d < N - 1 → st.dev_fd d ≠ -1)
    (fuel : Nat) (buf : Buf) (len offset : Nat) (hf : len ≤ fuel) :
    ∃ r, xmp_read fuel st buf len offset = some r ∧ r.status = 0 ∧
      r.ops = (pieces bs offset len).map (piece_op false bs (N - 1)) := by
  have hmod : offset % bs < bs := Nat.mod_lt _ hbs
  have hmin : (if len ≤ bs - offset % bs then len else bs - offset % bs) =
      min len (bs - offset % bs) := by
    split
    · rw [Nat.min_eq_left (by assumption)]
    · rw [Nat.min_eq_right (by omega)]
  have hn : u32 (min len (bs - offset % bs)) = min len (bs - offset % bs) :=
    u32_eq_of_lt (lt_of_le_of_lt (Nat.min_le_right _ _) (by omega))
  have hd : st.dev_fd (u32 (offset / bs) % (N - 1)) ≠ -1 :=
    hpres _ (Nat.mod_lt _ (by omega))
  obtain ⟨r2, hr2, hops⟩ := xmp_read_loop_pieces st bs N hbs hbs32 hN hsb hsN hpres fuel
    (read_piece st buf 0 (u32 (offset / bs) % (N - 1)) (u32 (offset / bs) / (N - 1))
      (min len (bs - offset % bs))
      (u32 (u32 (offset / bs) / (N - 1) * bs) + offset % bs)).1
    (min len (bs - offset % bs)) (len - min len (bs - offset % bs)) (offset / bs) (by omega)
  simp only [xmp_read, hsb, hsN, hmin, hn, hr2]
  refine ⟨_, rfl, rfl, ?_⟩
  rw [hops]
  simp [pieces, piece_op, read_piece, hd]

/-- The `while` loop of the non-degraded `xmp_write` returns, and its payload
writes are the transfers of the pieces from block `B + 1` on. -/
theorem xmp_write_loop_pieces (bs N : Nat) (hbs : 0 < bs) (hbs32 : bs < 4294967296) :
    ∀ fuel st buf pos len B, st.block_size = bs → st.num_devices = N → len ≤ fuel →
      ∃ r, xmp_write_loop write_piece_healthy fuel st buf pos len (u32 B) = some r ∧
        transfers r.2 = (tail_pieces bs ((len + bs - 1) / bs) (B + 1) pos len).map
          (piece_op true bs (N - 1))
  | 0, st, buf, pos, len, B, _, _, hf => by
    have : len = 0 := by omega
    subst this
    exact ⟨(st, []), by simp [xmp_write_loop], by rw [ceil_zero hbs]; rfl⟩
  | fuel + 1, st, buf, pos, len, B, hsb, hsN, hf => by
    by_cases hl : len = 0
    · subst hl
      exact ⟨(st, []), by simp [xmp_write_loop], by rw [ceil_zero hbs]; rfl⟩
    · have hu : u32 bs = bs := u32_eq_of_lt hbs32
      have hlen : 0 < len := Nat.pos_of_ne_zero hl
      have hmin : (if len ≤ bs then len else bs) = min len bs := by
        split
        · rw [Nat.min_eq_left (by assumption)]
        · rw [Nat.min_eq_right (by omega)]
      obtain ⟨r2, hr2, hops⟩ := xmp_write_loop_pieces bs N hbs hbs32 fuel
        (write_piece_healthy st buf pos (u32 (B + 1) % (N - 1)) (u32 (B + 1) / (N - 1)) 0
          (min len bs) (u32 (u32 (B + 1) / (N - 1) * bs))).1
        buf (pos + min len bs) (len - min len bs) (B + 1) hsb hsN
        (by have : 0 < min len bs := Nat.lt_min.mpr ⟨hlen, hbs⟩
            omega)
      simp only [xmp_write_loop, hl, if_false, u32_succ, hu, hmin, hsN, hsb, hr2]
      refine ⟨_, rfl, ?_⟩
      rw [ceil_step hbs hlen, transfers_append, hops]
      simp [tail_pieces, piece_op, write_piece_healthy, transfers_write_into_blk]

/-- The non-degraded `xmp_write` returns, and its payload writes are the
transfers of the pieces of the request. -/
theorem xmp_write_pieces (bs N : Nat) (hbs : 0 < bs) (hbs32 : bs < 4294967296)
    (st : State) (hsb : st.block_size = bs) (hsN : st.num_devices = N)
    (hdeg : st.degraded = false)
    (fuel : Nat) (buf : Buf) (len offset : Nat) (hf : len ≤ fuel) :
    ∃ r, xmp_write fuel st buf len offset = some r ∧ r.status = 0 ∧
      transfers r.ops = (pieces bs offset len).map (piece_op true bs (N - 1)) := by
  have hmod : offset % bs < bs := Nat.mod_lt _ hbs
  have hmin : (if len ≤ bs - offset % bs then len else bs - offset % bs) =
      min len (bs - offset % bs) := by
    split
    · rw [Nat.min_eq_left (by assumption)]
    · rw [Nat.min_eq_right (by omega)]
  have hn : u32 (min len (bs - offset % bs)) = min len (bs - offset % bs) :=
    u32_eq_of_lt (lt_of_le_of_lt (Nat.min_le_right _ _) (by omega))
  obtain ⟨r2, hr2, hops⟩ := xmp_write_loop_pieces bs N hbs hbs32 fuel
    (write_piece_healthy st buf 0 (u32 (offset / bs) % (N - 1)) (u32 (offset / bs) / (N - 1))
      (offset % bs) (min len (bs - offset % bs))
      (u32 (u32 (offset / bs) / (N - 1) * bs) + offset % bs)).1
    buf (min len (bs - offset % bs)) (len - min len (bs - offset % bs)) (offset / bs)
    hsb hsN (by omega)
  simp only [xmp_write, hdeg, Bool.false_eq_true, if_false, hsb, hsN, hmin, hn, hr2]
  refine ⟨_, rfl, rfl, ?_⟩
  rw [transfers_append, hops]
  simp [pieces, piece_op, write_piece_healthy, transfers_write_into_blk]

end Raid4
end BUSE

namespace BUSE
namespace Raid0

/-- The `while` loop of the RAID-0 `xmp_read` returns, and its calls are the
transfers of the pieces from block `B` on. -/
theorem raid0_read_loop_pieces (st : State) (bs : Nat) (hbs : 0 < bs)
    (hbs32 : bs < 4294967296) (hsb : st.block_size = bs) :
    ∀ fuel buf pos len B, len ≤ fuel → len < 4294967296 →
      ∃ r, xmp_read_loop st fuel buf pos len (u32 B) = some r ∧
        r.2 = (tail_pieces bs ((len + bs - 1) / bs) B pos len).map (piece_op false bs 2)
  | 0, buf, pos, len, B, hf, _ => by
    have : len = 0 := by omega
    subst this
    exact ⟨(buf, []), by simp [xmp_read_loop], by rw [ceil_zero hbs]; rfl⟩
  | fuel + 1, buf, pos, len, B, hf, hl32 => by
    by_cases hl : len = 0
    · subst hl
      exact ⟨(buf, []), by simp [xmp_read_loop], by rw [ceil_zero hbs]; rfl⟩
    · have hu : u32 bs = bs := u32_eq_of_lt hbs32
      have hlen : 0 < len := Nat.pos_of_ne_zero hl
      by_cases hle : len ≤ bs
      · simp only [xmp_read_loop, hl, if_false, hsb, hu, hle, if_true]
        refine ⟨_, rfl, ?_⟩
        rw [ceil_step hbs hlen, Nat.min_eq_left hle, Nat.sub_self, ceil_zero hbs]
        simp [tail_pieces, piece_op, num_device, Nat.min_eq_left hle]
      · have hul : u32 (len - bs) = len - bs := u32_eq_of_lt (by omega)
        obtain ⟨r2, hr2, hops⟩ := raid0_read_loop_pieces st bs hbs hbs32 hsb fuel
          (pread (st.dev_fd (u32 B % num_device)) (st.disk (u32 B % num_device)) buf pos bs
            (u32 (u32 B / num_device * bs)))
          (pos + bs) (len - bs) (B + 1) (by omega) (by omega)
        simp only [xmp_read_loop, hl, if_false, hsb, hu, hle, hul, u32_succ, hr2]
        refine ⟨_, rfl, ?_⟩
        rw [ceil_step hbs hlen, Nat.min_eq_right (by omega : bs ≤ len), hops]
        simp [tail_pieces, piece_op, num_device, Nat.min_eq_right (by omega : bs ≤ len)]

/-- The RAID-0 `xmp_read` returns, and its calls are the transfers of the pieces
of the request. -/
theorem raid0_read_pieces (st : State) (bs : Nat) (hbs : 0 < bs)
    (hbs32 : bs < 4294967296) (hsb : st.block_size = bs)
    (fuel : Nat) (buf : Buf) (len offset : Nat) (hf : len ≤ fuel) (hl32 : len < 4294967296) :
    ∃ r, xmp_read fuel st buf len offset = some r ∧ r.status = 0 ∧
      r.ops = (pieces bs offset len).map (piece_op false bs 2) := by
  have hmod : offset % bs < bs := Nat.mod_lt _ hbs
  by_cases hle : len ≤ bs - offset % bs
  · simp only [xmp_read, hsb, hle, if_true]
    refine ⟨_, rfl, rfl, ?_⟩
    have hc : (bs - 1) / bs = 0 := Nat.div_eq_of_lt (by omega)
    simp [pieces, tail_pieces, piece_op, num_device, Nat.min_eq_left hle, hc]
  · have hul : u32 (len - (bs - offset % bs)) = len - (bs - offset % bs) :=
      u32_eq_of_lt (by omega)
    obtain ⟨r2, hr2, hops⟩ := raid0_read_loop_pieces st bs hbs hbs32 hsb fuel
      (pread (st.dev_fd (u32 (offset / bs) % num_device))
        (st.disk (u32 (offset / bs) % num_device)) buf 0 (bs - offset % bs)
        (u32 (u32 (offset / bs) / num_device * bs) + offset % bs))
      (bs - offset % bs) (len - (bs - offset % bs)) (offset / bs + 1) (by omega) (by omega)
    simp only [xmp_read, hsb, hle, if_false, hul, u32_succ, hr2]
    refine ⟨_, rfl, rfl, ?_⟩
    simp [pieces, piece_op, num_device, Nat.min_eq_right (by omega : bs - offset % bs ≤ len),
      hops]

/-- The `while` loop of the RAID-0 `xmp_write` returns, and its calls are the
transfers of the pieces from block `B` on. -/
theorem raid0_write_loop_pieces (bs : Nat) (hbs : 0 < bs) (hbs32 : bs < 4294967296) :
    ∀ fuel st buf pos len B, st.block_size = bs → len ≤ fuel → len < 4294967296 →
      ∃ r, xmp_write_loop fuel st buf pos len (u32 B) = some r ∧
        r.2 = (tail_pieces bs ((len + bs - 1) / bs) B pos len).map (piece_op true bs 2)
  | 0, st, buf, pos, len, B, _, hf, _ => by
    have : len = 0 := by omega
    subst this
    exact ⟨(st, []), by simp [xmp_write_loop], by rw [ceil_zero hbs]; rfl⟩
  | fuel + 1, st, buf, pos, len, B, hsb, hf, hl32 => by
    by_cases hl : len = 0
    · subst hl
      exact ⟨(st, []), by simp [xmp_write_loop], by rw [ceil_zero hbs]; rfl⟩
    · have hu : u32 bs = bs := u32_eq_of_lt hbs32
      have hlen : 0 < len := Nat.pos_of_ne_zero hl
      by_cases hle : len ≤ bs
      · simp only [xmp_write_loop, hl, if_false, hsb, hu, hle, if_true]
        refine ⟨_, rfl, ?_⟩
        rw [ceil_step hbs hlen, Nat.min_eq_left hle, Nat.sub_self, ceil_zero hbs]
        simp [tail_pieces, piece_op, num_device, Nat.min_eq_left hle]
      · have hul : u32 (len - bs) = len - bs := u32_eq_of_lt (by omega)
        obtain ⟨r2, hr2, hops⟩ := raid0_write_loop_pieces bs hbs hbs32 fuel
          (st.pwrite (u32 B % num_device) buf pos bs (u32 (u32 B / num_device * bs)))
          buf (pos + bs) (len - bs) (B + 1) hsb (by omega) (by omega)
        simp only [xmp_write_loop, hl, if_false, hsb, hu, hle, hul, u32_succ, hr2]
        refine ⟨_, rfl, ?_⟩
        rw [ceil_step hbs hlen, Nat.min_eq_right (by omega : bs ≤ len), hops]
        simp [tail_pieces, piece_op, num_device, Nat.min_eq_right (by omega : bs ≤ len)]

/-- The RAID-0 `xmp_write` returns, and its calls are the transfers of the pieces
of the request. -/
theorem raid0_write_pieces (st : State) (bs : Nat) (hbs : 0 < bs)
    (hbs32 : bs < 4294967296) (hsb : st.block_size = bs)
    (fuel : Nat) (buf : Buf) (len offset : Nat) (hf : len ≤ fuel) (hl32 : len < 4294967296) :
    ∃ r, xmp_write fuel st buf len offset = some r ∧ r.status = 0 ∧
      r.ops = (pieces bs offset len).map (piece_op true bs 2) := by
  have hmod : offset % bs < bs := Nat.mod_lt _ hbs
  by_cases hle : len ≤ bs - offset % bs
  · simp only [xmp_write, hsb, hle, if_true]
    refine ⟨_, rfl, rfl, ?_⟩
    have hc : (bs - 1) / bs = 0 := Nat.div_eq_of_lt (by omega)
    simp [pieces, tail_pieces, piece_op, num_device, Nat.min_eq_left hle, hc]
  · have hul : u32 (len - (bs - offset % bs)) = len - (bs - offset % bs) :=
      u32_eq_of_lt (by omega)
    obtain ⟨r2, hr2, hops⟩ := raid0_write_loop_pieces bs hbs hbs32 fuel
      (st.pwrite (u32 (offset / bs) % num_device) buf 0 (bs - offset % bs)
        (u32 (u32 (offset / bs) / num_device * bs) + offset % bs))
      buf (bs - offset % bs) (len - (bs - offset % bs)) (offset / bs + 1) hsb (by omega)
      (by omega)
    simp only [xmp_write, hsb, hle, if_false, hul, u32_succ, hr2]
    refine ⟨_, rfl, rfl, ?_⟩
    simp [pieces, piece_op, num_device, Nat.min_eq_right (by omega : bs - offset % bs ≤ len),
      hops]

end Raid0
end BUSE

/-! ## The shape of the fragments -/

namespace BUSE

/-- Piece number `i` of a request of positive length: it is block
`offset / block_size + i`, it starts at the first byte of the block unless it is
the head, it is a whole block unless it is the head or the last piece, and the
block starts before the end of the request. -/
theorem pieces_get {bs offset len : Nat} (hbs : 0 < bs) (hlen : 0 < len) :
    ∀ i p, (pieces bs offset len)[i]? = some p →
      p.blk = offset / bs + i ∧ p.w < bs ∧ (0 < i → p.w = 0) ∧
      (0 < i → i + 1 < (pieces bs offset len).length → p.n = bs) ∧
      p.blk * bs < offset + len := by
  intro i p h
  have hmod : offset % bs < bs := Nat.mod_lt _ hbs
  have hdm := Nat.div_add_mod offset bs
  rw [Nat.mul_comm] at hdm
  cases i with
  | zero =>
    simp only [pieces, List.getElem?_cons_zero, Option.some.injEq] at h
    subst h
    refine ⟨rfl, hmod, fun h => absurd h (Nat.lt_irrefl 0), fun h => absurd h (Nat.lt_irrefl 0), ?_⟩
    show offset / bs * bs < offset + len
    omega
  | succ i =>
    simp only [pieces, List.getElem?_cons_succ] at h
    obtain ⟨h1, h2, h3⟩ := tail_pieces_get bs hbs _ _ _ _ rfl i p h
    have hi : i < (len - min len (bs - offset % bs) + bs - 1) / bs := by
      have := List.getElem?_eq_some.mp h
      obtain ⟨hlt, _⟩ := this
      rw [tail_pieces_length] at hlt
      exact hlt
    have hib := lt_ceil hbs hi
    have hn0 : min len (bs - offset % bs) = bs - offset % bs := by
      apply Nat.min_eq_right
      by_contra hcon
      rw [Nat.min_eq_left (by omega)] at hib
      omega
    rw [hn0] at hib
    refine ⟨by omega, by omega, fun _ => h2, ?_, ?_⟩
    · intro _ hlt
      apply h3
      simp only [pieces, List.length_cons, tail_pieces_length] at hlt
      omega
    · rw [h1]
      have e : (offset / bs + 1 + i) * bs = offset / bs * bs + bs + i * bs := by ring
      rw [e]
      omega

end BUSE

/-! ## Start-up: the advertised size, argument parsing, the device loop -/

namespace BUSE

/-- One more opened device after devices of positive size: `size_update` keeps the
minimum. -/
theorem size_update_min {l : List Nat} {acc size : Nat}
    (hpos : ∀ s ∈ l, 0 < s) (h : (l = [] ∧ acc = 0) ∨ IsMinOf acc l) :
    IsMinOf (size_update acc size) (l ++ [size]) := by
  rcases h with ⟨hl, hacc⟩ | ⟨hmem, hle⟩
  · subst hl
    subst hacc
    simp [size_update, IsMinOf]
  · have hacc : 0 < acc := hpos acc hmem
    unfold size_update IsMinOf
    by_cases hlt : size < acc
    · rw [if_pos (Or.inr hlt)]
      refine ⟨by simp, ?_⟩
      intro s hs
      rcases List.mem_append.mp hs with h | h
      · exact le_trans (Nat.le_of_lt hlt) (hle s h)
      · simp only [List.mem_singleton] at h
        omega
    · rw [if_neg (by omega)]
      refine ⟨List.mem_append_left _ hmem, ?_⟩
      intro s hs
      rcases List.mem_append.mp hs with h | h
      · exact hle s h
      · simp only [List.mem_singleton] at h
        omega

namespace Raid4

theorem opened_sizes_succ (files : Files) (device : Nat → String) (n : Nat) :
    opened_sizes files device (n + 1) =
      opened_sizes files device n ++
        (if device n = "MISSING" then []
          else (files (if (device n).front = '+' then (device n).drop 1 else device n)).toList) := by
  simp only [opened_sizes, List.range_succ, List.filterMap_append, List.filterMap_cons,
    List.filterMap_nil]
  congr 1
  by_cases hm : device n = "MISSING"
  · simp [hm]
  · simp only [hm, if_false]
    cases files (if (device n).front = '+' then (device n).drop 1 else device n) <;> rfl

/-- After the device loop of `main`, `raid_device_size` is the minimum of the
sizes of the opened devices, provided every opened device has a positive size. -/
theorem main_loop_size (files : Files) (device : Nat → String) :
    ∀ n v, main_loop files device n = .ok v →
      (∀ s ∈ opened_sizes files device n, 0 < s) →
      (opened_sizes files device n = [] ∧ v.raid_device_size = 0) ∨
        IsMinOf v.raid_device_size (opened_sizes files device n)
  | 0, v, h, _ => by
    simp only [main_loop, Except.ok.injEq] at h
    subst h
    exact Or.inl ⟨rfl, rfl⟩
  | n + 1, v, h, hpos => by
    simp only [main_loop] at h
    cases h0 : main_loop files device n with
    | error e => rw [h0] at h; simp at h
    | ok v0 =>
      rw [h0] at h
      simp only at h
      rw [opened_sizes_succ] at hpos ⊢
      have hpos0 : ∀ s ∈ opened_sizes files device n, 0 < s := fun s hs =>
        hpos s (List.mem_append_left _ hs)
      have ih := main_loop_size files device n v0 h0 hpos0
      by_cases hm : device n = "MISSING"
      · simp only [main_step, hm, if_true, Except.ok.injEq] at h
        subst h
        simpa [hm] using ih
      · simp only [main_step, hm, if_false] at h
        simp only [hm, if_false] at hpos ⊢
        split at h
        · simp at h
        · cases hf : files (if (device n).front = '+' then (device n).drop 1 else device n) with
          | none => rw [hf] at h; simp at h
          | some size =>
            rw [hf] at h hpos
            simp only [Except.ok.injEq] at h
            subst h
            simp only [Option.toList_some] at hpos ⊢
            have hrds : (if (device n).front = '+' then
                ({ v0 with rebuild_dev := ↑n, rebuild_needed := true } : Startup)
                else v0).raid_device_size = v0.raid_device_size := by
              split <;> rfl
            right
            show IsMinOf (size_update _ size) _
            rw [hrds]
            exact size_update_min hpos0 ih

end Raid4

/-- C11, as the programs compute it. Advertised size: for every `block_size > 0`
(a positive `int`) and every list of backing devices of positive size, the size
that `main` hands to the transport (`bop.size = raid_device_size`) is
`floor(min_backing_size / block_size) * block_size`, in the RAID-0 program
(two devices) and in the RAID-4 program alike, where `min_backing_size` is the
minimum size over the opened (non-`MISSING`) devices. The product is not
multiplied by the number of data devices. -/
theorem advertised_size_is_truncated_minimum (bs : Nat) (device0 : Nat → String)
    (files0 : Files) (disk0 : Nat → Buf) (r0 : Raid0.MainResult)
    (a : Raid4.Arguments) (files : Files) (disk : Nat → Buf) (fresh : Buf)
    (r : Raid4.MainResult)
    (hbs : 0 < bs) (hbs31 : bs < 2147483648) (habs : a.block_size = bs)
    (h0 : Raid0.main bs device0 files0 disk0 = .ok r0)
    (hpos0 : ∀ i s, i < 2 → files0 (device0 i) = some s → 0 < s)
    (h4 : Raid4.main a files disk fresh = .ok r)
    (hpos4 : ∀ s ∈ Raid4.opened_sizes files a.device a.num_devices, 0 < s)
    (hne : Raid4.opened_sizes files a.device a.num_devices ≠ []) :
    (∃ s0 s1, files0 (device0 0) = some s0 ∧ files0 (device0 1) = some s1 ∧
      r0.bop_size = min s0 s1 / bs * bs) ∧
    (∃ m, IsMinOf m (Raid4.opened_sizes files a.device a.num_devices) ∧
      r.bop_size = m / bs * bs) := by
  have _ := hbs
  have _ := hbs31
  constructor
  · simp only [Raid0.main, Raid0.main_loop] at h0
    cases hf0 : files0 (device0 0) with
    | none => rw [hf0] at h0; simp at h0
    | some s0 =>
      cases hf1 : files0 (device0 1) with
      | none => rw [hf0, hf1] at h0; simp at h0
      | some s1 =>
        rw [hf0, hf1] at h0
        simp only [Except.ok.injEq] at h0
        subst h0
        have p0 : 0 < s0 := hpos0 0 s0 (by omega) hf0
        have p1 : 0 < s1 := hpos0 1 s1 (by omega) hf1
        refine ⟨s0, s1, rfl, rfl, ?_⟩
        show size_update (size_update 0 s0) s1 / bs * bs = _
        have e : size_update (size_update 0 s0) s1 = min s0 s1 := by
          simp only [size_update, true_or, if_true]
          by_cases hlt : s1 < s0
          · rw [if_pos (Or.inr hlt), Nat.min_eq_right (Nat.le_of_lt hlt)]
          · rw [if_neg (by omega), Nat.min_eq_left (by omega)]
        rw [e]
  · simp only [Raid4.main] at h4
    cases hl : Raid4.main_loop files a.device a.num_devices with
    | error e => rw [hl] at h4; simp at h4
    | ok v =>
      rw [hl] at h4
      simp only at h4
      have hinv := Raid4.main_loop_size files a.device a.num_devices v hl hpos4
      rcases hinv with ⟨hnil, _⟩ | hmin
      · exact absurd hnil hne
      · refine ⟨v.raid_device_size, hmin, ?_⟩
        split at h4
        · simp at h4
        · split at h4
          · simp at h4
          · simp only [Except.ok.injEq] at h4
            rw [← h4, habs]

end BUSE

namespace BUSE
namespace Raid4

/-- The device phase of the parse: from argument index `n >= 2` on, with
`n - 2` devices stored so far, the parse ends without error exactly when the
total number of positional arguments is between 4 and 17, and then every
remaining argument is stored as a device. -/
theorem argp_parse_from_devices :
    ∀ (devs : List String) (a : Arguments) (n : Nat), 2 ≤ n → a.num_devices = n - 2 →
      (4 ≤ n + devs.length ∧ n + devs.length ≤ 17 →
        ∃ a2, argp_parse_from a devs n = .ok a2 ∧ a2.num_devices = n + devs.length - 2 ∧
          (∀ i, i < devs.length → devs[i]? = some (a2.device (n - 2 + i))) ∧
          ∀ i, i < n - 2 → a2.device i = a.device i) ∧
      (n + devs.length < 4 ∨ 17 < n + devs.length →
        ∀ a2, argp_parse_from a devs n ≠ .ok a2)
  | [], a, n, hn, hnd => by
    constructor
    · intro h
      simp only [List.length_nil, Nat.add_zero] at h
      refine ⟨a, ?_, by simpa using hnd, by simp, fun _ _ => rfl⟩
      simp only [argp_parse_from, parse_opt]
      rw [if_neg (by omega)]
    · intro h a2
      simp only [List.length_nil, Nat.add_zero] at h
      simp only [argp_parse_from, parse_opt]
      rw [if_pos (by omega)]
      simp
  | d :: rest, a, n, hn, hnd => by
    obtain ⟨m, rfl⟩ : ∃ m, n = m + 2 := ⟨n - 2, by omega⟩
    by_cases h17 : m + 2 ≤ 17
    · have hstep : parse_opt .ARGP_KEY_ARG d (m + 2) a =
          .ok { a with
            num_devices := if m + 2 - 1 > a.num_devices then m + 2 - 1 else a.num_devices
            device := fun i => if i = m + 2 - 2 then d else a.device i } := by
        simp only [parse_opt]
        rw [if_pos ⟨h17, by omega⟩]
      have e1 : ∀ i, m + 2 + 1 - 2 + i = m + 2 - 2 + (i + 1) := fun i => by omega
      have e2 : ∀ i, i < m + 2 - 2 → i < m + 2 + 1 - 2 ∧ i ≠ m + 2 - 2 := fun i h => by omega
      have e3 : m < m + 2 + 1 - 2 := by omega
      have e4 : m + 2 + 1 + rest.length - 2 = m + 2 + (rest.length + 1) - 2 := by omega
      have e5 : m + 2 - 2 + 0 = m := by omega
      have e6 : m + 2 - 2 = m := by omega
      have f1 : 4 ≤ m + 2 + (rest.length + 1) ∧ m + 2 + (rest.length + 1) ≤ 17 →
          4 ≤ m + 2 + 1 + rest.length ∧ m + 2 + 1 + rest.length ≤ 17 := fun h => by omega
      have f2 : m + 2 + (rest.length + 1) < 4 ∨ 17 < m + 2 + (rest.length + 1) →
          m + 2 + 1 + rest.length < 4 ∨ 17 < m + 2 + 1 + rest.length := fun h => by omega
      have f3 : (if m + 2 - 1 > a.num_devices then m + 2 - 1 else a.num_devices) =
          m + 2 + 1 - 2 := by
        rw [hnd]
        split <;> omega
      have ih := argp_parse_from_devices rest
        { a with
          num_devices := if m + 2 - 1 > a.num_devices then m + 2 - 1 else a.num_devices
          device := fun i => if i = m + 2 - 2 then d else a.device i }
        (m + 2 + 1) (Nat.le_add_left 2 (m + 1)) f3
      simp only [argp_parse_from, hstep, List.length_cons]
      constructor
      · intro h
        obtain ⟨a2, h1, h2, h3, h4⟩ := ih.1 (f1 h)
        refine ⟨a2, h1, h2.trans e4, ?_, ?_⟩
        · intro i hi
          cases i with
          | zero =>
            have := h4 m e3
            rw [List.getElem?_cons_zero, e5, this, e6]
            simp
          | succ i =>
            have := h3 i (Nat.lt_of_succ_lt_succ hi)
            rw [List.getElem?_cons_succ, this, e1 i]
        · intro i hi
          have := h4 i (e2 i hi).1
          rw [this]
          simp only [(e2 i hi).2, if_false]
      · intro h
        exact ih.2 (f2 h)
    · have hstep : parse_opt .ARGP_KEY_ARG d (m + 2) a = .ARGP_ERR_UNKNOWN := by
        simp only [parse_opt]
        rw [if_neg (by omega)]
      simp only [argp_parse_from, hstep, List.length_cons]
      constructor
      · intro h
        omega
      · intro _ a2 h
        cases h

/-- What the parser accepts: the invocation `BLOCKSIZE RAIDDEVICE DEVICE1 ...
DEVICEN` with a decimal block size is accepted exactly when `2 <= N <= 15`. -/
theorem accepts_iff (block_size raid_device : String) (devices : List String) :
    Accepts block_size raid_device devices ↔
      (strtoul block_size).isSome = true ∧ 2 ≤ devices.length ∧ devices.length ≤ 15 := by
  unfold Accepts argp_parse
  cases hs : strtoul block_size with
  | none =>
    simp [argp_parse_from, parse_opt, hs]
  | some v =>
    have hdev := argp_parse_from_devices devices
      ⟨u32 v, fun _ => "", raid_device, false, 0⟩ 2 (by omega) rfl
    have hrun : argp_parse_from ⟨0, fun _ => "", "", false, 0⟩
        (block_size :: raid_device :: devices) 0 =
        argp_parse_from ⟨u32 v, fun _ => "", raid_device, false, 0⟩ devices 2 := by
      simp [argp_parse_from, parse_opt, hs]
    rw [hrun]
    constructor
    · rintro ⟨a, ha, _, _⟩
      refine ⟨rfl, ?_⟩
      by_contra hcon
      exact hdev.2 (by omega) a ha
    · rintro ⟨_, h2, h3⟩
      obtain ⟨a2, h4, h5, h6, _⟩ := hdev.1 (by omega)
      refine ⟨a2, h4, by omega, ?_⟩
      intro i hi
      have := h6 i hi
      simpa using this

/-- C13, evaluated. The RAID-4 `parse_opt` accepts `N = 2` devices (with
`num_devices = 2`) and rejects `N = 16` devices with the usage error "Wrong
argument number! Drive numbers should between 3 and 16", because
`ARGP_KEY_END` tests the number of all positional arguments (`N + 2`) against
`4` and `17`; `N = 3` and `N = 15` are accepted, `N = 1` and `N = 17` are
rejected. -/
theorem parse_opt_accepts_2_rejects_16 :
    Accepts "4096" "/dev/nbd0" ["d1", "d2"] ∧
    (∃ a, argp_parse ["4096", "/dev/nbd0", "d1", "d2"] = .ok a ∧ a.num_devices = 2) ∧
    ¬ Accepts "4096" "/dev/nbd0" (List.replicate 16 "d") ∧
    argp_parse ("4096" :: "/dev/nbd0" :: List.replicate 16 "d") = .exit_usage ∧
    Accepts "4096" "/dev/nbd0" ["d1", "d2", "d3"] ∧
    Accepts "4096" "/dev/nbd0" (List.replicate 15 "d") ∧
    ¬ Accepts "4096" "/dev/nbd0" ["d1"] ∧
    ¬ Accepts "4096" "/dev/nbd0" (List.replicate 17 "d") ∧
    argp_parse ("4096" :: "/dev/nbd0" :: List.replicate 17 "d") = .ARGP_ERR_UNKNOWN := by
  refine ⟨(accepts_iff _ _ _).mpr ⟨rfl, by decide, by decide⟩, ⟨_, rfl, rfl⟩, ?_, rfl,
    (accepts_iff _ _ _).mpr ⟨rfl, by decide, by decide⟩,
    (accepts_iff _ _ _).mpr ⟨rfl, by decide, by decide⟩, ?_, ?_, rfl⟩
  · intro h
    have := ((accepts_iff _ _ _).mp h).2.2
    simp at this
  · intro h
    have := ((accepts_iff _ _ _).mp h).2.1
    simp at this
  · intro h
    have := ((accepts_iff _ _ _).mp h).2.2
    simp at this

end Raid4
end BUSE

/-! ## Witnesses and evaluations for the start-up and block-level claims -/

namespace BUSE

/-- C11, witness: `block_size = 4`; the RAID-0 program on files of 10 and 8 bytes
and the RAID-4 program on `a MISSING c` (10 and 9 bytes) both advertise 8 bytes. -/
theorem advertised_size_is_truncated_minimum_witness :
    (0 < 4 ∧ 4 < 2147483648 ∧ (Raid4.scenario_args ["a", "MISSING", "c"]).block_size = 4 ∧
      Raid0.main 4 (fun i => ["a", "b"].getD i "") scenario_files (fun _ _ => 0) =
        .ok Raid0.scenario_start ∧
      Raid4.main (Raid4.scenario_args ["a", "MISSING", "c"]) scenario_files (fun _ _ => 0)
        (fun _ => 0) = .ok Raid4.scenario_start ∧
      Raid4.opened_sizes scenario_files (Raid4.scenario_args ["a", "MISSING", "c"]).device
        (Raid4.scenario_args ["a", "MISSING", "c"]).num_devices = [10, 9]) ∧
    ((∃ s0 s1, scenario_files ((fun i => ["a", "b"].getD i "") 0) = some s0 ∧
        scenario_files ((fun i => ["a", "b"].getD i "") 1) = some s1 ∧
        Raid0.scenario_start.bop_size = min s0 s1 / 4 * 4) ∧
      (∃ m, IsMinOf m (Raid4.opened_sizes scenario_files
          (Raid4.scenario_args ["a", "MISSING", "c"]).device
          (Raid4.scenario_args ["a", "MISSING", "c"]).num_devices) ∧
        Raid4.scenario_start.bop_size = m / 4 * 4)) ∧
    Raid0.scenario_start.bop_size = 8 ∧ Raid4.scenario_start.bop_size = 8 :=
  ⟨⟨by decide, by decide, rfl, rfl, rfl, rfl⟩,
    advertised_size_is_truncated_minimum 4 (fun i => ["a", "b"].getD i "") scenario_files
      (fun _ _ => 0) Raid0.scenario_start (Raid4.scenario_args ["a", "MISSING", "c"])
      scenario_files (fun _ _ => 0) (fun _ => 0) Raid4.scenario_start
      (by decide) (by decide) rfl rfl
      (fun i s hi h => by
        have h0 : scenario_files ((fun i => ["a", "b"].getD i "") 0) = some 10 := rfl
        have h1 : scenario_files ((fun i => ["a", "b"].getD i "") 1) = some 8 := rfl
        interval_cases i
        · rw [h0] at h; cases h; decide
        · rw [h1] at h; cases h; decide)
      rfl
      (fun s hs => by
        have e : Raid4.opened_sizes scenario_files
            (Raid4.scenario_args ["a", "MISSING", "c"]).device
            (Raid4.scenario_args ["a", "MISSING", "c"]).num_devices = [10, 9] := rfl
        rw [e] at hs
        simp only [List.mem_cons, List.mem_singleton, List.not_mem_nil, or_false] at hs
        omega)
      (fun h => by
        have e : Raid4.opened_sizes scenario_files
            (Raid4.scenario_args ["a", "MISSING", "c"]).device
            (Raid4.scenario_args ["a", "MISSING", "c"]).num_devices = [10, 9] := rfl
        rw [e] at h
        cases h),
    rfl, rfl⟩

/-- C11, counterexample. With `block_size = 4`, the RAID-0 program on two files
of 8 bytes advertises 8 bytes and the RAID-4 program on three files of 8 bytes
advertises 8 bytes, where the formula of the claim gives `8 / 4 * 4 * 2 = 16`.
With an empty first file and a second file of 8 bytes the RAID-0 program
advertises 8 bytes (`raid_device_size == 0` stands for "not yet set"), where
the minimum size is 0. -/
theorem advertised_size_counterexample :
    (∃ r, Raid0.main 4 (fun i => ["b", "b"].getD i "") scenario_files (fun _ _ => 0) = .ok r ∧
      r.bop_size = 8) ∧
    (∃ r, Raid4.main (Raid4.scenario_args ["b", "b", "b"]) scenario_files (fun _ _ => 0)
        (fun _ => 0) = .ok r ∧ r.bop_size = 8 ∧ r.st.num_devices - 1 = 2) ∧
    virtual_size 8 4 2 = 16 ∧
    (∃ r, Raid0.main 4 (fun i => ["z", "b"].getD i "") scenario_files (fun _ _ => 0) = .ok r ∧
      r.bop_size = 8) ∧
    scenario_files "z" = some 0 :=
  ⟨⟨_, rfl, rfl⟩, ⟨_, rfl, rfl, rfl⟩, rfl, ⟨_, rfl, rfl⟩, rfl⟩

/-- C12, evaluated. The head transfer is computed with a 32-bit block number and
a 32-bit product. With `block_size = 1` a one-byte request at offset `2^32`
goes to device 0 at device offset 0 (RAID-4 with three devices and RAID-0),
where exact arithmetic gives device offset `2^31`; with `block_size = 2^30 + 1`
a one-byte RAID-4 request at offset `8 * block_size` goes to device offset 4
where exact arithmetic gives `2^32 + 4`; with `block_size = 4096` a one-byte
RAID-0 request at offset `2^33` goes to device offset 0 where exact arithmetic
gives `2^32`. -/
theorem head_transfer_wraps_at_32_bits :
    ((Raid4.xmp_read 1 Raid4.scenario_1 (fun _ => 0) 1 4294967296).map (fun r => r.ops) =
        some [⟨false, 0, 0, 1, some 0⟩] ∧
      (Raid4.xmp_write 1 Raid4.scenario_1 (fun _ => 0) 1 4294967296).map
          (fun r => transfers r.ops) = some [⟨true, 0, 0, 1, some 0⟩] ∧
      (Raid0.xmp_read 1 Raid0.scenario_1 (fun _ => 0) 1 4294967296).map (fun r => r.ops) =
        some [⟨false, 0, 0, 1, some 0⟩] ∧
      (Raid0.xmp_write 1 Raid0.scenario_1 (fun _ => 0) 1 4294967296).map (fun r => r.ops) =
        some [⟨true, 0, 0, 1, some 0⟩] ∧
      spec_loc 1 2 4294967296 = (0, 2147483648)) ∧
    ((Raid4.xmp_read 1 Raid4.scenario_big (fun _ => 0) 1 8589934600).map (fun r => r.ops) =
        some [⟨false, 0, 4, 1, some 0⟩] ∧
      (Raid4.xmp_write 1 Raid4.scenario_big (fun _ => 0) 1 8589934600).map
          (fun r => transfers r.ops) = some [⟨true, 0, 4, 1, some 0⟩] ∧
      spec_loc 1073741825 2 8589934600 = (0, 4294967300)) ∧
    ((Raid0.xmp_read 1 Raid0.scenario_4k (fun _ => 0) 1 8589934592).map (fun r => r.ops) =
        some [⟨false, 0, 0, 1, some 0⟩] ∧
      (Raid0.xmp_write 1 Raid0.scenario_4k (fun _ => 0) 1 8589934592).map (fun r => r.ops) =
        some [⟨true, 0, 0, 1, some 0⟩] ∧
      spec_loc 4096 2 8589934592 = (0, 4294967296)) := by
  refine ⟨⟨by decide, by decide, by decide, by decide, by decide⟩,
    ⟨by decide, by decide, by decide⟩, ⟨by decide, by decide, by decide⟩⟩

namespace Raid4

/-- C14, evaluated. The invocation `4 /dev/nbd0 MISSING MISSING c` is parsed
without error and `main` reaches `buse_main` with slots 0 and 1 absent and
`degraded = true`: the only check on `MISSING` tokens is `degraded && ok_dev ==
-1`, which fires when every token is `MISSING`. A `+` device together with a
`MISSING` device, and two `+` devices, end in `exit(1)`. -/
theorem two_missing_devices_reach_buse_main :
    (∃ a r, argp_parse ["4", "/dev/nbd0", "MISSING", "MISSING", "c"] = .ok a ∧
      missing_count a.device a.num_devices = 2 ∧
      main a scenario_files (fun _ _ => 0) (fun _ => 0) = .ok r ∧
      r.st.num_devices = 3 ∧ r.st.dev_fd 0 = -1 ∧ r.st.dev_fd 1 = -1 ∧ r.st.dev_fd 2 ≠ -1 ∧
      r.st.degraded = true ∧ r.bop_size = 8) ∧
    main (scenario_args ["MISSING", "MISSING", "MISSING"]) scenario_files (fun _ _ => 0)
      (fun _ => 0) = .error 1 ∧
    main (scenario_args ["+a", "MISSING", "c"]) scenario_files (fun _ _ => 0)
      (fun _ => 0) = .error 1 ∧
    main (scenario_args ["+a", "+b", "c"]) scenario_files (fun _ _ => 0)
      (fun _ => 0) = .error 1 :=
  ⟨⟨_, _, rfl, rfl, rfl, rfl, rfl, rfl, by decide, rfl, rfl⟩, rfl, rfl, rfl⟩

/-- C19, witness: scenario (d) of the specification, device 0 absent. A request
of 6 bytes at offset 1 touches blocks on device 0 and device 1; the read
issues the reconstruction reads on devices 1 and 2 and one transfer from device
1, the write issues parity and device 1 calls only. -/
theorem no_io_on_absent_slot_witness :
    (0 < scenario_d.block_size ∧ scenario_d.block_size < 4294967296 ∧
      2 ≤ scenario_d.num_devices ∧ scenario_d.degraded = true ∧ 0 < scenario_d.num_devices ∧
      (∀ s, s < scenario_d.num_devices → (scenario_d.dev_fd s = -1 ↔ s = 0)) ∧ 6 ≤ 6) ∧
    (∃ r, xmp_read 6 scenario_d (fun _ => 0) 6 1 = some r ∧
      (∀ op ∈ r.ops, scenario_d.dev_fd op.slot ≠ -1 ∧ op.slot < scenario_d.num_devices ∧
        op.slot ≠ 0 ∧ op.is_write = false) ∧
      (0 = scenario_d.num_devices - 1 →
        ∀ op ∈ r.ops, op.slot < scenario_d.num_devices - 1 ∧ op.upos.isSome = true)) ∧
    (∃ r, xmp_write 6 scenario_d (fun _ => 0) 6 1 = some r ∧
      (∀ op ∈ r.ops, scenario_d.dev_fd op.slot ≠ -1 ∧ op.slot < scenario_d.num_devices ∧
        op.slot ≠ 0) ∧
      (0 = scenario_d.num_devices - 1 →
        ∀ op ∈ r.ops, op.slot < scenario_d.num_devices - 1 ∧ op.is_write = true ∧
          op.upos.isSome = true)) ∧
    (xmp_read 6 scenario_d (fun _ => 0) 6 1).map (fun r => r.ops) =
      some [⟨false, 1, 0, 4, none⟩, ⟨false, 2, 0, 4, none⟩, ⟨false, 1, 0, 3, some 3⟩] ∧
    (xmp_write 6 scenario_d (fun _ => 0) 6 1).map (fun r => r.ops) =
      some [⟨false, 1, 0, 4, none⟩, ⟨false, 2, 0, 4, none⟩, ⟨false, 2, 0, 4, none⟩,
        ⟨true, 2, 0, 4, none⟩, ⟨false, 1, 0, 4, none⟩, ⟨false, 2, 0, 4, none⟩,
        ⟨true, 1, 0, 3, some 3⟩, ⟨false, 1, 0, 4, none⟩, ⟨true, 2, 0, 4, none⟩] :=
  ⟨⟨by decide, by decide, by decide, by decide, by decide, by decide, by decide⟩,
    (no_io_on_absent_slot scenario_d 0 6 6 1 (fun _ => 0) (by decide) (by decide) (by decide)
      (by decide) (by decide) (by decide) (by decide)).1,
    (no_io_on_absent_slot scenario_d 0 6 6 1 (fun _ => 0) (by decide) (by decide) (by decide)
      (by decide) (by decide) (by decide) (by decide)).2.1,
    by decide, by decide⟩

end Raid4

end BUSE

/-! ## Every call is its body run over the pieces of the request -/

namespace BUSE

/-- A piece of the loop starts at the first byte of its block and is at most a
block long. -/
theorem tail_pieces_wn (bs : Nat) :
    ∀ c B pos len, ∀ p ∈ tail_pieces bs c B pos len, p.w = 0 ∧ p.n ≤ bs
  | 0, _, _, _, p, h => by simp [tail_pieces] at h
  | c + 1, B, pos, len, p, h => by
    simp only [tail_pieces, List.mem_cons] at h
    rcases h with h | h
    · subst h
      exact ⟨rfl, Nat.min_le_right _ _⟩
    · exact tail_pieces_wn bs c _ _ _ p h

/-- Every piece stays inside its block. -/
theorem pieces_wn {bs offset len : Nat} (hbs : 0 < bs) :
    ∀ p ∈ pieces bs offset len, p.w + p.n ≤ bs := by
  intro p h
  have hmod : offset % bs < bs := Nat.mod_lt _ hbs
  simp only [pieces, List.mem_cons] at h
  rcases h with h | h
  · subst h
    show offset % bs + min len (bs - offset % bs) ≤ bs
    have := Nat.min_le_right len (bs - offset % bs)
    omega
  · obtain ⟨h1, h2⟩ := tail_pieces_wn bs _ _ _ _ p h
    omega

/-- The byte counts of the pieces of the loop are positive and sum to the bytes
left: the remaining length goes down with every piece and ends at zero. -/
theorem tail_pieces_sum (bs : Nat) (hbs : 0 < bs) :
    ∀ c B pos len, c = (len + bs - 1) / bs →
      ((tail_pieces bs c B pos len).map Piece.n).sum = len ∧
      ∀ p ∈ tail_pieces bs c B pos len, 0 < p.n
  | 0, B, pos, len, hc => by
    have hlen : len = 0 := by
      rcases Nat.eq_zero_or_pos len with h0 | h0
      · exact h0
      · rw [ceil_step hbs h0] at hc
        exact absurd hc (Nat.succ_ne_zero _).symm
    subst hlen
    simp [tail_pieces]
  | c + 1, B, pos, len, hc => by
    have hlen : 0 < len := by
      rcases Nat.eq_zero_or_pos len with h0 | h0
      · rw [h0, ceil_zero hbs] at hc
        omega
      · exact h0
    have hc' : c = (len - min len bs + bs - 1) / bs := by
      have := ceil_step hbs hlen
      omega
    obtain ⟨h1, h2⟩ := tail_pieces_sum bs hbs c (B + 1) (pos + min len bs) (len - min len bs) hc'
    have hmin : min len bs ≤ len := Nat.min_le_left _ _
    have hpos : 0 < min len bs := Nat.lt_min.mpr ⟨hlen, hbs⟩
    constructor
    · simp only [tail_pieces, List.map_cons, List.sum_cons, h1]
      omega
    · intro p hp
      simp only [tail_pieces, List.mem_cons] at hp
      rcases hp with h | h
      · subst h
        exact hpos
      · exact h2 p h

/-- The byte counts of the pieces of a request sum to its length, and every
piece of a request of positive length has a positive byte count. -/
theorem pieces_sum {bs offset len : Nat} (hbs : 0 < bs) :
    ((pieces bs offset len).map Piece.n).sum = len ∧
    (0 < len → ∀ p ∈ pieces bs offset len, 0 < p.n) := by
  have hmod : offset % bs < bs := Nat.mod_lt _ hbs
  obtain ⟨h1, h2⟩ := tail_pieces_sum bs hbs _ (offset / bs + 1)
    (min len (bs - offset % bs)) (len - min len (bs - offset % bs)) rfl
  have hmin : min len (bs - offset % bs) ≤ len := Nat.min_le_left _ _
  constructor
  · simp only [pieces, List.map_cons, List.sum_cons, h1]
    omega
  · intro hlen p hp
    simp only [pieces, List.mem_cons] at hp
    rcases hp with h | h
    · subst h
      exact Nat.lt_min.mpr ⟨hlen, by omega⟩
    · exact h2 p h

/-- A request of positive length has `ceil((offset mod block_size + length) /
block_size)` pieces. -/
theorem pieces_length {bs offset len : Nat} (hbs : 0 < bs) (hlen : 0 < len) :
    (pieces bs offset len).length = (offset % bs + len + bs - 1) / bs := by
  have hmod : offset % bs < bs := Nat.mod_lt _ hbs
  simp only [pieces, List.length_cons, tail_pieces_length]
  by_cases hle : len ≤ bs - offset % bs
  · rw [Nat.min_eq_left hle, Nat.sub_self]
    have e1 : (0 + bs - 1) / bs = 0 := ceil_zero hbs
    have e2 : offset % bs + len + bs - 1 = (offset % bs + len - 1) + bs := by omega
    rw [e1, e2, Nat.add_div_right _ hbs, Nat.div_eq_of_lt (by omega)]
  · rw [Nat.min_eq_right (by omega)]
    have e2 : offset % bs + len + bs - 1 = (len - (bs - offset % bs) + bs - 1) + bs := by omega
    rw [e2, Nat.add_div_right _ hbs]

/-- The tuple of the call for a piece is the same for a read and for a write. -/
theorem piece_op_tuple (wr : Bool) (bs dc : Nat) (ps : List Piece) :
    (ps.map (piece_op wr bs dc)).map Op.tuple = (ps.map (piece_op false bs dc)).map Op.tuple := by
  simp only [List.map_map]
  rfl

namespace Raid4

/-- In every configuration the `while` loop of `xmp_read` returns, and it is the
body run over the pieces from block `B + 1` on. -/
theorem xmp_read_loop_run (st : State) (bs : Nat) (hbs : 0 < bs) (hbs32 : bs < 4294967296)
    (hsb : st.block_size = bs) :
    ∀ fuel buf pos len B, len ≤ fuel →
      xmp_read_loop st fuel buf pos len (u32 B) =
        some (run_read st buf (tail_pieces bs ((len + bs - 1) / bs) (B + 1) pos len))
  | 0, buf, pos, len, B, hf => by
    have : len = 0 := by omega
    subst this
    rw [ceil_zero hbs]
    simp [xmp_read_loop, tail_pieces, run_read]
  | fuel + 1, buf, pos, len, B, hf => by
    by_cases hl : len = 0
    · subst hl
      rw [ceil_zero hbs]
      simp [xmp_read_loop, tail_pieces, run_read]
    · have hu : u32 bs = bs := u32_eq_of_lt hbs32
      have hlen : 0 < len := Nat.pos_of_ne_zero hl
      have hmin : (if len ≤ bs then len else bs) = min len bs := by
        split
        · rw [Nat.min_eq_left (by assumption)]
        · rw [Nat.min_eq_right (by omega)]
      have ih := xmp_read_loop_run st bs hbs hbs32 hsb fuel
        (read_piece st buf pos (u32 (B + 1) % (st.num_devices - 1))
          (u32 (B + 1) / (st.num_devices - 1)) (min len bs)
          (u32 (u32 (B + 1) / (st.num_devices - 1) * bs))).1
        (pos + min len bs) (len - min len bs) (B + 1)
        (by have : 0 < min len bs := Nat.lt_min.mpr ⟨hlen, hbs⟩
            omega)
      simp only [xmp_read_loop, hl, if_false, u32_succ, hsb, hu, hmin, ih]
      rw [ceil_step hbs hlen]
      simp only [tail_pieces, run_read, hsb, Nat.add_zero]

/-- In every configuration `xmp_read` returns, and it is the body run over the
pieces of the request. -/
theorem xmp_read_run (st : State) (bs : Nat) (hbs : 0 < bs) (hbs32 : bs < 4294967296)
    (hsb : st.block_size = bs) (fuel : Nat) (buf : Buf) (len offset : Nat) (hf : len ≤ fuel) :
    xmp_read fuel st buf len offset =
      some ⟨(run_read st buf (pieces bs offset len)).1,
        (run_read st buf (pieces bs offset len)).2, 0⟩ := by
  have hmod : offset % bs < bs := Nat.mod_lt _ hbs
  have hmin : (if len ≤ bs - offset % bs then len else bs - offset % bs) =
      min len (bs - offset % bs) := by
    split
    · rw [Nat.min_eq_left (by assumption)]
    · rw [Nat.min_eq_right (by omega)]
  have hn : u32 (min len (bs - offset % bs)) = min len (bs - offset % bs) :=
    u32_eq_of_lt (lt_of_le_of_lt (Nat.min_le_right _ _) (by omega))
  have ih := xmp_read_loop_run st bs hbs hbs32 hsb fuel
    (read_piece st buf 0 (u32 (offset / bs) % (st.num_devices - 1))
      (u32 (offset / bs) / (st.num_devices - 1)) (min len (bs - offset % bs))
      (u32 (u32 (offset / bs) / (st.num_devices - 1) * bs) + offset % bs)).1
    (min len (bs - offset % bs)) (len - min len (bs - offset % bs)) (offset / bs) (by omega)
  simp only [xmp_read, hsb, hmin, hn, ih]
  simp only [pieces, run_read, hsb]

/-- For a body that leaves the configuration alone, the `while` loop of
`xmp_write` returns in every configuration, and it is the body run over the
pieces from block `B + 1` on. -/
theorem xmp_write_loop_run
    (piece : State → Buf → Nat → Nat → Nat → Nat → Nat → Nat → State × List Op)
    (bs : Nat) (hbs : 0 < bs) (hbs32 : bs < 4294967296)
    (hcfg : ∀ st buf pos d k w n doff, (piece st buf pos d k w n doff).1.block_size =
      st.block_size) :
    ∀ fuel st buf pos len B, st.block_size = bs → len ≤ fuel →
      xmp_write_loop piece fuel st buf pos len (u32 B) =
        some (run_write piece st buf (tail_pieces bs ((len + bs - 1) / bs) (B + 1) pos len))
  | 0, st, buf, pos, len, B, _, hf => by
    have : len = 0 := by omega
    subst this
    rw [ceil_zero hbs]
    simp [xmp_write_loop, tail_pieces, run_write]
  | fuel + 1, st, buf, pos, len, B, hsb, hf => by
    by_cases hl : len = 0
    · subst hl
      rw [ceil_zero hbs]
      simp [xmp_write_loop, tail_pieces, run_write]
    · have hu : u32 bs = bs := u32_eq_of_lt hbs32
      have hlen : 0 < len := Nat.pos_of_ne_zero hl
      have hmin : (if len ≤ bs then len else bs) = min len bs := by
        split
        · rw [Nat.min_eq_left (by assumption)]
        · rw [Nat.min_eq_right (by omega)]
      have ih := xmp_write_loop_run piece bs hbs hbs32 hcfg fuel
        (piece st buf pos (u32 (B + 1) % (st.num_devices - 1))
          (u32 (B + 1) / (st.num_devices - 1)) 0 (min len bs)
          (u32 (u32 (B + 1) / (st.num_devices - 1) * bs))).1
        buf (pos + min len bs) (len - min len bs) (B + 1)
        ((hcfg _ _ _ _ _ _ _ _).trans hsb)
        (by have : 0 < min len bs := Nat.lt_min.mpr ⟨hlen, hbs⟩
            omega)
      simp only [xmp_write_loop, hl, if_false, u32_succ, hsb, hu, hmin, ih]
      rw [ceil_step hbs hlen]
      simp only [tail_pieces, run_write, hsb, Nat.add_zero]

/-- In every configuration `xmp_write` returns, and it is the body of its
branch run over the pieces of the request. -/
theorem xmp_write_run (st : State) (bs : Nat) (hbs : 0 < bs) (hbs32 : bs < 4294967296)
    (hsb : st.block_size = bs) (fuel : Nat) (buf : Buf) (len offset : Nat) (hf : len ≤ fuel) :
    xmp_write fuel st buf len offset =
      some ⟨(run_write (if st.degraded then write_piece_degraded else write_piece_healthy)
          st buf (pieces bs offset len)).1,
        (run_write (if st.degraded then write_piece_degraded else write_piece_healthy)
          st buf (pieces bs offset len)).2, 0⟩ := by
  have hmod : offset % bs < bs := Nat.mod_lt _ hbs
  have hmin : (if len ≤ bs - offset % bs then len else bs - offset % bs) =
      min len (bs - offset % bs) := by
    split
    · rw [Nat.min_eq_left (by assumption)]
    · rw [Nat.min_eq_right (by omega)]
  have hn : u32 (min len (bs - offset % bs)) = min len (bs - offset % bs) :=
    u32_eq_of_lt (lt_of_le_of_lt (Nat.min_le_right _ _) (by omega))
  have hcfg : ∀ s buf pos d k w n doff,
      ((if st.degraded then write_piece_degraded else write_piece_healthy)
        s buf pos d k w n doff).1.block_size = s.block_size := by
    intro s buf pos d k w n doff
    have := write_piece_cfg s.block_size s.num_devices s buf pos d k w n doff ⟨rfl, rfl⟩
    cases st.degraded
    · exact this.2.1
    · exact this.1.1
  have ih := xmp_write_loop_run
    (if st.degraded then write_piece_degraded else write_piece_healthy) bs hbs hbs32 hcfg fuel
    ((if st.degraded then write_piece_degraded else write_piece_healthy) st buf 0
      (u32 (offset / bs) % (st.num_devices - 1)) (u32 (offset / bs) / (st.num_devices - 1))
      (offset % bs) (min len (bs - offset % bs))
      (u32 (u32 (offset / bs) / (st.num_devices - 1) * bs) + offset % bs)).1
    buf (min len (bs - offset % bs)) (len - min len (bs - offset % bs)) (offset / bs)
    ((hcfg _ _ _ _ _ _ _ _).trans hsb) (by omega)
  simp only [xmp_write, hsb, hmin, hn, ih]
  simp only [pieces, run_write, hsb]

end Raid4
end BUSE

/-! ## Termination, fragment count, and the two programs side by side -/

namespace BUSE

/-- The byte counts of the pieces of a request count its length down. -/
theorem pieces_countsDown {bs offset len : Nat} (hbs : 0 < bs) :
    CountsDown bs offset len ((pieces bs offset len).map Piece.n) := by
  obtain ⟨h1, h2⟩ := @pieces_sum bs offset len hbs
  refine ⟨h1, fun hlen => ⟨?_, ?_⟩⟩
  · intro n hn
    obtain ⟨p, hp, rfl⟩ := List.mem_map.mp hn
    exact h2 hlen p hp
  · rw [List.length_map]
    exact pieces_length hbs hlen

/-- The byte counts of the calls for a list of pieces are the byte counts of the
pieces. -/
theorem piece_op_count (wr : Bool) (bs dc : Nat) (ps : List Piece) :
    (ps.map (piece_op wr bs dc)).map Op.count = ps.map Piece.n := by
  simp only [List.map_map]
  rfl

/-- C24. RAID-0 and RAID-4 enumerate the same fragments: for every
`block_size > 0`, every offset and every 32-bit length (also where the 32-bit
device offsets wrap), the RAID-0 `xmp_read` and the RAID-4 `xmp_read` on a
healthy three-device array return and issue the same sequence of reads, tuple by
tuple (device index, device offset, transfer length, buffer position); and
within each program `xmp_write` issues its payload writes at exactly the
tuples at which `xmp_read` issues its reads. -/
theorem raid0_raid4_same_fragments (s0 : Raid0.State) (s4 : Raid4.State)
    (bs fuel len offset : Nat) (buf payload : Buf)
    (hbs : 0 < bs) (hbs32 : bs < 4294967296) (hl32 : len < 4294967296) (hf : len ≤ fuel)
    (h0 : s0.block_size = bs) (h4 : s4.block_size = bs) (hN : s4.num_devices = 3)
    (hpres : ∀ s, s < 3 → s4.dev_fd s ≠ -1) (hdeg : s4.degraded = false) :
    ∃ r0 r4 w0 w4,
      Raid0.xmp_read fuel s0 buf len offset = some r0 ∧
      Raid4.xmp_read fuel s4 buf len offset = some r4 ∧
      Raid0.xmp_write fuel s0 payload len offset = some w0 ∧
      Raid4.xmp_write fuel s4 payload len offset = some w4 ∧
      r0.ops = r4.ops ∧
      (∀ op ∈ r0.ops, op.is_write = false) ∧
      w0.ops.map Op.tuple = r0.ops.map Op.tuple ∧
      (∀ op ∈ w0.ops, op.is_write = true) ∧
      (transfers w4.ops).map Op.tuple = r4.ops.map Op.tuple ∧
      (∀ op ∈ transfers w4.ops, op.is_write = true) := by
  obtain ⟨r0, hr0, _, ho0⟩ := Raid0.raid0_read_pieces s0 bs hbs hbs32 h0 fuel buf len offset
    hf hl32
  obtain ⟨w0, hw0, _, hp0⟩ := Raid0.raid0_write_pieces s0 bs hbs hbs32 h0 fuel payload len
    offset hf hl32
  obtain ⟨r4, hr4, _, ho4⟩ := Raid4.xmp_read_pieces s4 bs 3 hbs hbs32 (by omega) h4 hN
    (fun d hd => hpres d (by omega)) fuel buf len offset hf
  obtain ⟨w4, hw4, _, hp4⟩ := Raid4.xmp_write_pieces bs 3 hbs hbs32 s4 h4 hN hdeg fuel payload
    len offset hf
  have e : (3 : Nat) - 1 = 2 := rfl
  rw [e] at ho4 hp4
  refine ⟨r0, r4, w0, w4, hr0, hr4, hw0, hw4, by rw [ho0, ho4], ?_, ?_, ?_, ?_, ?_⟩
  · intro op hop
    rw [ho0] at hop
    obtain ⟨p, _, rfl⟩ := List.mem_map.mp hop
    rfl
  · rw [hp0, ho0, piece_op_tuple]
  · intro op hop
    rw [hp0] at hop
    obtain ⟨p, _, rfl⟩ := List.mem_map.mp hop
    rfl
  · rw [hp4, ho4, piece_op_tuple]
  · intro op hop
    rw [hp4] at hop
    obtain ⟨p, _, rfl⟩ := List.mem_map.mp hop
    rfl

end BUSE

/-! ## A degraded write next to the healthy write -/

namespace BUSE
namespace Raid4

/-- The XOR over the selected slots depends on the values of the selected slots
only. -/
theorem xorOver_congr_sel {p : Nat → Bool} {f g : Nat → Nat} :
    ∀ n, (∀ s, s < n → p s = true → f s = g s) → xorOver p f n = xorOver p g n
  | 0, _ => rfl
  | n + 1, h => by
    have ih := xorOver_congr_sel n (fun s hs => h s (Nat.lt_succ_of_lt hs))
    simp only [xorOver, ih]
    by_cases hp : p n = true
    · simp only [hp, if_true, h n (Nat.lt_succ_self n) hp]
    · have hp' : p n = false := by simpa using hp
      simp only [hp']
      rfl

/-- In agreeing arrays the block that `getMissedBlk` reconstructs on the
degraded array is the block of slot `D` on the healthy array. -/
theorem agree_getMissedBlk {bs N D : Nat} {old : Buf} {S T : State}
    (h : Agree bs N D old S T) (hD : D < N - 1) (k i : Nat) (hi : i < bs) :
    (getMissedBlk T k).1 i = S.disk D (blk_off S k + i) := by
  obtain ⟨⟨hsb, hsN, _, _, hz⟩, htb, htN, hfd, hdisk, _⟩ := h
  have hPlt : N - 1 < N := by omega
  have hP : T.dev_fd (N - 1) ≠ -1 := fun e => by
    have := (hfd _ hPlt).mp e
    omega
  have hb : blk_off T k = blk_off S k := by simp only [blk_off, htb, hsb]
  rw [getMissedBlk_val T k (by rw [htN]; exact hPlt) hP (by rw [htb]; exact hi), hb]
  unfold presentXor
  rw [htN]
  have h1 : xorOver T.present (fun s => T.disk s (blk_off S k + i)) N =
      xorOver T.present (fun s => S.disk s (blk_off S k + i)) N :=
    xorOver_congr_sel N (fun s hs hp => by
      have hne : s ≠ D := fun e => by
        rw [present_false ((hfd s hs).mpr e)] at hp
        cases hp
      exact hdisk s _ hne)
  have h2 := xorOver_absent (p := T.present) (f := fun s => S.disk s (blk_off S k + i))
    (present_false ((hfd D (by omega)).mpr rfl)) N (by omega)
    (fun s hs hne => present_true (fun e => hne ((hfd s hs).mp e)))
  have h3 := hz (blk_off S k + i)
  unfold stripeXor at h3
  rw [hsN, h2] at h3
  rw [h1]
  exact Nat.xor_eq_zero.mp h3

/-- One piece keeps the arrays in agreement: the healthy body on `S` and the
degraded body on `T` change the slots other than `D` in the same way, and the
degraded body leaves the file of slot `D` alone. -/
theorem agree_step {bs N D : Nat} {old : Buf} {S T : State}
    (h : Agree bs N D old S T) (hN : 2 ≤ N) (hD : D < N - 1) (buf : Buf)
    (pos d k w n : Nat) (hd : d < N - 1) (hwn : w + n ≤ bs) :
    Agree bs N D old
      (write_piece_healthy S buf pos d k w n (blk_off S k + w)).1
      (write_piece_degraded T buf pos d k w n (blk_off S k + w)).1 := by
  have hg := fun i hi => agree_getMissedBlk h hD k i hi
  obtain ⟨hS, htb, htN, hfd, hdisk, hold⟩ := h
  obtain ⟨hsb, hsN, hsdeg, hspres, hz⟩ := hS
  have hPlt : N - 1 < N := by omega
  have hPD : N - 1 ≠ D := by omega
  have hTP : T.dev_fd (N - 1) ≠ -1 := fun e => hPD ((hfd _ hPlt).mp e)
  have hb : blk_off T k = blk_off S k := by simp only [blk_off, htb, hsb]
  have hS1 : HealthyInv bs N (write_into_blk S buf pos d n (blk_off S k + w) k).1 :=
    write_into_blk_healthyInv S buf pos d k w n _ ⟨hsb, hsN, hsdeg, hspres, hz⟩
      (by rw [hsN]; exact hd) rfl (by rw [hsb]; exact hwn)
  have hSdisk := fun s a => write_into_blk_disk S buf pos d n (blk_off S k + w) k s a
    (hspres d (by omega)) (by rw [hsN]; exact hspres _ hPlt) (by rw [hsN]; omega)
  have hcfg := (write_piece_cfg bs N T buf pos d k w n (blk_off S k + w) ⟨htb, htN⟩).1
  have hfd' := (write_piece_degraded_fd T buf pos d k w n (blk_off S k + w)).1
  refine ⟨hS1, hcfg.1, hcfg.2, by rw [hfd']; exact hfd, ?_, ?_⟩
  · intro s a hs
    show (write_piece_degraded T buf pos d k w n (blk_off S k + w)).1.disk s a =
      (write_into_blk S buf pos d n (blk_off S k + w) k).1.disk s a
    rw [hSdisk s a, hsN, hsb]
    by_cases hdD : d = D
    · have hTd : T.dev_fd d = -1 := (hfd d (by omega)).mpr hdD
      simp only [write_piece_degraded, hTd, if_true]
      rw [write_on_missed_disk, htN, htb, hb]
      have hsd : s ≠ d := by rw [hdD]; exact hs
      by_cases hsP : s = N - 1
      · subst hsP
        by_cases hin : blk_off S k ≤ a ∧ a < blk_off S k + bs
        · have hi : a - blk_off S k < bs := by omega
          have ha : blk_off S k + (a - blk_off S k) = a := by omega
          have hcond : (w ≤ a - blk_off S k ∧ a - blk_off S k < w + n) ↔
              (blk_off S k + w ≤ a ∧ a < blk_off S k + w + n) := by omega
          have hidx : a - blk_off S k - w = a - (blk_off S k + w) := by omega
          simp only [hTP, hin, ne_eq, not_false_eq_true, and_self, if_true, hg _ hi, ha,
            hdisk (N - 1) a hPD, hdD, hcond, hidx]
        · simp [hin, hdisk (N - 1) a hPD]
      · simp [hsP, hsd, hdisk s a hs]
    · have hTd : T.dev_fd d ≠ -1 := fun e => hdD ((hfd d (by omega)).mp e)
      have hTP' : ¬ T.dev_fd (T.num_devices - 1) = -1 := by rw [htN]; exact hTP
      simp only [write_piece_degraded, hTd, if_false, hTP']
      rw [write_into_blk_disk T buf pos d n (blk_off S k + w) k s a hTd
        (by rw [htN]; exact hTP) (by rw [htN]; omega), htN, htb, hb,
        hdisk (N - 1) a hPD, hdisk d a hdD, hdisk s a hs]
  · intro a
    rw [← hold a]
    by_cases hdD : d = D
    · have hTd : T.dev_fd d = -1 := (hfd d (by omega)).mpr hdD
      simp only [write_piece_degraded, hTd, if_true]
      rw [write_on_missed_disk, htN]
      have : ¬ D = N - 1 := fun e => hPD e.symm
      simp only [this, false_and, if_false]
    · have hTd : T.dev_fd d ≠ -1 := fun e => hdD ((hfd d (by omega)).mp e)
      have hTP' : ¬ T.dev_fd (T.num_devices - 1) = -1 := by rw [htN]; exact hTP
      simp only [write_piece_degraded, hTd, if_false, hTP']
      rw [write_into_blk_disk T buf pos d n (blk_off S k + w) k D a hTd
        (by rw [htN]; exact hTP) (by rw [htN]; omega), htN]
      have h1 : ¬ D = N - 1 := fun e => hPD e.symm
      have h2 : ¬ D = d := fun e => hdD e.symm
      simp only [h1, h2, if_false]

/-- Running the healthy body on `S` and the degraded body on `T` over the same
pieces keeps the arrays in agreement. -/
theorem agree_run {bs N D : Nat} {old : Buf} (hN : 2 ≤ N) (hD : D < N - 1) (buf : Buf) :
    ∀ (ps : List Piece) (S T : State), (∀ p ∈ ps, p.w + p.n ≤ bs) → Agree bs N D old S T →
      Agree bs N D old (run_write write_piece_healthy S buf ps).1
        (run_write write_piece_degraded T buf ps).1
  | [], S, T, _, h => h
  | p :: ps, S, T, hps, h => by
    have hsb : S.block_size = bs := h.1.1
    have hsN : S.num_devices = N := h.1.2.1
    have htb : T.block_size = bs := h.2.1
    have htN : T.num_devices = N := h.2.2.1
    have hstep := agree_step h hN hD buf p.pos (u32 p.blk % (N - 1)) (u32 p.blk / (N - 1))
      p.w p.n (Nat.mod_lt _ (by omega)) (hps p (List.mem_cons_self _ _))
    have ih := agree_run hN hD buf ps _ _ (fun q hq => hps q (List.mem_cons_of_mem _ hq)) hstep
    simp only [run_write, hsb, hsN, htb, htN]
    simpa only [blk_off, hsb] using ih

/-- C22. Degraded write agrees with healthy write: take a RAID-4 state `S` with
no absent slot that satisfies the parity invariant, and the state `S'` obtained
from `S` by marking one data slot `D` absent (`degraded = true`). For every
write request (in range or not), `xmp_write` returns on `S` and on `S'` and
leaves every slot other than `D` with identical contents, in particular the
parity slot; the file of slot `D` is untouched on `S'`, and the block that
`getMissedBlk` reconstructs on the array left by the degraded write is the block
that the healthy write left on slot `D`. For a single piece on slot `D`, the
parity block written by `write_on_missed` from the reconstructed block equals
the parity block written by `write_into_blk` from the real block. -/
theorem degraded_write_agrees_with_healthy (S : State) (D fuel len offset : Nat) (buf : Buf)
    (hbs : 0 < S.block_size) (hbs32 : S.block_size < 4294967296) (hN : 2 ≤ S.num_devices)
    (hh : Healthy S) (hinv : ParityInv S) (hD : D < S.num_devices - 1) (hf : len ≤ fuel) :
    ∃ r r', xmp_write fuel S buf len offset = some r ∧
      xmp_write fuel (S.mark_absent D) buf len offset = some r' ∧
      r.status = 0 ∧ r'.status = 0 ∧
      (∀ s a, s ≠ D → r'.st.disk s a = r.st.disk s a) ∧
      (∀ a, r'.st.disk D a = S.disk D a) ∧
      (∀ k i, i < S.block_size →
        (getMissedBlk r'.st k).1 i = r.st.disk D (blk_off S k + i)) ∧
      (∀ pos k w n a, w + n ≤ S.block_size →
        (write_on_missed (S.mark_absent D) buf pos k w n).1.disk (S.num_devices - 1) a =
          (write_into_blk S buf pos D n (blk_off S k + w) k).1.disk (S.num_devices - 1) a) := by
  have hI : HealthyInv S.block_size S.num_devices S :=
    ⟨rfl, rfl, hh.1, hh.2, (parityInv_iff_stripeXor S hbs).mp hinv⟩
  have h0 : Agree S.block_size S.num_devices D (S.disk D) S (S.mark_absent D) := by
    refine ⟨hI, rfl, rfl, ?_, fun _ _ _ => rfl, fun _ => rfl⟩
    intro s hs
    simp only [State.mark_absent]
    by_cases hsD : s = D
    · simp [hsD]
    · simp [hsD, hh.2 s hs]
  have hrun := agree_run hN hD buf (pieces S.block_size offset len) S (S.mark_absent D)
    (pieces_wn hbs) h0
  have e1 := xmp_write_run S S.block_size hbs hbs32 rfl fuel buf len offset hf
  have e2 := xmp_write_run (S.mark_absent D) S.block_size hbs hbs32 rfl fuel buf len offset hf
  have hd1 : S.degraded = false := hh.1
  have hd2 : (S.mark_absent D).degraded = true := rfl
  simp only [hd1, Bool.false_eq_true, if_false] at e1
  simp only [hd2, if_true] at e2
  refine ⟨_, _, e1, e2, rfl, rfl, hrun.2.2.2.2.1, hrun.2.2.2.2.2, ?_, ?_⟩
  · intro k i hi
    have := agree_getMissedBlk hrun hD k i hi
    rw [this]
    simp only [blk_off, hrun.1.1]
  · intro pos k w n a hwn
    have hstep := agree_step h0 hN hD buf pos D k w n hD hwn
    have := hstep.2.2.2.2.1 (S.num_devices - 1) a (by omega)
    have hfdD : (S.mark_absent D).dev_fd D = -1 := by simp [State.mark_absent]
    simpa only [write_piece_degraded, write_piece_healthy, hfdD, if_true] using this

end Raid4
end BUSE

/-! ## What a healthy write leaves alone -/

namespace BUSE

/-- Every piece of a request of positive length is a block of a byte of the
request. -/
theorem pieces_block {bs offset len : Nat} (hbs : 0 < bs) (hlen : 0 < len) :
    ∀ p ∈ pieces bs offset len, ∃ t, t < len ∧ p.blk = (offset + t) / bs := by
  intro p hp
  obtain ⟨i, hi⟩ := List.mem_iff_getElem?.mp hp
  obtain ⟨h1, _, _, _, h5⟩ := pieces_get hbs hlen i p hi
  have hmod : offset % bs < bs := Nat.mod_lt _ hbs
  have hdm := Nat.div_add_mod offset bs
  rw [Nat.mul_comm] at hdm
  cases i with
  | zero => exact ⟨0, hlen, by rw [h1]; rfl⟩
  | succ i =>
    have e : (offset / bs + (i + 1)) * bs = offset / bs * bs + bs + i * bs := by ring
    rw [h1, e] at h5
    refine ⟨offset / bs * bs + bs + i * bs - offset, by omega, ?_⟩
    have e2 : offset + (offset / bs * bs + bs + i * bs - offset) =
        (offset / bs + (i + 1)) * bs := by rw [e]; omega
    rw [h1, e2, Nat.mul_div_cancel _ hbs]

namespace Raid4

/-- The healthy body run over a list of pieces on an array with no absent slot
changes a byte only if a piece writes its payload there or recomputes the parity
block there. -/
theorem run_write_healthy_frame (bs N : Nat) (hN : 2 ≤ N) (buf : Buf) (s a : Nat) :
    ∀ (ps : List Piece) (st : State), NoAbsent bs N st →
      (∀ p ∈ ps,
        ¬ (s = u32 p.blk % (N - 1) ∧ u32 (u32 p.blk / (N - 1) * bs) + p.w ≤ a ∧
          a < u32 (u32 p.blk / (N - 1) * bs) + p.w + p.n) ∧
        ¬ (s = N - 1 ∧ u32 (u32 p.blk / (N - 1) * bs) ≤ a ∧
          a < u32 (u32 p.blk / (N - 1) * bs) + bs)) →
      (run_write write_piece_healthy st buf ps).1.disk s a = st.disk s a
  | [], st, _, _ => rfl
  | p :: ps, st, hst, hps => by
    obtain ⟨hsb, hsN, hpres⟩ := hst
    have hdlt : u32 p.blk % (N - 1) < N - 1 := Nat.mod_lt _ (by omega)
    have hd : st.dev_fd (u32 p.blk % (N - 1)) ≠ -1 := hpres _ (by omega)
    have hP : st.dev_fd (N - 1) ≠ -1 := hpres _ (by omega)
    have hst1 : NoAbsent bs N (write_into_blk st buf p.pos (u32 p.blk % (N - 1)) p.n
        (u32 (u32 p.blk / (N - 1) * bs) + p.w) (u32 p.blk / (N - 1))).1 := ⟨hsb, hsN, hpres⟩
    have ih := run_write_healthy_frame bs N hN buf s a ps _ hst1
      (fun q hq => hps q (List.mem_cons_of_mem _ hq))
    obtain ⟨h1, h2⟩ := hps p (List.mem_cons_self _ _)
    simp only [run_write, write_piece_healthy, hsb, hsN] at ih ⊢
    rw [ih, write_into_blk_disk st buf p.pos _ p.n _ _ s a (by rw [hsN] at *; exact hd)
      (by rw [hsN]; exact hP) (by rw [hsN]; omega)]
    simp only [hsN, hsb, blk_off]
    by_cases hsP : s = N - 1
    · have h3 : ¬ (u32 (u32 p.blk / (N - 1) * bs) ≤ a ∧
          a < u32 (u32 p.blk / (N - 1) * bs) + bs) := fun h => h2 ⟨hsP, h⟩
      simp only [hsP, if_true, h3, if_false]
    · by_cases hsd : s = u32 p.blk % (N - 1)
      · have h3 : ¬ (u32 (u32 p.blk / (N - 1) * bs) + p.w ≤ a ∧
            a < u32 (u32 p.blk / (N - 1) * bs) + p.w + p.n) := fun h => h1 ⟨hsd, h⟩
        have hne : ¬ u32 p.blk % (N - 1) = N - 1 := by omega
        simp only [hsd, hne, if_false, if_true, h3]
      · simp only [hsP, hsd, if_false]

/-- C21, within 32 bits. Writes do not disturb other regions: on a RAID-4 array
with no absent slot in the non-degraded mode, with backing devices of at most
`2^32` bytes (device offsets below `2^32`), for every in-range write
`(offset, len, payload)` with `offset + len <= 2^32 * block_size` (logical block
numbers below `2^32`): `xmp_write` returns; for every in-range read whose block
numbers are below `2^32`, every byte it returns for a virtual position outside
`[offset, offset + len)` is the byte the same read returned before the write; on
a data device a byte changes only at the position of a payload byte (the
location of `offset + t` under the block mapping, `t < len`); on the parity
device a byte changes only inside the parity block of a stripe the request
touches (in-device block `((offset + t) / block_size) / (num_devices - 1)`);
and the files of slots outside the array stay as they are. -/
theorem write_leaves_other_regions_32bit (st : State) (m fuel len offset : Nat)
    (payload : Buf)
    (hbs : 0 < st.block_size) (hbs32 : st.block_size < 4294967296) (hN : 2 ≤ st.num_devices)
    (hh : Healthy st) (hm : m ≤ 4294967296)
    (hr : offset + len ≤ virtual_size m st.block_size (st.num_devices - 1))
    (hblk : offset + len ≤ 4294967296 * st.block_size) (hf : len ≤ fuel) :
    ∃ w, xmp_write fuel st payload len offset = some w ∧ w.status = 0 ∧
      (∀ rfuel rlen roff rbuf, rlen ≤ rfuel →
        roff + rlen ≤ virtual_size m st.block_size (st.num_devices - 1) →
        roff + rlen ≤ 4294967296 * st.block_size →
        ∃ r0 r1, xmp_read rfuel st rbuf rlen roff = some r0 ∧
          xmp_read rfuel w.st rbuf rlen roff = some r1 ∧
          ∀ j, j < rlen → (roff + j < offset ∨ offset + len ≤ roff + j) →
            r1.buf j = r0.buf j) ∧
      (∀ s a, s < st.num_devices - 1 →
        (∀ t, t < len → spec_loc st.block_size (st.num_devices - 1) (offset + t) ≠ (s, a)) →
        w.st.disk s a = st.disk s a) ∧
      (∀ a, (∀ t, t < len →
          a / st.block_size ≠ (offset + t) / st.block_size / (st.num_devices - 1)) →
        w.st.disk (st.num_devices - 1) a = st.disk (st.num_devices - 1) a) ∧
      (∀ s a, st.num_devices ≤ s → w.st.disk s a = st.disk s a) := by
  have hst : NoAbsent st.block_size st.num_devices st := ⟨rfl, rfl, hh.2⟩
  have hdc : 0 < st.num_devices - 1 := by omega
  obtain ⟨w, hw, hwst, _, hstat, hframe, _⟩ := xmp_write_content st.block_size st.num_devices
    hbs hbs32 hN fuel st payload len offset hst hh.1 hf
  have hrun := xmp_write_run st st.block_size hbs hbs32 rfl fuel payload len offset hf
  simp only [hh.1, Bool.false_eq_true, if_false] at hrun
  have hwrun : w.st = (run_write write_piece_healthy st payload
      (pieces st.block_size offset len)).1 := by
    rw [hw] at hrun
    simp only [Option.some.injEq] at hrun
    rw [hrun]
  have hdata : ∀ s a, s < st.num_devices - 1 →
      (∀ t, t < len → spec_loc st.block_size (st.num_devices - 1) (offset + t) ≠ (s, a)) →
      w.st.disk s a = st.disk s a := by
    intro s a hs hne
    apply hframe s a hs
    intro t ht
    rw [code_loc_exact hm hr hblk ht]
    exact hne t ht
  -- frame of the pieces in the exact regime
  have hpiece : 0 < len → ∀ p ∈ pieces st.block_size offset len,
      u32 p.blk = p.blk ∧
      u32 (p.blk / (st.num_devices - 1) * st.block_size) =
        p.blk / (st.num_devices - 1) * st.block_size ∧
      ∃ t, t < len ∧ p.blk = (offset + t) / st.block_size := by
    intro hlen p hp
    obtain ⟨t, ht, hpt⟩ := pieces_block hbs hlen p hp
    have h1 : p.blk < 4294967296 := by rw [hpt]; exact block_number_lt hblk ht
    have h2 : p.blk / (st.num_devices - 1) * st.block_size < 4294967296 := by
      rw [hpt]
      exact block_offset_lt hm (by omega)
    rw [u32_eq_of_lt h1]
    exact ⟨rfl, u32_eq_of_lt h2, t, ht, hpt⟩
  refine ⟨w, hw, hstat, ?_, hdata, ?_, ?_⟩
  · intro rfuel rlen roff rbuf hrf hrr hrblk
    obtain ⟨r0, hr0, _, hb0, _⟩ := xmp_read_content st st.block_size st.num_devices hbs hbs32
      hN rfl rfl (fun s hs => hh.2 s (by omega)) rfuel rbuf rlen roff hrf
    obtain ⟨r1, hr1, _, hb1, _⟩ := xmp_read_content w.st st.block_size st.num_devices hbs hbs32
      hN hwst.1 hwst.2.1 (fun s hs => hwst.2.2 s (by omega)) rfuel rbuf rlen roff hrf
    refine ⟨r0, r1, hr0, hr1, ?_⟩
    intro j hj hout
    rw [hb0 j, hb1 j]
    simp only [hj, if_true]
    rw [code_loc_exact hm hrr hrblk hj]
    apply hdata _ _ (Nat.mod_lt _ hdc)
    intro t ht heq
    have := spec_loc_inj hbs heq
    omega
  · intro a ha
    rcases Nat.eq_zero_or_pos len with h0 | hlen
    · subst h0
      have hz := xmp_write_len_zero fuel st payload offset
      rw [hw] at hz
      simp only [Option.some.injEq] at hz
      rw [hz]
      show ((if st.degraded then write_piece_degraded else write_piece_healthy) st payload 0
        _ _ _ 0 _).1.disk _ a = _
      rw [(write_piece_zero st payload 0 _ _ _ _).1]
    · rw [hwrun]
      apply run_write_healthy_frame st.block_size st.num_devices hN payload _ a _ st hst
      intro p hp
      obtain ⟨e1, e2, t, ht, hpt⟩ := hpiece hlen p hp
      rw [e1, e2]
      refine ⟨fun h => ?_, fun h => ?_⟩
      · have : p.blk % (st.num_devices - 1) < st.num_devices - 1 := Nat.mod_lt _ hdc
        omega
      · apply ha t ht
        rw [← hpt]
        have hlo := h.2.1
        have hhi := h.2.2
        apply Nat.div_eq_of_lt_le
        · exact hlo
        · rw [Nat.succ_mul]
          exact hhi
  · intro s a hs
    rcases Nat.eq_zero_or_pos len with h0 | hlen
    · subst h0
      have hz := xmp_write_len_zero fuel st payload offset
      rw [hw] at hz
      simp only [Option.some.injEq] at hz
      rw [hz]
      show ((if st.degraded then write_piece_degraded else write_piece_healthy) st payload 0
        _ _ _ 0 _).1.disk _ a = _
      rw [(write_piece_zero st payload 0 _ _ _ _).1]
    · rw [hwrun]
      apply run_write_healthy_frame st.block_size st.num_devices hN payload s a _ st hst
      intro p _
      have : u32 p.blk % (st.num_devices - 1) < st.num_devices - 1 := Nat.mod_lt _ hdc
      exact ⟨fun h => by omega, fun h => by omega⟩

end Raid4
end BUSE

/-! ## Witnesses and evaluations for the frame, agreement and counting claims -/

namespace BUSE
namespace Raid4

/-- C21, witness: scenario (b) of the specification. On three zeroed devices of
8 bytes with `block_size = 4`, writing `[AA BB CC DD]` at offset 0. -/
theorem write_leaves_other_regions_32bit_witness :
    (0 < scenario_zero.block_size ∧ scenario_zero.block_size < 4294967296 ∧
      2 ≤ scenario_zero.num_devices ∧ Healthy scenario_zero ∧ 8 ≤ 4294967296 ∧
      0 + 4 ≤ virtual_size 8 scenario_zero.block_size (scenario_zero.num_devices - 1) ∧
      0 + 4 ≤ 4294967296 * scenario_zero.block_size ∧ 4 ≤ 4) ∧
    (∃ w, xmp_write 4 scenario_zero (ofBytes [0xAA, 0xBB, 0xCC, 0xDD]) 4 0 = some w ∧
      w.status = 0 ∧
      (∀ rfuel rlen roff rbuf, rlen ≤ rfuel →
        roff + rlen ≤ virtual_size 8 scenario_zero.block_size (scenario_zero.num_devices - 1) →
        roff + rlen ≤ 4294967296 * scenario_zero.block_size →
        ∃ r0 r1, xmp_read rfuel scenario_zero rbuf rlen roff = some r0 ∧
          xmp_read rfuel w.st rbuf rlen roff = some r1 ∧
          ∀ j, j < rlen → (roff + j < 0 ∨ 0 + 4 ≤ roff + j) → r1.buf j = r0.buf j) ∧
      (∀ s a, s < scenario_zero.num_devices - 1 →
        (∀ t, t < 4 → spec_loc scenario_zero.block_size (scenario_zero.num_devices - 1)
          (0 + t) ≠ (s, a)) →
        w.st.disk s a = scenario_zero.disk s a) ∧
      (∀ a, (∀ t, t < 4 →
          a / scenario_zero.block_size ≠
            (0 + t) / scenario_zero.block_size / (scenario_zero.num_devices - 1)) →
        w.st.disk (scenario_zero.num_devices - 1) a =
          scenario_zero.disk (scenario_zero.num_devices - 1) a) ∧
      (∀ s a, scenario_zero.num_devices ≤ s → w.st.disk s a = scenario_zero.disk s a)) ∧
    (xmp_write 4 scenario_zero (ofBytes [0xAA, 0xBB, 0xCC, 0xDD]) 4 0).map
      (fun w => (bytes (w.st.disk 0) 0 8, bytes (w.st.disk 1) 0 8, bytes (w.st.disk 2) 0 8)) =
      some ([0xAA, 0xBB, 0xCC, 0xDD, 0, 0, 0, 0], [0, 0, 0, 0, 0, 0, 0, 0],
        [0xAA, 0xBB, 0xCC, 0xDD, 0, 0, 0, 0]) :=
  ⟨⟨by decide, by decide, by decide, ⟨rfl, by decide⟩, by decide, by decide, by decide,
      by decide⟩,
    write_leaves_other_regions_32bit scenario_zero 8 4 4 0 (ofBytes [0xAA, 0xBB, 0xCC, 0xDD])
      (by decide) (by decide) (by decide) ⟨rfl, by decide⟩ (by decide) (by decide) (by decide)
      (by decide),
    by decide⟩

/-- C21, counterexample. With `block_size = 1` and three devices of `2^32`
bytes (virtual size `2^33`), the in-range write of `[55]` at offset `2^32` makes
a read of virtual byte 0, which lies outside the written range, return `55`
where it returned `00` before: the block number `2^32` is truncated to 0 and the
payload lands on device 0 at offset 0 instead of offset `2^31`. With
`block_size = 4096` and devices of `2^33` bytes the same happens for a write at
offset `2^33`, whose block number `2^21` fits in 32 bits: the product
`2^20 * 4096` wraps to 0. -/
theorem write_disturbs_other_region_counterexample :
    (4294967296 + 1 ≤ virtual_size 4294967296 1 (scenario_1.num_devices - 1) ∧
      (xmp_read 1 scenario_1 (fun _ => 0) 1 0).map (fun r => r.buf 0) = some 0 ∧
      (xmp_write 1 scenario_1 (ofBytes [0x55]) 1 4294967296).bind
        (fun w => (xmp_read 1 w.st (fun _ => 0) 1 0).map (fun r => (r.buf 0, w.st.disk 0 0))) =
        some (0x55, 0x55) ∧
      spec_loc 1 2 4294967296 = (0, 2147483648)) ∧
    (8589934592 + 1 ≤ virtual_size 8589934592 4096 (scenario_4k.num_devices - 1) ∧
      (xmp_read 1 scenario_4k (fun _ => 0) 1 0).map (fun r => r.buf 0) = some 0 ∧
      (xmp_write 1 scenario_4k (ofBytes [0x55]) 1 8589934592).bind
        (fun w => (xmp_read 1 w.st (fun _ => 0) 1 0).map (fun r => (r.buf 0, w.st.disk 0 0))) =
        some (0x55, 0x55) ∧
      spec_loc 4096 2 8589934592 = (0, 4294967296)) := by
  refine ⟨⟨by decide, by decide, by decide, by decide⟩,
    ⟨by decide, by decide, by decide, by decide⟩⟩

/-- C22, witness: scenarios (c) and (e) of the specification. On the array of
scenario (c), writing `[FF]` at offset 2 (a byte of device 0) with device 0
present and with device 0 marked absent leaves device 1 = `[00 11 22 00]` and
parity = `[AA AA DD DD]` in both runs. -/
theorem degraded_write_agrees_with_healthy_witness :
    (0 < scenario_c.block_size ∧ scenario_c.block_size < 4294967296 ∧
      2 ≤ scenario_c.num_devices ∧ Healthy scenario_c ∧ ParityInv scenario_c ∧
      0 < scenario_c.num_devices - 1 ∧ 1 ≤ 1) ∧
    (∃ r r', xmp_write 1 scenario_c (ofBytes [0xFF]) 1 2 = some r ∧
      xmp_write 1 (scenario_c.mark_absent 0) (ofBytes [0xFF]) 1 2 = some r' ∧
      r.status = 0 ∧ r'.status = 0 ∧
      (∀ s a, s ≠ 0 → r'.st.disk s a = r.st.disk s a) ∧
      (∀ a, r'.st.disk 0 a = scenario_c.disk 0 a) ∧
      (∀ k i, i < scenario_c.block_size →
        (getMissedBlk r'.st k).1 i = r.st.disk 0 (blk_off scenario_c k + i)) ∧
      (∀ pos k w n a, w + n ≤ scenario_c.block_size →
        (write_on_missed (scenario_c.mark_absent 0) (ofBytes [0xFF]) pos k w n).1.disk
            (scenario_c.num_devices - 1) a =
          (write_into_blk scenario_c (ofBytes [0xFF]) pos 0 n (blk_off scenario_c k + w)
            k).1.disk (scenario_c.num_devices - 1) a)) ∧
    (xmp_write 1 scenario_c (ofBytes [0xFF]) 1 2).map
      (fun w => (bytes (w.st.disk 0) 0 4, bytes (w.st.disk 1) 0 4, bytes (w.st.disk 2) 0 4)) =
      some ([0xAA, 0xBB, 0xFF, 0xDD], [0x00, 0x11, 0x22, 0x00], [0xAA, 0xAA, 0xDD, 0xDD]) ∧
    (xmp_write 1 (scenario_c.mark_absent 0) (ofBytes [0xFF]) 1 2).map
      (fun w => (bytes (w.st.disk 0) 0 4, bytes (w.st.disk 1) 0 4, bytes (w.st.disk 2) 0 4)) =
      some ([0xAA, 0xBB, 0xCC, 0xDD], [0x00, 0x11, 0x22, 0x00], [0xAA, 0xAA, 0xDD, 0xDD]) :=
  ⟨⟨by decide, by decide, by decide, ⟨scenario_c_healthyInv.2.2.1, scenario_c_healthyInv.2.2.2.1⟩,
      (parityInv_iff_stripeXor scenario_c (by decide)).mpr scenario_c_healthyInv.2.2.2.2,
      by decide, by decide⟩,
    degraded_write_agrees_with_healthy scenario_c 0 1 1 2 (ofBytes [0xFF]) (by decide)
      (by decide) (by decide) ⟨scenario_c_healthyInv.2.2.1, scenario_c_healthyInv.2.2.2.1⟩
      ((parityInv_iff_stripeXor scenario_c (by decide)).mpr scenario_c_healthyInv.2.2.2.2)
      (by decide) (by decide),
    by decide, by decide⟩

end Raid4

/-- C24, witness: scenarios (a) and (b) of the specification, a request of 8
bytes at offset 2 with `block_size = 4` on the zeroed RAID-0 and RAID-4 arrays:
both programs issue the tuples (0, 2, 2, 0), (1, 0, 4, 2), (0, 4, 2, 6). -/
theorem raid0_raid4_same_fragments_witness :
    (0 < 4 ∧ 4 < 4294967296 ∧ 8 < 4294967296 ∧ 8 ≤ 8 ∧ Raid0.scenario_zero.block_size = 4 ∧
      Raid4.scenario_zero.block_size = 4 ∧ Raid4.scenario_zero.num_devices = 3 ∧
      (∀ s, s < 3 → Raid4.scenario_zero.dev_fd s ≠ -1) ∧
      Raid4.scenario_zero.degraded = false) ∧
    (∃ r0 r4 w0 w4,
      Raid0.xmp_read 8 Raid0.scenario_zero (fun _ => 0) 8 2 = some r0 ∧
      Raid4.xmp_read 8 Raid4.scenario_zero (fun _ => 0) 8 2 = some r4 ∧
      Raid0.xmp_write 8 Raid0.scenario_zero (fun _ => 1) 8 2 = some w0 ∧
      Raid4.xmp_write 8 Raid4.scenario_zero (fun _ => 1) 8 2 = some w4 ∧
      r0.ops = r4.ops ∧
      (∀ op ∈ r0.ops, op.is_write = false) ∧
      w0.ops.map Op.tuple = r0.ops.map Op.tuple ∧
      (∀ op ∈ w0.ops, op.is_write = true) ∧
      (transfers w4.ops).map Op.tuple = r4.ops.map Op.tuple ∧
      (∀ op ∈ transfers w4.ops, op.is_write = true)) ∧
    (Raid0.xmp_read 8 Raid0.scenario_zero (fun _ => 0) 8 2).map
      (fun r => r.ops.map Op.tuple) =
      some [(0, 2, 2, some 0), (1, 0, 4, some 2), (0, 4, 2, some 6)] ∧
    (Raid4.xmp_write 8 Raid4.scenario_zero (fun _ => 1) 8 2).map
      (fun r => (transfers r.ops).map Op.tuple) =
      some [(0, 2, 2, some 0), (1, 0, 4, some 2), (0, 4, 2, some 6)] :=
  ⟨⟨by decide, by decide, by decide, by decide, rfl, rfl, rfl, by decide, rfl⟩,
    raid0_raid4_same_fragments Raid0.scenario_zero Raid4.scenario_zero 4 8 8 2 (fun _ => 0)
      (fun _ => 1) (by decide) (by decide) (by decide) (by decide) rfl rfl rfl (by decide) rfl,
    by decide, by decide⟩

end BUSE

/-! ## Pieces on present slots are the transfers -/

namespace BUSE

/-- A call on the caller's buffer for every piece: each is a transfer. -/
theorem transfers_piece_ops (wr : Bool) (bs dc : Nat) (ps : List Piece) :
    transfers (ps.map (piece_op wr bs dc)) = ps.map (piece_op wr bs dc) := by
  unfold transfers
  rw [List.filter_eq_self]
  intro op hop
  obtain ⟨p, _, rfl⟩ := List.mem_map.mp hop
  rfl

/-- A zero-length request is cut into the head piece alone, with byte count 0. -/
theorem pieces_zero {bs : Nat} (hbs : 0 < bs) (offset : Nat) :
    pieces bs offset 0 = [⟨offset / bs, offset % bs, 0, 0⟩] := by
  have hc : (bs - 1) / bs = 0 := Nat.div_eq_of_lt (by omega)
  simp only [pieces, Nat.zero_min, Nat.sub_zero, Nat.zero_add, hc, tail_pieces]

namespace Raid4

/-- The reads of `getMissedBlk` fill scratch blocks: none is a transfer. -/
theorem transfers_getMissedBlk (st : State) (k : Nat) :
    transfers (getMissedBlk st k).2 = [] := by
  unfold transfers
  rw [List.filter_eq_nil_iff]
  intro op hop
  obtain ⟨_, _, _, h, _⟩ := getMissedBlk_op st k op hop
  simp [h]

/-- The calls of `write_on_missed` fill and store scratch blocks: none is a
transfer. -/
theorem transfers_write_on_missed (st : State) (buf : Buf) (pos k w n : Nat) :
    transfers (write_on_missed st buf pos k w n).2 = [] := by
  simp only [write_on_missed, transfers_append, transfers_getMissedBlk, List.nil_append]
  rfl

/-- In every configuration the transfers of the body of `xmp_read` run over a
list of pieces are the reads of the pieces whose data slot is present, in order;
a piece on an absent slot is reconstructed and is no transfer. -/
theorem run_read_transfers (st : State) :
    ∀ (ps : List Piece) (buf : Buf),
      transfers (run_read st buf ps).2 =
        (ps.filter (fun p => st.present (u32 p.blk % (st.num_devices - 1)))).map
          (piece_op false st.block_size (st.num_devices - 1))
  | [], _ => rfl
  | p :: ps, buf => by
    have ih := run_read_transfers st ps
      (read_piece st buf p.pos (u32 p.blk % (st.num_devices - 1))
        (u32 p.blk / (st.num_devices - 1)) p.n
        (u32 (u32 p.blk / (st.num_devices - 1) * st.block_size) + p.w)).1
    simp only [run_read, transfers_append, ih]
    by_cases hp : st.dev_fd (u32 p.blk % (st.num_devices - 1)) ≠ -1
    · have hpr : st.present (u32 p.blk % (st.num_devices - 1)) = true := by
        simp [State.present, hp]
      simp only [read_piece, hp, ne_eq, not_false_eq_true, if_true, List.filter_cons, hpr,
        List.map_cons]
      rfl
    · have hpr : st.present (u32 p.blk % (st.num_devices - 1)) = false := by
        simp [State.present, not_not.mp hp]
      simp only [read_piece, hp, if_false, List.filter_cons, hpr, transfers_getMissedBlk,
        List.nil_append]
      rfl

/-- With every piece on a present data slot, the calls of the body of `xmp_read`
run over a list of pieces are the reads of the pieces and nothing else. -/
theorem run_read_present (st : State) :
    ∀ (ps : List Piece) (buf : Buf),
      (∀ p ∈ ps, st.dev_fd (u32 p.blk % (st.num_devices - 1)) ≠ -1) →
      (run_read st buf ps).2 = ps.map (piece_op false st.block_size (st.num_devices - 1))
  | [], _, _ => rfl
  | p :: ps, buf, h => by
    have hp := h p (List.mem_cons_self _ _)
    have ih := run_read_present st ps
      (read_piece st buf p.pos (u32 p.blk % (st.num_devices - 1))
        (u32 p.blk / (st.num_devices - 1)) p.n
        (u32 (u32 p.blk / (st.num_devices - 1) * st.block_size) + p.w)).1
      (fun q hq => h q (List.mem_cons_of_mem _ hq))
    simp only [run_read]
    rw [ih]
    simp only [read_piece, hp, ne_eq, not_false_eq_true, if_true, List.map_cons]
    rfl

/-- The transfers of the degraded body of `xmp_write` run over a list of pieces
are the payload writes of the pieces whose data slot is present, in order; a
piece on an absent slot only updates parity and is no transfer. -/
theorem run_write_degraded_transfers (bs N : Nat) (fd : Nat → Int) (buf : Buf) :
    ∀ (ps : List Piece) (st : State),
      st.block_size = bs → st.num_devices = N → st.dev_fd = fd →
      transfers (run_write write_piece_degraded st buf ps).2 =
        (ps.filter (fun p => decide (fd (u32 p.blk % (N - 1)) ≠ -1))).map
          (piece_op true bs (N - 1))
  | [], _, _, _, _ => rfl
  | p :: ps, st, hsb, hsN, hfd => by
    have hcfg := (write_piece_cfg bs N st buf p.pos (u32 p.blk % (N - 1))
      (u32 p.blk / (N - 1)) p.w p.n (u32 (u32 p.blk / (N - 1) * bs) + p.w) ⟨hsb, hsN⟩).1
    have hfd1 := (write_piece_degraded_fd st buf p.pos (u32 p.blk % (N - 1))
      (u32 p.blk / (N - 1)) p.w p.n (u32 (u32 p.blk / (N - 1) * bs) + p.w)).1
    have ih := run_write_degraded_transfers bs N fd buf ps _ hcfg.1 hcfg.2 (hfd1.trans hfd)
    simp only [run_write, hsb, hsN, transfers_append, ih]
    by_cases hp : fd (u32 p.blk % (N - 1)) = -1
    · have hp1 : st.dev_fd (u32 p.blk % (N - 1)) = -1 := by rw [hfd]; exact hp
      simp only [write_piece_degraded, hp1, if_true, transfers_write_on_missed]
      simp [hp]
    · have hp1 : ¬ st.dev_fd (u32 p.blk % (N - 1)) = -1 := by rw [hfd]; exact hp
      have hone : transfers (write_piece_degraded st buf p.pos (u32 p.blk % (N - 1))
          (u32 p.blk / (N - 1)) p.w p.n (u32 (u32 p.blk / (N - 1) * bs) + p.w)).2 =
          [piece_op true bs (N - 1) p] := by
        simp only [write_piece_degraded, hp1, if_false]
        split
        · rfl
        · rw [transfers_write_into_blk]
          rfl
      rw [hone]
      simp [hp]

end Raid4

/-- A list of pieces with the pieces on absent slots filtered out is the list
itself when none of its pieces is on an absent slot. -/
theorem pieces_filter_present {bs offset len : Nat} (hbs : 0 < bs) (hlen : 0 < len)
    (slot : Nat → Bool) (h : ∀ t, t < len → slot ((offset + t) / bs) = true) :
    (pieces bs offset len).filter (fun p => slot p.blk) = pieces bs offset len := by
  rw [List.filter_eq_self]
  intro p hp
  obtain ⟨t, ht, e⟩ := pieces_block hbs hlen p hp
  rw [e]
  exact h t ht

/-- The byte counts of the pieces of a request that pass a filter count the
length down when no byte of the request is filtered out. -/
theorem pieces_filter_countsDown {bs offset len : Nat} (hbs : 0 < bs) (slot : Nat → Bool)
    (h : ∀ t, t < len → slot ((offset + t) / bs) = true) :
    CountsDown bs offset len
      (((pieces bs offset len).filter (fun p => slot p.blk)).map Piece.n) := by
  by_cases hlen : 0 < len
  · rw [pieces_filter_present hbs hlen slot h]
    exact pieces_countsDown hbs
  · have h0 : len = 0 := by omega
    subst h0
    refine ⟨?_, fun h => absurd h (Nat.lt_irrefl 0)⟩
    rw [pieces_zero hbs]
    cases hs : slot (offset / bs) <;> simp [List.filter_cons, hs]

end BUSE

namespace BUSE

/-- C23. Termination and fragment count: for every `block_size > 0`, every
offset and every 32-bit length, with fuel `len` or more the RAID-4 `xmp_read` and
`xmp_write` return in every configuration (healthy or degraded) and are the
body of the callback run once for each piece of the request; the byte counts of
the pieces are positive and sum to `len` (the remaining length strictly
decreases and never underflows), and for `len > 0` there are exactly
`ceil((offset mod block_size + len) / block_size)` pieces. When no byte of the
request lies on an absent data slot (the slot of logical block `B` being
`(B mod 2^32) mod (num_devices - 1)`), the byte counts of the transfers of the
RAID-4 `xmp_read` have these properties, so that for `len > 0` the number of
transfers is `ceil((offset mod block_size + len) / block_size)`, and every call
is a transfer; likewise for the payload writes of the RAID-4 `xmp_write`, in its
non-degraded branch without any condition. The RAID-0 `xmp_read` and
`xmp_write` return and the byte counts of their calls have these properties. -/
theorem termination_and_fragment_count (s4 : Raid4.State) (s0 : Raid0.State)
    (bs fuel len offset : Nat) (buf : Buf)
    (hbs : 0 < bs) (hbs32 : bs < 4294967296) (hl32 : len < 4294967296) (hf : len ≤ fuel)
    (h4 : s4.block_size = bs) (h0 : s0.block_size = bs) :
    CountsDown bs offset len ((pieces bs offset len).map Piece.n) ∧
    (∃ r, Raid4.xmp_read fuel s4 buf len offset = some r ∧ r.status = 0 ∧
      (r.buf, r.ops) = Raid4.run_read s4 buf (pieces bs offset len)) ∧
    (∃ r, Raid4.xmp_write fuel s4 buf len offset = some r ∧ r.status = 0 ∧
      (r.st, r.ops) = Raid4.run_write
        (if s4.degraded then Raid4.write_piece_degraded else Raid4.write_piece_healthy)
        s4 buf (pieces bs offset len)) ∧
    ((∀ t, t < len → s4.dev_fd (u32 ((offset + t) / bs) % (s4.num_devices - 1)) ≠ -1) →
      ∃ r, Raid4.xmp_read fuel s4 buf len offset = some r ∧
        CountsDown bs offset len ((transfers r.ops).map Op.count) ∧
        (0 < len → transfers r.ops = r.ops)) ∧
    ((s4.degraded = true →
        ∀ t, t < len → s4.dev_fd (u32 ((offset + t) / bs) % (s4.num_devices - 1)) ≠ -1) →
      ∃ r, Raid4.xmp_write fuel s4 buf len offset = some r ∧
        CountsDown bs offset len ((transfers r.ops).map Op.count)) ∧
    (∃ r, Raid0.xmp_read fuel s0 buf len offset = some r ∧ r.status = 0 ∧
      CountsDown bs offset len (r.ops.map Op.count)) ∧
    (∃ r, Raid0.xmp_write fuel s0 buf len offset = some r ∧ r.status = 0 ∧
      CountsDown bs offset len (r.ops.map Op.count)) := by
  have hcd := @pieces_countsDown bs offset len hbs
  have hread := Raid4.xmp_read_run s4 bs hbs hbs32 h4 fuel buf len offset hf
  have hwrite := Raid4.xmp_write_run s4 bs hbs hbs32 h4 fuel buf len offset hf
  refine ⟨hcd, ⟨_, hread, rfl, rfl⟩, ⟨_, hwrite, rfl, rfl⟩, ?_, ?_, ?_, ?_⟩
  · intro hpres
    refine ⟨_, hread, ?_, ?_⟩
    · show CountsDown bs offset len
        ((transfers (Raid4.run_read s4 buf (pieces bs offset len)).2).map Op.count)
      rw [Raid4.run_read_transfers, piece_op_count]
      exact pieces_filter_countsDown hbs
        (fun B => s4.present (u32 B % (s4.num_devices - 1)))
        (fun t ht => by simp [Raid4.State.present, hpres t ht])
    · intro hlen
      show transfers (Raid4.run_read s4 buf (pieces bs offset len)).2 =
        (Raid4.run_read s4 buf (pieces bs offset len)).2
      rw [Raid4.run_read_present s4 _ buf (fun p hp => by
        obtain ⟨t, ht, e⟩ := pieces_block hbs hlen p hp
        rw [e]
        exact hpres t ht), transfers_piece_ops]
  · intro hpres
    cases hdeg : s4.degraded
    · obtain ⟨r, h1, _, h3⟩ := Raid4.xmp_write_pieces bs s4.num_devices hbs hbs32 s4 h4 rfl
        hdeg fuel buf len offset hf
      exact ⟨r, h1, by rw [h3, piece_op_count]; exact hcd⟩
    · refine ⟨_, hwrite, ?_⟩
      show CountsDown bs offset len ((transfers (Raid4.run_write
        (if s4.degraded then Raid4.write_piece_degraded else Raid4.write_piece_healthy)
        s4 buf (pieces bs offset len)).2).map Op.count)
      rw [hdeg, if_pos rfl,
        Raid4.run_write_degraded_transfers bs s4.num_devices s4.dev_fd buf _ s4 h4 rfl rfl,
        piece_op_count]
      exact pieces_filter_countsDown hbs
        (fun B => decide (s4.dev_fd (u32 B % (s4.num_devices - 1)) ≠ -1))
        (fun t ht => by simp [hpres hdeg t ht])
  · obtain ⟨r, h1, h2, h3⟩ := Raid0.raid0_read_pieces s0 bs hbs hbs32 h0 fuel buf len offset
      hf hl32
    exact ⟨r, h1, h2, by rw [h3, piece_op_count]; exact hcd⟩
  · obtain ⟨r, h1, h2, h3⟩ := Raid0.raid0_write_pieces s0 bs hbs hbs32 h0 fuel buf len offset
      hf hl32
    exact ⟨r, h1, h2, by rw [h3, piece_op_count]; exact hcd⟩

end BUSE

/-! ## Fragment count: evaluation on the scenarios -/

namespace BUSE

/-- C23, witness: a request of 8 bytes at offset 2 with `block_size = 4` on the
zeroed three-device array with the parity slot marked absent (degraded mode)
and on the zeroed RAID-0 array: three pieces of 2, 4 and 2 bytes,
`ceil((2 + 8) / 4) = 3`; no byte lies on an absent data slot, so the RAID-4
read issues exactly the three transfers and the degraded write exactly the
three payload writes. In scenario (d), where data device 0 is absent, the
4 bytes at offset 4 lie on device 1 and are read by one transfer. -/
theorem termination_and_fragment_count_witness :
    (0 < 4 ∧ 4 < 4294967296 ∧ 8 < 4294967296 ∧ 8 ≤ 8 ∧
      (Raid4.scenario_zero.mark_absent 2).block_size = 4 ∧
      Raid0.scenario_zero.block_size = 4) ∧
    (CountsDown 4 2 8 ((pieces 4 2 8).map Piece.n) ∧
    (∃ r, Raid4.xmp_read 8 (Raid4.scenario_zero.mark_absent 2) (fun _ => 0) 8 2 = some r ∧
      r.status = 0 ∧
      (r.buf, r.ops) =
        Raid4.run_read (Raid4.scenario_zero.mark_absent 2) (fun _ => 0) (pieces 4 2 8)) ∧
    (∃ r, Raid4.xmp_write 8 (Raid4.scenario_zero.mark_absent 2) (fun _ => 0) 8 2 = some r ∧
      r.status = 0 ∧
      (r.st, r.ops) = Raid4.run_write
        (if (Raid4.scenario_zero.mark_absent 2).degraded then Raid4.write_piece_degraded
          else Raid4.write_piece_healthy)
        (Raid4.scenario_zero.mark_absent 2) (fun _ => 0) (pieces 4 2 8)) ∧
    ((∀ t, t < 8 → (Raid4.scenario_zero.mark_absent 2).dev_fd
        (u32 ((2 + t) / 4) % ((Raid4.scenario_zero.mark_absent 2).num_devices - 1)) ≠ -1) →
      ∃ r, Raid4.xmp_read 8 (Raid4.scenario_zero.mark_absent 2) (fun _ => 0) 8 2 = some r ∧
        CountsDown 4 2 8 ((transfers r.ops).map Op.count) ∧
        (0 < 8 → transfers r.ops = r.ops)) ∧
    (((Raid4.scenario_zero.mark_absent 2).degraded = true →
        ∀ t, t < 8 → (Raid4.scenario_zero.mark_absent 2).dev_fd
          (u32 ((2 + t) / 4) % ((Raid4.scenario_zero.mark_absent 2).num_devices - 1)) ≠ -1) →
      ∃ r, Raid4.xmp_write 8 (Raid4.scenario_zero.mark_absent 2) (fun _ => 0) 8 2 = some r ∧
        CountsDown 4 2 8 ((transfers r.ops).map Op.count)) ∧
    (∃ r, Raid0.xmp_read 8 Raid0.scenario_zero (fun _ => 0) 8 2 = some r ∧ r.status = 0 ∧
      CountsDown 4 2 8 (r.ops.map Op.count)) ∧
    (∃ r, Raid0.xmp_write 8 Raid0.scenario_zero (fun _ => 0) 8 2 = some r ∧ r.status = 0 ∧
      CountsDown 4 2 8 (r.ops.map Op.count))) ∧
    ((Raid4.scenario_zero.mark_absent 2).degraded = true ∧
      (∀ s, s < 3 → ((Raid4.scenario_zero.mark_absent 2).dev_fd s = -1 ↔ s = 2)) ∧
      ∀ t, t < 8 → (Raid4.scenario_zero.mark_absent 2).dev_fd
        (u32 ((2 + t) / 4) % ((Raid4.scenario_zero.mark_absent 2).num_devices - 1)) ≠ -1) ∧
    (pieces 4 2 8).map Piece.n = [2, 4, 2] ∧ (2 % 4 + 8 + 4 - 1) / 4 = 3 ∧
    (Raid4.xmp_read 8 (Raid4.scenario_zero.mark_absent 2) (fun _ => 0) 8 2).map
      (fun r => r.ops.map Op.count) = some [2, 4, 2] ∧
    (Raid4.xmp_write 8 (Raid4.scenario_zero.mark_absent 2) (fun _ => 0) 8 2).map
      (fun r => r.ops.map Op.count) = some [2, 4, 2] ∧
    (Raid0.xmp_read 8 Raid0.scenario_zero (fun _ => 0) 8 2).map
      (fun r => r.ops.map Op.count) = some [2, 4, 2] ∧
    (∀ t, t < 4 → Raid4.scenario_d.dev_fd
      (u32 ((4 + t) / 4) % (Raid4.scenario_d.num_devices - 1)) ≠ -1) ∧
    (4 % 4 + 4 + 4 - 1) / 4 = 1 ∧
    (Raid4.xmp_read 4 Raid4.scenario_d (fun _ => 0) 4 4).map
      (fun r => r.ops.map Op.tuple) = some [(1, 0, 4, some 0)] :=
  ⟨⟨by decide, by decide, by decide, by decide, rfl, rfl⟩,
    termination_and_fragment_count (Raid4.scenario_zero.mark_absent 2) Raid0.scenario_zero
      4 8 8 2 (fun _ => 0) (by decide) (by decide) (by decide) (by decide) rfl rfl,
    ⟨rfl, by decide, by decide⟩,
    by decide, by decide, by decide, by decide, by decide, by decide, by decide, by decide⟩

/-- C23, counterexample: scenario (d) of the specification, `block_size = 4`,
data device 0 absent. The read of 4 bytes at offset 0 is one piece,
`ceil((0 + 4) / 4) = 1`, but the piece lies on the absent device and is
reconstructed: the call returns 0 after two whole-block reads into scratch
memory and no transfer. The write of 8 bytes at offset 2 has three pieces,
`ceil((2 + 8) / 4) = 3`; the first and the third lie on the absent device, so
the call issues 13 calls of which one is a payload write. -/
theorem fragment_count_counterexample :
    (0 < Raid4.scenario_d.block_size ∧ Raid4.scenario_d.block_size = 4 ∧
      Raid4.scenario_d.degraded = true ∧
      ∀ s, s < Raid4.scenario_d.num_devices → (Raid4.scenario_d.dev_fd s = -1 ↔ s = 0)) ∧
    ((0 % 4 + 4 + 4 - 1) / 4 = 1 ∧
      (Raid4.xmp_read 4 Raid4.scenario_d (fun _ => 0) 4 0).map
        (fun r => (r.status, (transfers r.ops).length, r.ops.length)) = some (0, 0, 2) ∧
      (Raid4.xmp_read 4 Raid4.scenario_d (fun _ => 0) 4 0).map
        (fun r => r.ops.map Op.tuple) = some [(1, 0, 4, none), (2, 0, 4, none)]) ∧
    ((2 % 4 + 8 + 4 - 1) / 4 = 3 ∧
      (Raid4.xmp_write 8 Raid4.scenario_d (fun _ => 0) 8 2).map
        (fun r => (r.status, (transfers r.ops).length, r.ops.length)) = some (0, 1, 13) ∧
      (Raid4.xmp_write 8 Raid4.scenario_d (fun _ => 0) 8 2).map
        (fun r => (transfers r.ops).map Op.tuple) = some [(1, 0, 4, some 2)]) :=
  ⟨⟨by decide, rfl, rfl, by decide⟩, ⟨by decide, by decide, by decide⟩,
    ⟨by decide, by decide, by decide⟩⟩

end BUSE
